import Mathlib

/-!
# grepcidr: a shallow embedding of `grepcidr.c`

The C program is embedded function by function.  Conventions:

* a C string or buffer is a `List Char`, one `Char` per byte; reading the
  terminator of a string yields the NUL character;
* `unsigned int` values are `Nat`, reduced modulo `2 ^ 32` after every
  operation that can overflow; `int` values are `Int`, wrapped to the
  32-bit two's complement range after every arithmetic assignment;
* `long` is 64 bits wide (LP64), as `(1L << 32)` in the source requires;
* the global variables read by a function become parameters of its model;
* an out-of-bounds read of a pattern array is reported as
  `Fault.outOfBounds`, a failed `assert` as `Fault.assertFailed`, and a loop
  that is cut by the recursion bound of its model as `Fault.outOfFuel`.
-/

namespace Grepcidr

/-! ## Characters (`<ctype.h>`, "C" locale) -/

/-- The NUL byte that terminates a C string. -/
def NUL : Char := Char.ofNat 0

/-- C `isdigit`. -/
def isdigit (ch : Char) : Bool := decide (48 ≤ ch.toNat) && decide (ch.toNat ≤ 57)

/-- C `isspace`: space, `\t`, `\n`, `\v`, `\f`, `\r`. -/
def isspace (ch : Char) : Bool :=
  decide (ch.toNat = 32) || (decide (9 ≤ ch.toNat) && decide (ch.toNat ≤ 13))

/-- C `isxdigit`. -/
def isxdigit (ch : Char) : Bool :=
  isdigit ch || (decide (97 ≤ ch.toNat) && decide (ch.toNat ≤ 102))
    || (decide (65 ≤ ch.toNat) && decide (ch.toNat ≤ 70))

/-- The value `ch - '0'` of a decimal digit. -/
def dval (ch : Char) : Nat := ch.toNat - 48

/-- The macro `xtod(c) ((c<='9')?(c-'0'):((c&15)+9))`; only used on hex digits. -/
def xtod (ch : Char) : Nat :=
  if ch.toNat ≤ 57 then ch.toNat - 48 else (ch.toNat &&& 15) + 9

/-! ## Machine integers -/

/-- Reduction of a value to `unsigned int`. -/
def u32 (n : Nat) : Nat := n % 2 ^ 32

/-- Reduction of a value to `int` (32-bit two's complement). -/
def i32 (z : Int) : Int := (z + 2 ^ 31) % 2 ^ 32 - 2 ^ 31

/-- Bitwise complement of an `unsigned int`. -/
def not32 (n : Nat) : Nat := n ^^^ 0xFFFFFFFF

/-- Faults of the model: behaviour that the C program leaves undefined, or a
model loop that ran out of its recursion bound. -/
inductive Fault where
  | outOfBounds
  | outOfFuel
  | assertFailed
  deriving DecidableEq, Repr

deriving instance DecidableEq for Except

/-! ## Data model -/

/-- `struct netspec`: an inclusive range of IPv4 addresses. -/
structure netspec where
  min : Nat
  max : Nat
  deriving DecidableEq, Repr, Inhabited

/-- `struct v6addr`: the 16 bytes of an IPv6 address, most significant first. -/
structure v6addr where
  a : List Nat
  deriving DecidableEq, Repr, Inhabited

/-- `struct netspec6`: an inclusive range of IPv6 addresses. -/
structure netspec6 where
  min : v6addr
  max : v6addr
  deriving DecidableEq, Repr, Inhabited

/-! ## `net_parse`: the IPv4 pattern compiler -/

/-- `enum iscan` of `net_parse`. -/
inductive iscan where
  | I_BEG | I_IP1 | I_IP1D | I_IP2 | I_IP2D | I_IP3 | I_IP3D | I_IP4
  | I_MIP1 | I_MIP1D | I_MIP2 | I_MIP2D | I_MIP3 | I_MIP3D | I_MIP4
  | I_PIP | I_MASK | I_PD
  deriving DecidableEq, Repr

/-- The effect of `state++` on an `enum iscan` value. -/
def iscan.succ : iscan → iscan
  | .I_BEG => .I_IP1 | .I_IP1 => .I_IP1D | .I_IP1D => .I_IP2 | .I_IP2 => .I_IP2D
  | .I_IP2D => .I_IP3 | .I_IP3 => .I_IP3D | .I_IP3D => .I_IP4 | .I_IP4 => .I_MIP1
  | .I_MIP1 => .I_MIP1D | .I_MIP1D => .I_MIP2 | .I_MIP2 => .I_MIP2D
  | .I_MIP2D => .I_MIP3 | .I_MIP3 => .I_MIP3D | .I_MIP3D => .I_MIP4
  | .I_MIP4 => .I_PIP | .I_PIP => .I_MASK | .I_MASK => .I_PD | .I_PD => .I_PD

/-- Messages that `net_parse` writes to `stderr`. -/
inductive Diag where
  | invalidCidr
  | backwardRange
  deriving DecidableEq, Repr

/-- The local variables of `net_parse`, and what it has printed so far. -/
structure ParseState where
  minip : Nat
  maxip : Nat
  octet : Nat
  size : Nat
  state : iscan
  err : List Diag
  deriving DecidableEq, Repr

/-- How one pass through the body of a scanning loop ends. -/
inductive Ctl (σ : Type) where
  | next (s : σ)
  | brk (s : σ)
  | ret0
  deriving DecidableEq, Repr

/-- The `switch` of `net_parse` on one character: `next` is `continue`,
`brk` is `break` out of the `switch`, `ret0` is `return 0`. -/
def net_parse_switch (sloppy : Bool) (s : ParseState) (ch : Char) : Ctl ParseState :=
  match s.state with
  | .I_BEG =>
      if isspace ch then .next s
      else if isdigit ch then .next { s with octet := dval ch, state := .I_IP1 }
      else .brk s
  | .I_IP1 | .I_IP2 | .I_IP3 | .I_MIP1 | .I_MIP2 | .I_MIP3 =>
      if isdigit ch then .next { s with octet := u32 (s.octet * 10 + dval ch) }
      else if ch = '.' then
        if s.octet > 255 then .ret0
        else .next { s with maxip := u32 (u32 (s.maxip <<< 8) + s.octet),
                            state := s.state.succ }
      else .ret0
  | .I_IP1D | .I_IP2D | .I_IP3D | .I_MIP1D | .I_MIP2D | .I_MIP3D =>
      if isdigit ch then .next { s with octet := dval ch, state := s.state.succ }
      else .ret0
  | .I_IP4 =>
      if isdigit ch then .next { s with octet := u32 (s.octet * 10 + dval ch) }
      else if s.octet > 255 then .ret0
      else
        let maxip := u32 (u32 (s.maxip <<< 8) + s.octet)
        let s := { s with maxip := maxip, minip := maxip }
        if ch = NUL then .brk s
        else if ch = '/' then .next { s with state := .I_MASK }
        else if ch = '-' then .next { s with state := .I_PD }
        else .next { s with state := .I_PIP }
  | .I_MIP4 =>
      if isdigit ch then .next { s with octet := u32 (s.octet * 10 + dval ch) }
      else if s.octet > 255 then .ret0
      else
        let s := { s with maxip := u32 (u32 (s.maxip <<< 8) + s.octet) }
        if ch ≠ NUL ∧ ¬ isspace ch then .ret0 else .brk s
  | .I_PIP =>
      if ch = '/' then .next { s with state := .I_MASK }
      else if ch = '-' then .next { s with state := .I_PD }
      else if ch = NUL then .brk s
      else if ¬ isspace ch then .ret0
      else .next s
  | .I_PD =>
      if isspace ch then .next s
      else if ¬ isdigit ch then .ret0
      else .next { s with octet := dval ch, state := .I_MIP1 }
  | .I_MASK =>
      if isdigit ch then .next { s with size := u32 (s.size * 10 + dval ch) }
      else if ch ≠ NUL ∧ ¬ isspace ch then .ret0
      else if s.size > 32 then .ret0
      else
        let mask := u32 ((1 <<< (32 - s.size)) % 2 ^ 64 - 1)
        let err := if s.maxip &&& mask ≠ 0 ∧ sloppy = false
                   then s.err ++ [Diag.invalidCidr] else s.err
        .brk { s with err := err, minip := s.minip &&& not32 mask,
                      maxip := s.maxip ||| mask }

/-- The code of `net_parse` after its loop: store the range, report a
backward range, return 1. -/
def net_parse_finish (s : ParseState) : netspec × List Diag :=
  (⟨s.minip, s.maxip⟩,
   if s.minip > s.maxip then s.err ++ [Diag.backwardRange] else s.err)

/-- The `for(p = line;;)` loop of `net_parse`.  `*p++` reads the head of the
remaining text, or NUL at its end; no state continues after reading NUL, so
the loop never reads past the terminator (a `next` there would, and is
modelled as failure). -/
def net_parse_loop (sloppy : Bool) : ParseState → List Char → Option (netspec × List Diag)
  | s, [] =>
      match net_parse_switch sloppy s NUL with
      | .brk s' => some (net_parse_finish s')
      | _ => none
  | s, ch :: rest =>
      match net_parse_switch sloppy s ch with
      | .next s' => net_parse_loop sloppy s' rest
      | .ret0 => none
      | .brk s' =>
          if ch ≠ NUL ∧ ¬ isspace ch then none else some (net_parse_finish s')

/-- `int net_parse(const char* line, struct netspec* spec)`: `none` is the
return value 0, `some (spec, messages)` is the return value 1 with the range
stored in `*spec` and the messages written to `stderr`. -/
def net_parse (sloppy : Bool) (line : List Char) : Option (netspec × List Diag) :=
  net_parse_loop sloppy ⟨0, 0, 0, 0, .I_BEG, []⟩ line

/-! ## `applymask6` -/

/-- The loop `while(nbytes < 16)` of `applymask6`, run for `16 - nbytes`
rounds: it clears the byte of `min`, sets the byte of `max`, and records a
nonzero byte of the address. -/
def applymask6_loop (ahi : v6addr) : Nat → Nat → netspec6 → Bool → netspec6 × Bool
  | 0, _, spec, badbits => (spec, badbits)
  | k + 1, nbytes, spec, badbits =>
      applymask6_loop ahi k (nbytes + 1)
        ⟨⟨spec.min.a.set nbytes 0⟩, ⟨spec.max.a.set nbytes 255⟩⟩
        (if ahi.a.getD nbytes 0 ≠ 0 then true else badbits)

/-- `static int applymask6(const v6addr ahi, int size, struct netspec6 *spec)`:
the range stored in `*spec` and the returned `!badbits`. -/
def applymask6 (ahi : v6addr) (size : Int) : Except Fault (netspec6 × Int) :=
  if ¬ (size ≥ 0 ∧ size ≤ 128) then .error .assertFailed
  else
    let spec : netspec6 := ⟨ahi, ahi⟩
    if size ≥ 0 then
      let nbits := size.toNat &&& 7
      let nbytes := size.toNat >>> 3
      let r : netspec6 × Bool :=
        if nbits ≠ 0 then
          let mask := 255 >>> nbits
          applymask6_loop ahi (16 - (nbytes + 1)) (nbytes + 1)
            ⟨⟨spec.min.a.set nbytes (spec.min.a.getD nbytes 0 &&& (255 - mask))⟩,
             ⟨spec.max.a.set nbytes (spec.max.a.getD nbytes 0 ||| mask)⟩⟩
            (decide (ahi.a.getD nbytes 0 &&& mask ≠ 0))
        else applymask6_loop ahi (16 - nbytes) nbytes spec false
      .ok (r.1, if r.2 then 0 else 1)
    else .ok (spec, 1)

/-! ## Sorting and merging the pattern arrays (`main`) -/

/-- `int netsort(const void* a, const void* b)`. -/
def netsort (a b : netspec) : Int :=
  if a.min < b.min then -1
  else if a.min > b.min then 1
  else if a.max < b.max then -1
  else if a.max > b.max then 1
  else 0

/-- `memcmp` on the first `n` bytes of two byte arrays: the sign of the
difference of the first bytes that differ. -/
def memcmp : List Nat → List Nat → Nat → Int
  | x :: xs, y :: ys, n + 1 =>
      if x < y then -1 else if x > y then 1 else memcmp xs ys n
  | _, _, _ => 0

/-- The macro `v6cmp(a1, a2) memcmp((a1).a,(a2).a,16)`. -/
def v6cmp (a1 a2 : v6addr) : Int := memcmp a1.a a2.a 16

/-- `int netsort6(const void* a, const void* b)`. -/
def netsort6 (a b : netspec6) : Int :=
  let r := v6cmp a.min b.min
  if r ≠ 0 then r else v6cmp a.max b.max

/-- The C library's `qsort`: the array sorted by the comparison function.
`netsort` and `netsort6` return 0 only on equal ranges, so the sorted array
does not depend on the sorting algorithm. -/
def qsort {α : Type} (cmp : α → α → Int) (array : List α) : List α :=
  array.insertionSort (fun a b => cmp a b ≤ 0)

/-- The loop `for (inp = array+1; inp < array+npatterns; inp++)` of `main`
that combines overlapping IPv4 ranges in place; the first argument counts the
rounds left, `outp` and `inp` are indices into `array`. -/
def merge_loop : Nat → List netspec → Nat → Nat → List netspec × Nat
  | 0, array, outp, _ => (array, outp)
  | k + 1, array, outp, inp =>
      let i := array.getD inp default
      let o := array.getD outp default
      if i.max ≤ o.max then merge_loop k array outp (inp + 1)
      else if i.min ≤ o.max then
        merge_loop k (array.set outp { o with max := i.max }) outp (inp + 1)
      else if outp + 1 < inp then
        merge_loop k (array.set (outp + 1) i) (outp + 1) (inp + 1)
      else merge_loop k array (outp + 1) (inp + 1)

/-- The block `if(npatterns) { qsort(...); ... npatterns = outp-array+1; }`
of `main`: the IPv4 pattern array after sorting and merging, cut to its new
length `npatterns`. -/
def sort_merge (array : List netspec) : List netspec :=
  if array.length = 0 then array
  else
    let sorted := qsort netsort array
    let r := merge_loop (sorted.length - 1) sorted 0 1
    r.1.take (r.2 + 1)

/-- The IPv6 loop `for (inp = array6+1; inp < array6+n6patterns; inp++)`. -/
def merge_loop6 : Nat → List netspec6 → Nat → Nat → List netspec6 × Nat
  | 0, array, outp, _ => (array, outp)
  | k + 1, array, outp, inp =>
      let i := array.getD inp default
      let o := array.getD outp default
      if v6cmp i.max o.max ≤ 0 then merge_loop6 k array outp (inp + 1)
      else if v6cmp i.min o.max ≤ 0 then
        merge_loop6 k (array.set outp { o with max := i.max }) outp (inp + 1)
      else if outp + 1 < inp then
        merge_loop6 k (array.set (outp + 1) i) (outp + 1) (inp + 1)
      else merge_loop6 k array (outp + 1) (inp + 1)

/-- The block `if(n6patterns) { ... }` of `main`. -/
def sort_merge6 (array : List netspec6) : List netspec6 :=
  if array.length = 0 then array
  else
    let sorted := qsort netsort6 array
    let r := merge_loop6 (sorted.length - 1) sorted 0 1
    r.1.take (r.2 + 1)

/-! ## The range matchers `netmatch` and `netmatch6` -/

/-- An element `array[i]` of a pattern array, `i` being a C `int`. -/
def elemAt {α : Type} (array : List α) (i : Int) : Except Fault α :=
  if 0 ≤ i then
    match array.get? i.toNat with
    | some x => .ok x
    | none => .error .outOfBounds
  else .error .outOfBounds

/-- The loop `while(minx <= maxx)` of `netmatch`; its value is `tryx` after
the loop.  The first argument bounds the number of rounds. -/
def netmatch_search (array : List netspec) (ip4 : netspec) :
    Nat → Int → Int → Int → Except Fault Int
  | 0, minx, maxx, tryx => if minx ≤ maxx then .error .outOfFuel else .ok tryx
  | fuel + 1, minx, maxx, tryx =>
      if minx ≤ maxx then
        let tryx := (minx + maxx) / 2
        match elemAt array tryx with
        | .error e => .error e
        | .ok t =>
            if ip4.max < t.min then netmatch_search array ip4 fuel minx (tryx - 1) tryx
            else if ip4.min > t.max then netmatch_search array ip4 fuel (tryx + 1) maxx tryx
            else .ok tryx
      else .ok tryx

/-- `static int netmatch(const struct netspec ip4)`, with the globals
`didrsearch`, `array` and `npatterns = array.length` as parameters. -/
def netmatch (didrsearch : Bool) (array : List netspec) (ip4 : netspec) :
    Except Fault Bool :=
  let maxx : Int := (array.length : Int) - 1
  match elemAt array 0 with
  | .error e => .error e
  | .ok first =>
    if ip4.max < first.min then .ok false
    else
      match elemAt array maxx with
      | .error e => .error e
      | .ok last =>
        if ip4.min > last.max then .ok false
        else
          match netmatch_search array ip4 array.length 0 maxx 0 with
          | .error e => .error e
          | .ok tryx =>
            match elemAt array tryx with
            | .error e => .error e
            | .ok t =>
              if ip4.min ≥ t.min ∧ ip4.max ≤ t.max then .ok true
              else if didrsearch then
                if ip4.min ≤ t.min ∧ ip4.max ≥ t.max then .ok true
                else if ip4.min ≥ t.min ∧ ip4.min ≤ t.max then .ok true
                else if ip4.max ≥ t.min ∧ ip4.max ≤ t.max then .ok true
                else .ok false
              else .ok false

/-- The loop `while(minx <= maxx)` of `netmatch6`. -/
def netmatch6_search (array6 : List netspec6) (ip6 : netspec6) :
    Nat → Int → Int → Int → Except Fault Int
  | 0, minx, maxx, tryx => if minx ≤ maxx then .error .outOfFuel else .ok tryx
  | fuel + 1, minx, maxx, tryx =>
      if minx ≤ maxx then
        let tryx := (minx + maxx) / 2
        match elemAt array6 tryx with
        | .error e => .error e
        | .ok t =>
            if v6cmp ip6.min t.min < 0 then
              netmatch6_search array6 ip6 fuel minx (tryx - 1) tryx
            else if v6cmp ip6.min t.max > 0 then
              netmatch6_search array6 ip6 fuel (tryx + 1) maxx tryx
            else .ok tryx
      else .ok tryx

/-- `static int netmatch6(const struct netspec6 ip6)`. -/
def netmatch6 (didrsearch : Bool) (array6 : List netspec6) (ip6 : netspec6) :
    Except Fault Bool :=
  let maxx : Int := (array6.length : Int) - 1
  match elemAt array6 0 with
  | .error e => .error e
  | .ok first =>
    if v6cmp ip6.max first.min < 0 then .ok false
    else
      match elemAt array6 maxx with
      | .error e => .error e
      | .ok last =>
        if v6cmp ip6.min last.max > 0 then .ok false
        else
          match netmatch6_search array6 ip6 array6.length 0 maxx 0 with
          | .error e => .error e
          | .ok tryx =>
            match elemAt array6 tryx with
            | .error e => .error e
            | .ok t =>
              if v6cmp ip6.min t.min ≥ 0 ∧ v6cmp ip6.max t.max ≤ 0 then .ok true
              else if didrsearch then
                if v6cmp ip6.min t.min ≤ 0 ∧ v6cmp ip6.max t.max ≥ 0 then .ok true
                else if v6cmp ip6.min t.min ≥ 0 ∧ v6cmp ip6.min t.max ≤ 0 then .ok true
                else if v6cmp ip6.max t.min ≥ 0 ∧ v6cmp ip6.max t.max ≤ 0 then .ok true
                else .ok false
              else .ok false

/-! ## `scan_block`: the text scanner -/

/-- `enum sscan` of `scan_block`. -/
inductive sscan where
  | S_BEG | S_SC | S_NSC | S_IP1 | S_IP1D | S_IP2 | S_IP2D | S_IP3 | S_IP3D | S_IP4
  | S_V4SZ | S_HCH | S_HC1 | S_HC2 | S_LCH | S_LC1 | S_IC1
  | S_EIP1D | S_EIP2 | S_EIP2D | S_EIP3 | S_EIP3D | S_EIP4
  | S_V6SZ | S_SCNL | S_SCNLP
  deriving DecidableEq, Repr

/-- The effect of `state++` on an `enum sscan` value. -/
def sscan.succ : sscan → sscan
  | .S_BEG => .S_SC | .S_SC => .S_NSC | .S_NSC => .S_IP1 | .S_IP1 => .S_IP1D
  | .S_IP1D => .S_IP2 | .S_IP2 => .S_IP2D | .S_IP2D => .S_IP3 | .S_IP3 => .S_IP3D
  | .S_IP3D => .S_IP4 | .S_IP4 => .S_V4SZ | .S_V4SZ => .S_HCH | .S_HCH => .S_HC1
  | .S_HC1 => .S_HC2 | .S_HC2 => .S_LCH | .S_LCH => .S_LC1 | .S_LC1 => .S_IC1
  | .S_IC1 => .S_EIP1D | .S_EIP1D => .S_EIP2 | .S_EIP2 => .S_EIP2D
  | .S_EIP2D => .S_EIP3 | .S_EIP3 => .S_EIP3D | .S_EIP3D => .S_EIP4
  | .S_EIP4 => .S_V6SZ | .S_V6SZ => .S_SCNL | .S_SCNL => .S_SCNLP
  | .S_SCNLP => .S_SCNLP

/-- The global variables that `scan_block` and the matchers read, and the
argument `fn`. -/
structure ScanEnv where
  counting : Bool
  invert : Bool
  anchor : Bool
  nonames : Bool
  cidrsearch : Bool
  didrsearch : Bool
  quick : Bool
  array : List netspec
  array6 : List netspec6
  fn : Option (List Char)

/-- The local variables of `scan_block`, its view of the buffer, what it has
written to `stdout`, and the global counter `nmatch`.  The pointers `p` and
`lp` are kept as the bytes they delimit: `p` is the text from `p` to `plim`,
`line` is the text from `lp` to `p`.  The arrays `ahi` and `alo`, which C
leaves uninitialised, start as zero bytes.  `nmatch` counts lines and is
not wrapped. -/
structure ScanState where
  state : sscan
  p : List Char
  line : List Char
  ip4 : Nat
  octet : Int
  size : Int
  ahi : v6addr
  alo : v6addr
  nhi : Nat
  nlo : Nat
  chunk : Nat
  seenone : Bool
  out : List Char
  nmatch : Nat
  deriving DecidableEq, Repr

/-- `memset(dst + off, val, n)` on a byte array. -/
def memset (dst : List Nat) (off val : Nat) : Nat → List Nat
  | 0 => dst
  | n + 1 => memset (dst.set off val) (off + 1) val n

/-- `memcpy(dst + off, src, n)` on byte arrays. -/
def memcpy (dst : List Nat) (off : Nat) : List Nat → Nat → List Nat
  | x :: src, n + 1 => memcpy (dst.set off x) (off + 1) src n
  | _, _ => dst

/-- The store `a[i] = v` of an `int` or `unsigned` value into a byte. -/
def byteOf (v : Int) : Nat := (v % 256).toNat

/-- The loop `while(p < plim && (ch == ' ' || ch == '\t')) ch = *p++;`:
the last character read, the text left and the text of the line. -/
def skip_blanks : Char → List Char → List Char → Char × List Char × List Char
  | ch, [], line => (ch, [], line)
  | ch, c :: p, line =>
      if ch = ' ' ∨ ch = '\t' then skip_blanks c p (line ++ [c]) else (ch, c :: p, line)

/-- The loop `while(ch != '\n' && p < plim) ch = *p++;`. -/
def skip_line : Char → List Char → List Char → Char × List Char × List Char
  | ch, [], line => (ch, [], line)
  | ch, c :: p, line =>
      if ch ≠ '\n' then skip_line c p (line ++ [c]) else (ch, c :: p, line)

/-- The statements that print or count a line:
`nmatch++; if(!counting) { if(fn && !nonames) printf("%s:", fn); fwrite(lp, 1, p-lp, stdout); }`. -/
def emit_line (env : ScanEnv) (s : ScanState) : ScanState :=
  { s with
    nmatch := s.nmatch + 1,
    out :=
      if env.counting then s.out
      else
        match env.fn with
        | some name => if env.nonames then s.out ++ s.line
                       else s.out ++ (name ++ [':']) ++ s.line
        | none => s.out ++ s.line }

/-- The "default action if it wasn't an IP" after the `switch`, reached by
every `break`. -/
def scan_default (env : ScanEnv) (s : ScanState) (ch : Char) : ScanState :=
  if ch = '\n' then
    let s := if env.invert ∧ s.seenone then emit_line env s else s
    { s with state := .S_BEG }
  else { s with state := if env.anchor then .S_SCNL else .S_SC }

/-- The code at label `scnlp` (`case S_SCNLP`). -/
def scan_scnlp (env : ScanEnv) (s : ScanState) (ch : Char) : ScanState :=
  let r := skip_line ch s.p s.line
  let s := { s with p := r.2.1, line := r.2.2 }
  if r.1 = '\n' then
    let s := if env.invert then s else emit_line env s
    { s with state := .S_BEG }
  else s

/-- The code of `case S_SC` ("normal scanning"), also reached from `S_BEG`. -/
def scan_sc (env : ScanEnv) (s : ScanState) (ch : Char) : ScanState :=
  if isdigit ch then
    { s with ip4 := 0, state := .S_IP1, nhi := 0, nlo := 0,
             octet := (dval ch : Int), chunk := dval ch }
  else if isxdigit ch then
    { s with state := .S_HCH, nhi := 0, nlo := 0, octet := -1, chunk := xtod ch }
  else if ch = ':' then { s with state := .S_IC1 }
  else if env.quick ∧ ch = '.' then { s with state := .S_NSC }
  else scan_default env s ch

/-- The tail shared by the cases that have recognised an IPv6 address in
`ahi`: `seenone = 1; range6.min = range6.max = ahi; if(!netmatch6(range6))
break; state = S_SCNLP; goto scnlp;`. -/
def scan_try6 (env : ScanEnv) (s : ScanState) (ch : Char) (range6 : netspec6) :
    Except Fault ScanState :=
  let s := { s with seenone := true }
  match netmatch6 env.didrsearch env.array6 range6 with
  | .error e => .error e
  | .ok false => .ok (scan_default env s ch)
  | .ok true => .ok (scan_scnlp env { s with state := .S_SCNLP } ch)

/-- The tail shared by `S_IP4` and `S_V4SZ`: `if(!netmatch(range4)) break;
state = S_SCNLP; goto scnlp;`. -/
def scan_try4 (env : ScanEnv) (s : ScanState) (ch : Char) (range4 : netspec) :
    Except Fault ScanState :=
  match netmatch env.didrsearch env.array range4 with
  | .error e => .error e
  | .ok false => .ok (scan_default env s ch)
  | .ok true => .ok (scan_scnlp env { s with state := .S_SCNLP } ch)

/-- The code of `case S_IP2: case S_IP3:`, also reached from `S_IP1`. -/
def scan_ip23 (env : ScanEnv) (s : ScanState) (ch : Char) : ScanState :=
  if isdigit ch then { s with octet := i32 (s.octet * 10 + dval ch) }
  else if ch = '.' then
    if s.octet > 255 then scan_default env s ch
    else { s with ip4 := u32 (u32 (s.ip4 <<< 8) + (s.octet % 2 ^ 32).toNat),
                  state := s.state.succ }
  else scan_default env s ch

/-- The assignments `ahi.a[nhi++] = chunk >> 8; ahi.a[nhi++] = chunk & 255;`. -/
def push_hi (s : ScanState) : ScanState :=
  { s with ahi := ⟨(s.ahi.a.set s.nhi ((s.chunk >>> 8) % 256)).set (s.nhi + 1) (s.chunk &&& 255)⟩,
           nhi := s.nhi + 2 }

/-- The assignments `alo.a[nlo++] = chunk >> 8; alo.a[nlo++] = chunk & 255;`. -/
def push_lo (s : ScanState) : ScanState :=
  { s with alo := ⟨(s.alo.a.set s.nlo ((s.chunk >>> 8) % 256)).set (s.nlo + 1) (s.chunk &&& 255)⟩,
           nlo := s.nlo + 2 }

/-- `case S_BEG`: beginning of a line; falls through to `S_SC`. -/
def case_S_BEG (env : ScanEnv) (s : ScanState) (ch : Char) : Except Fault ScanState :=
  let r := skip_blanks ch s.p [ch]
  .ok (scan_sc env { s with line := r.2.2, p := r.2.1, seenone := false } r.1)

/-- `case S_SC`: normal scanning. -/
def case_S_SC (env : ScanEnv) (s : ScanState) (ch : Char) : Except Fault ScanState :=
  .ok (scan_sc env s ch)

/-- `case S_NSC`: ignore crud after a dot. -/
def case_S_NSC (env : ScanEnv) (s : ScanState) (ch : Char) : Except Fault ScanState :=
  if isdigit ch ∨ ch = '.' then .ok s
  else .ok (scan_default env { s with state := .S_SC } ch)

/-- `case S_IC1`: an initial colon; a character that is no second colon is
read again in state `S_SC` (`p--`). -/
def case_S_IC1 (_ : ScanEnv) (s : ScanState) (ch : Char) : Except Fault ScanState :=
  if ch = ':' then .ok { s with nhi := 0, nlo := 0, state := .S_HC2 }
  else .ok { s with state := .S_SC, p := ch :: s.p, line := s.line.dropLast }

/-- `case S_HCH`: in a high IPv6 chunk. -/
def case_S_HCH (env : ScanEnv) (s : ScanState) (ch : Char) : Except Fault ScanState :=
  if isxdigit ch then
    .ok { s with chunk := u32 (u32 (s.chunk <<< 4) + xtod ch),
                 octet := if isdigit ch then i32 (s.octet * 10 + dval ch) else -1 }
  else if ch = '.' ∧ s.nhi < 14 ∧ s.octet ≥ 0 then
    if s.octet > 255 then .ok (scan_default env s ch)
    else if s.nhi = 12 then
      .ok { s with ahi := ⟨s.ahi.a.set s.nhi (byteOf s.octet)⟩, nhi := s.nhi + 1,
                   state := .S_EIP1D }
    else .ok { s with ip4 := (s.octet % 2 ^ 32).toNat, state := .S_IP1D }
  else if s.chunk > 0xffff then .ok (scan_default env s ch)
  else
    let s := if s.nhi < 16 then push_hi s else s
    if ch = ':' then .ok { s with state := .S_HC1 }
    else if s.nhi = 16 then
      if env.array6.length = 0 then .ok (scan_default env s ch)
      else if env.cidrsearch ∧ ch = '/' then .ok { s with size := 0, state := .S_V6SZ }
      else scan_try6 env s ch ⟨s.ahi, s.ahi⟩
    else .ok (scan_default env s ch)

/-- `case S_HC1`: colon separator in the high part. -/
def case_S_HC1 (env : ScanEnv) (s : ScanState) (ch : Char) : Except Fault ScanState :=
  if isxdigit ch then
    .ok { s with chunk := xtod ch, octet := if isdigit ch then (dval ch : Int) else -1,
                 state := .S_HCH }
  else if ch = ':' then .ok { s with state := .S_HC2 }
  else .ok (scan_default env s ch)

/-- `case S_HC2`: seen `high::`. -/
def case_S_HC2 (env : ScanEnv) (s : ScanState) (ch : Char) : Except Fault ScanState :=
  if isxdigit ch then
    .ok { s with chunk := xtod ch, octet := if isdigit ch then (xtod ch : Int) else -1,
                 state := .S_LCH }
  else if s.nhi = 0 then
    if ch = ':' then .ok s else .ok (scan_default env s ch)
  else if env.array6.length = 0 then .ok (scan_default env s ch)
  else
    let s := { s with ahi := ⟨memset s.ahi.a s.nhi 0 (16 - s.nhi)⟩ }
    if env.cidrsearch ∧ ch = '/' then .ok { s with size := 0, state := .S_V6SZ }
    else
      let s := { s with size := -1 }
      scan_try6 env s ch ⟨s.ahi, s.ahi⟩

/-- `case S_V6SZ`: the prefix length after an IPv6 address. -/
def case_S_V6SZ (env : ScanEnv) (s : ScanState) (ch : Char) : Except Fault ScanState :=
  if isdigit ch then
    let size := if s.size ≥ 0 then i32 (s.size * 10 + dval ch) else s.size
    .ok { s with size := if size > 128 then -1 else size }
  else if env.array6.length = 0 then .ok (scan_default env s ch)
  else
    let s := { s with seenone := true, size := if s.size < 0 then 0 else s.size }
    match applymask6 s.ahi s.size with
    | .error e => .error e
    | .ok r => scan_try6 env s ch r.1

/-- `case S_LCH`: in a low IPv6 chunk. -/
def case_S_LCH (env : ScanEnv) (s : ScanState) (ch : Char) : Except Fault ScanState :=
  if isxdigit ch then
    .ok { s with chunk := u32 (u32 (s.chunk <<< 4) + xtod ch),
                 octet := if isdigit ch then i32 (s.octet * 10 + dval ch) else -1 }
  else if ch = '.' ∧ s.octet ≥ 0 ∧ s.octet ≤ 255 ∧ s.nhi + s.nlo < 12 then
    let ahi := memset s.ahi.a s.nhi 0 (12 - (s.nhi + s.nlo))
    let ahi := if s.nlo ≠ 0 then memcpy ahi (12 - s.nlo) s.alo.a s.nlo else ahi
    .ok { s with ahi := ⟨ahi.set 12 (byteOf s.octet)⟩, nhi := 13, state := .S_EIP1D }
  else if s.chunk > 0xffff then .ok (scan_default env s ch)
  else
    let s := if s.nlo < 16 then push_lo s else s
    if ch = ':' then .ok { s with state := .S_LC1 }
    else if env.array6.length = 0 then .ok (scan_default env s ch)
    else if s.nhi + s.nlo ≥ 14 then .ok (scan_default env s ch)
    else
      let ahi := memset s.ahi.a s.nhi 0 (16 - (s.nhi + s.nlo))
      let s := { s with ahi := ⟨memcpy ahi (16 - s.nlo) s.alo.a s.nlo⟩ }
      if env.cidrsearch ∧ ch = '/' then .ok { s with state := .S_V6SZ, size := 0 }
      else scan_try6 env s ch ⟨s.ahi, s.ahi⟩

/-- `case S_LC1`: seen a colon after a low chunk. -/
def case_S_LC1 (env : ScanEnv) (s : ScanState) (ch : Char) : Except Fault ScanState :=
  if isxdigit ch then
    .ok { s with chunk := xtod ch, octet := if isdigit ch then (xtod ch : Int) else -1,
                 state := .S_LCH }
  else .ok (scan_default env s ch)

/-- `case S_IP1`: in the first number, of either kind of address; falls
through to `S_IP2`. -/
def case_S_IP1 (env : ScanEnv) (s : ScanState) (ch : Char) : Except Fault ScanState :=
  if isxdigit ch then
    let s := { s with chunk := u32 (u32 (s.chunk <<< 4) + xtod ch) }
    if ¬ isdigit ch then .ok { s with state := .S_HCH, octet := -1 }
    else .ok (scan_ip23 env s ch)
  else if ch = ':' then .ok { push_hi s with state := .S_HC1 }
  else .ok (scan_ip23 env s ch)

/-- `case S_IP2: case S_IP3:`. -/
def case_S_IP2 (env : ScanEnv) (s : ScanState) (ch : Char) : Except Fault ScanState :=
  .ok (scan_ip23 env s ch)

/-- `case S_IP1D` to `S_IP3D` and `S_EIP1D` to `S_EIP3D`: saw a dot after an octet. -/
def case_S_IP1D (env : ScanEnv) (s : ScanState) (ch : Char) : Except Fault ScanState :=
  if isdigit ch then .ok { s with octet := (dval ch : Int), state := s.state.succ }
  else .ok (scan_default env s ch)

/-- `case S_IP4`: in the last octet. -/
def case_S_IP4 (env : ScanEnv) (s : ScanState) (ch : Char) : Except Fault ScanState :=
  if isdigit ch then .ok { s with octet := i32 (s.octet * 10 + dval ch) }
  else if env.quick ∧ ch = '.' then .ok { s with state := .S_NSC }
  else if s.octet > 255 then .ok (scan_default env s ch)
  else
    let s := { s with ip4 := u32 (u32 (s.ip4 <<< 8) + (s.octet % 2 ^ 32).toNat) }
    if env.array.length = 0 then .ok (scan_default env s ch)
    else if env.cidrsearch ∧ ch = '/' then .ok { s with state := .S_V4SZ, size := 0 }
    else scan_try4 env { s with seenone := true } ch ⟨s.ip4, s.ip4⟩

/-- `case S_V4SZ`: the prefix length after an IPv4 address. -/
def case_S_V4SZ (env : ScanEnv) (s : ScanState) (ch : Char) : Except Fault ScanState :=
  if isdigit ch then
    let size := if s.size ≥ 0 then i32 (s.size * 10 + dval ch) else s.size
    .ok { s with size := if size > 32 then -1 else size }
  else
    let s : ScanState := { s with seenone := true }
    let range4 : netspec :=
      if s.size ≥ (0 : Int) then
        let mask := u32 ((1 <<< ((32 : Int) - s.size).toNat) % 2 ^ 64 - 1)
        ⟨s.ip4 &&& not32 mask, s.ip4 ||| mask⟩
      else ⟨s.ip4, s.ip4⟩
    scan_try4 env s ch range4

/-- `case S_EIP2: case S_EIP3:`: in an embedded octet. -/
def case_S_EIP2 (env : ScanEnv) (s : ScanState) (ch : Char) : Except Fault ScanState :=
  if isdigit ch then .ok { s with octet := i32 (s.octet * 10 + dval ch) }
  else if ch = '.' then
    if s.octet > 255 then .ok (scan_default env s ch)
    else .ok { s with ahi := ⟨s.ahi.a.set s.nhi (byteOf s.octet)⟩, nhi := s.nhi + 1,
                      state := s.state.succ }
  else .ok (scan_default env s ch)

/-- `case S_EIP4`: in the last embedded octet. -/
def case_S_EIP4 (env : ScanEnv) (s : ScanState) (ch : Char) : Except Fault ScanState :=
  if isdigit ch then .ok { s with octet := i32 (s.octet * 10 + dval ch) }
  else if env.quick ∧ ch = '.' then .ok { s with state := .S_NSC }
  else if s.octet > 255 then .ok (scan_default env s ch)
  else
    let s := { s with ahi := ⟨s.ahi.a.set s.nhi (byteOf s.octet)⟩, nhi := s.nhi + 1,
                      seenone := true }
    let try4 (s : ScanState) : Except Fault ScanState :=
      let s := { s with ip4 := u32 ((s.ahi.a.getD 12 0 <<< 24) ||| (s.ahi.a.getD 13 0 <<< 16)
                                    ||| (s.ahi.a.getD 14 0 <<< 8) ||| s.ahi.a.getD 15 0) }
      if env.cidrsearch ∧ ch = '/' then .ok { s with state := .S_V4SZ, size := 0 }
      else if env.array.length = 0 then .ok (scan_default env s ch)
      else scan_try4 env s ch ⟨s.ip4, s.ip4⟩
    if env.array6.length ≠ 0 then
      match netmatch6 env.didrsearch env.array6 ⟨s.ahi, s.ahi⟩ with
      | .error e => .error e
      | .ok true => .ok (scan_scnlp env { s with state := .S_SCNLP } ch)
      | .ok false => try4 s
    else try4 s

/-- `case S_SCNLP`: print this line. -/
def case_S_SCNLP (env : ScanEnv) (s : ScanState) (ch : Char) : Except Fault ScanState :=
  .ok (scan_scnlp env s ch)

/-- `case S_SCNL`: scan for the end of the line. -/
def case_S_SCNL (env : ScanEnv) (s : ScanState) (ch : Char) : Except Fault ScanState :=
  let r := skip_line ch s.p s.line
  .ok (scan_default env { s with p := r.2.1, line := r.2.2 } r.1)

/-- The `switch(state)` of `scan_block` on the character `ch` just read,
followed by the default action where the case ends in `break`.  The state
`s` is the one after `int ch = *p++`. -/
def scan_switch (env : ScanEnv) (s : ScanState) (ch : Char) : Except Fault ScanState :=
  match s.state with
  | .S_BEG => case_S_BEG env s ch
  | .S_SC => case_S_SC env s ch
  | .S_NSC => case_S_NSC env s ch
  | .S_IC1 => case_S_IC1 env s ch
  | .S_HCH => case_S_HCH env s ch
  | .S_HC1 => case_S_HC1 env s ch
  | .S_HC2 => case_S_HC2 env s ch
  | .S_V6SZ => case_S_V6SZ env s ch
  | .S_LCH => case_S_LCH env s ch
  | .S_LC1 => case_S_LC1 env s ch
  | .S_IP1 => case_S_IP1 env s ch
  | .S_IP2 | .S_IP3 => case_S_IP2 env s ch
  | .S_IP1D | .S_IP2D | .S_IP3D | .S_EIP1D | .S_EIP2D | .S_EIP3D => case_S_IP1D env s ch
  | .S_IP4 => case_S_IP4 env s ch
  | .S_V4SZ => case_S_V4SZ env s ch
  | .S_EIP2 | .S_EIP3 => case_S_EIP2 env s ch
  | .S_EIP4 => case_S_EIP4 env s ch
  | .S_SCNLP => case_S_SCNLP env s ch
  | .S_SCNL => case_S_SCNL env s ch

/-- One round of the loop `for(p = bp; p < plim;)`: read `ch = *p++`, then
run the `switch`. -/
def scan_iter (env : ScanEnv) (s : ScanState) : Except Fault ScanState :=
  match s.p with
  | [] => .ok s
  | ch :: rest => scan_switch env { s with p := rest, line := s.line ++ [ch] } ch

/-- The loop `for(p = bp; p < plim;)`, cut after `fuel` rounds. -/
def scan_loop (env : ScanEnv) : Nat → ScanState → Except Fault ScanState
  | 0, s => if s.p = [] then .ok s else .error .outOfFuel
  | fuel + 1, s =>
      if s.p = [] then .ok s
      else
        match scan_iter env s with
        | .error e => .error e
        | .ok s' => scan_loop env fuel s'

/-- The number of rounds the loop can take from a state: every round reads
one byte, and only the round that leaves `S_IC1` may put it back. -/
def scan_measure (s : ScanState) : Nat :=
  2 * s.p.length + (if s.state = .S_IC1 then 1 else 0)

/-- The state of `scan_block` on entry. -/
def scan_init (bp : List Char) (nmatch : Nat) : ScanState :=
  { state := .S_BEG, p := bp, line := [], ip4 := 0, octet := 0, size := -1,
    ahi := ⟨List.replicate 16 0⟩, alo := ⟨List.replicate 16 0⟩, nhi := 0, nlo := 0,
    chunk := 0, seenone := false, out := [], nmatch := nmatch }

/-- What `scan_block` leaves behind: the text written to `stdout` and the
value of `nmatch`. -/
def scan_result (r : Except Fault ScanState) : Except Fault (List Char × Nat) :=
  match r with
  | .error e => .error e
  | .ok s => .ok (s.out, s.nmatch)

/-- `static void scan_block(char *bp, size_t blen, const char *fn)`: what it
writes to `stdout` and the value of `nmatch` on return, for the buffer `bp`
and the value `nmatch` on entry. -/
def scan_block (env : ScanEnv) (bp : List Char) (nmatch : Nat) :
    Except Fault (List Char × Nat) :=
  scan_result (scan_loop env (2 * bp.length + 1) (scan_init bp nmatch))

/-! ## Vocabulary of the statements -/

/-- The decimal numeral of a number, as text. -/
def dec (n : Nat) : List Char := (Nat.repr n).toList

/-- The number that a digit string adds to the value `v` read before it. -/
def accum (v : Nat) (ds : List Char) : Nat := ds.foldl (fun a c => a * 10 + dval c) v

/-- The states of `net_parse` that read the further digits of an octet. -/
def octetState (st : iscan) : Prop :=
  st = .I_IP1 ∨ st = .I_IP2 ∨ st = .I_IP3 ∨ st = .I_IP4 ∨
  st = .I_MIP1 ∨ st = .I_MIP2 ∨ st = .I_MIP3 ∨ st = .I_MIP4

/-- The merging pass of `main` as a function of the current output range
`cur` (`*outp`) and the ranges not yet read: the output from `cur` on.  An
auxiliary definition; `merge_loop_eq` relates the in-place loop to it. -/
def mergeF (cur : netspec) : List netspec → List netspec
  | [] => [cur]
  | x :: rest =>
      if x.max ≤ cur.max then mergeF cur rest
      else if x.min ≤ cur.max then mergeF { cur with max := x.max } rest
      else cur :: mergeF x rest

/-- An address `x` lies in some range of the list; a range with `min > max`
holds no address. -/
def covers (l : List netspec) (x : Nat) : Prop := ∃ p ∈ l, p.min ≤ x ∧ x ≤ p.max

instance (l : List netspec) (x : Nat) : Decidable (covers l x) :=
  inferInstanceAs (Decidable (∃ p ∈ l, p.min ≤ x ∧ x ≤ p.max))

/-- A pattern array is sorted and disjoint: every range has `min ≤ max`, and
every range starts above the end of the range before it. -/
def SortedDisjoint (l : List netspec) : Prop :=
  (∀ p ∈ l, p.min ≤ p.max) ∧ l.Chain' (fun p q => p.max < q.min)

/-- What sorting and merging guarantees of any input, backward ranges
included: later ranges start no lower, start above the end of earlier ones,
and end higher. -/
def Merged (l : List netspec) : Prop :=
  l.Pairwise (fun p q => p.min ≤ q.min ∧ p.max < q.min ∧ p.max < q.max)

/-- The binary search that `netmatch` and `netmatch6` share, with their two
tests of the probed element as parameters.  An auxiliary definition:
`netmatch_search_eq` and `netmatch6_search_eq` show the two loops to be
instances of it. -/
def bsearch {α : Type} (array : List α) (goLeft goRight : α → Bool) :
    Nat → Int → Int → Int → Except Fault Int
  | 0, minx, maxx, tryx => if minx ≤ maxx then .error .outOfFuel else .ok tryx
  | fuel + 1, minx, maxx, tryx =>
      if minx ≤ maxx then
        let tryx := (minx + maxx) / 2
        match elemAt array tryx with
        | .error e => .error e
        | .ok t =>
            if goLeft t then bsearch array goLeft goRight fuel minx (tryx - 1) tryx
            else if goRight t then bsearch array goLeft goRight fuel (tryx + 1) maxx tryx
            else .ok tryx
      else .ok tryx

/-- The number that a byte string denotes, most significant byte first. -/
def valL (l : List Nat) : Nat := l.foldl (fun acc b => acc * 256 + b) 0

/-- The 128-bit number that the 16 bytes of an address denote (big-endian). -/
def v6val (a : v6addr) : Nat := valL a.a

/-- A well-formed address: 16 bytes, each below 256. -/
def v6addr.wf (a : v6addr) : Prop := a.a.length = 16 ∧ ∀ b ∈ a.a, b < 256

/-- A well-formed IPv6 range: both ends are well-formed addresses. -/
def netspec6.wf (p : netspec6) : Prop := p.min.wf ∧ p.max.wf

/-- An IPv6 pattern array is sorted and disjoint: every range is well-formed
with `min ≤ max`, and starts above the end of the range before it. -/
def SortedDisjoint6 (l : List netspec6) : Prop :=
  (∀ p ∈ l, p.wf ∧ v6val p.min ≤ v6val p.max) ∧
    l.Chain' (fun p q => v6val p.max < v6val q.min)

/-- The ranges of the patterns `2001:db8:1::/48`, `2001:db8:2:8000::/49` and
`2001:db8:3::/48`, in sorted order. -/
def pat6_three : List netspec6 :=
  [⟨⟨[0x20, 0x01, 0x0d, 0xb8, 0, 1, 0, 0, 0, 0, 0, 0, 0, 0, 0, 0]⟩,
    ⟨[0x20, 0x01, 0x0d, 0xb8, 0, 1, 255, 255, 255, 255, 255, 255, 255, 255, 255, 255]⟩⟩,
   ⟨⟨[0x20, 0x01, 0x0d, 0xb8, 0, 2, 128, 0, 0, 0, 0, 0, 0, 0, 0, 0]⟩,
    ⟨[0x20, 0x01, 0x0d, 0xb8, 0, 2, 255, 255, 255, 255, 255, 255, 255, 255, 255, 255]⟩⟩,
   ⟨⟨[0x20, 0x01, 0x0d, 0xb8, 0, 3, 0, 0, 0, 0, 0, 0, 0, 0, 0, 0]⟩,
    ⟨[0x20, 0x01, 0x0d, 0xb8, 0, 3, 255, 255, 255, 255, 255, 255, 255, 255, 255, 255]⟩⟩]

/-- The range of `2001:db8:2::/48`, which contains the second range of
`pat6_three`. -/
def cand6_wide : netspec6 :=
  ⟨⟨[0x20, 0x01, 0x0d, 0xb8, 0, 2, 0, 0, 0, 0, 0, 0, 0, 0, 0, 0]⟩,
   ⟨[0x20, 0x01, 0x0d, 0xb8, 0, 2, 255, 255, 255, 255, 255, 255, 255, 255, 255, 255]⟩⟩

/-- The range of the single address `2001:db8:2:8000::1`. -/
def cand6_point : netspec6 :=
  ⟨⟨[0x20, 0x01, 0x0d, 0xb8, 0, 2, 128, 0, 0, 0, 0, 0, 0, 0, 0, 1]⟩,
   ⟨[0x20, 0x01, 0x0d, 0xb8, 0, 2, 128, 0, 0, 0, 0, 0, 0, 0, 0, 1]⟩⟩

/-- The loop of `scan_block` run from a state for as many rounds as its
measure allows; `scan_block_eq` shows `scan_block` to be this run from the
state on entry. -/
def scan_exec (env : ScanEnv) (s : ScanState) : Except Fault ScanState :=
  scan_loop env (scan_measure s) s

/-- The number that a string of hexadecimal digits adds to the chunk `v` read
before it, as `scan_block` accumulates it in an `unsigned int`. -/
def accumHex (v : Nat) (ds : List Char) : Nat :=
  ds.foldl (fun a c => u32 (u32 (a <<< 4) + xtod c)) v

/-- A dotted quad as text: the digit strings of its four octets. -/
structure Quad where
  o1 : List Char
  o2 : List Char
  o3 : List Char
  o4 : List Char

/-- An octet written in 1 to 3 decimal digits, of a value in 0..255. -/
def isOctet (ds : List Char) : Prop :=
  1 ≤ ds.length ∧ ds.length ≤ 3 ∧ (∀ c ∈ ds, isdigit c = true) ∧ accum 0 ds ≤ 255

/-- All four octets of a dotted quad are octets. -/
def Quad.valid (q : Quad) : Prop := isOctet q.o1 ∧ isOctet q.o2 ∧ isOctet q.o3 ∧ isOctet q.o4

/-- The text `a.b.c.d` of a dotted quad. -/
def Quad.text (q : Quad) : List Char :=
  q.o1 ++ ['.'] ++ q.o2 ++ ['.'] ++ q.o3 ++ ['.'] ++ q.o4

/-- The 32-bit address that a dotted quad denotes. -/
def Quad.value (q : Quad) : Nat :=
  ((accum 0 q.o1 * 256 + accum 0 q.o2) * 256 + accum 0 q.o3) * 256 + accum 0 q.o4

/-- A line made of dotted quads separated by single spaces and ended by a
newline. -/
def quadLine (qs : List Quad) : List Char :=
  List.intercalate [' '] (qs.map Quad.text) ++ ['\n']

/-- What `scan_block` writes when it emits a line: nothing when counting,
else the line, after the source name and a colon when there is a name and
names are shown. -/
def printed (env : ScanEnv) (line : List Char) : List Char :=
  if env.counting then []
  else
    match env.fn with
    | some name => if env.nonames then line else (name ++ [':']) ++ line
    | none => line

/-- What follows a dotted quad on a line of dotted quads, up to the newline:
the further quads, each after a space. -/
def quadTail : List Quad → List Char
  | [] => []
  | q :: qs => ' ' :: (q.text ++ quadTail qs)

/-- The globals of a run with the single pattern `192.168.0.0/24`, all
options off but `invert` as given, reading one unnamed source. -/
def env_one (invert : Bool) : ScanEnv :=
  ⟨false, invert, false, false, false, false, false,
    sort_merge [⟨0xC0A80000, 0xC0A800FF⟩], [], none⟩

/-- The dotted quads `10.0.0.1` and `192.168.0.55`. -/
def quads_two : List Quad :=
  [⟨"10".toList, "0".toList, "0".toList, "1".toList⟩,
   ⟨"192".toList, "168".toList, "0".toList, "55".toList⟩]

/-- The dotted quads `10.0.0.1` and `010.1.2.3`. -/
def quads_out : List Quad :=
  [⟨"10".toList, "0".toList, "0".toList, "1".toList⟩,
   ⟨"010".toList, "1".toList, "2".toList, "3".toList⟩]

/-! ## `net_parse6`: the IPv6 pattern compiler -/

/-- `enum sv6` of `net_parse6`. -/
inductive sv6 where
  | V_BEG | V_HCH | V_HC1 | V_HC2 | V_LCH | V_LC1 | V_IC1
  | V_EIP1D | V_EIP2 | V_EIP2D | V_EIP3 | V_EIP3D | V_EIP4 | V_SIZE
  deriving DecidableEq, Repr

/-- The effect of `state++` on an `enum sv6` value. -/
def sv6.succ : sv6 → sv6
  | .V_BEG => .V_HCH | .V_HCH => .V_HC1 | .V_HC1 => .V_HC2 | .V_HC2 => .V_LCH
  | .V_LCH => .V_LC1 | .V_LC1 => .V_IC1 | .V_IC1 => .V_EIP1D | .V_EIP1D => .V_EIP2
  | .V_EIP2 => .V_EIP2D | .V_EIP2D => .V_EIP3 | .V_EIP3 => .V_EIP3D
  | .V_EIP3D => .V_EIP4 | .V_EIP4 => .V_SIZE | .V_SIZE => .V_SIZE

/-- The local variables of `net_parse6`.  The arrays `ahi` and `alo`, which C
leaves uninitialised, start as zero bytes; every byte of `ahi` is written
before `applymask6` reads it. -/
structure Parse6State where
  ahi : v6addr
  alo : v6addr
  nhi : Nat
  nlo : Nat
  octet : Int
  chunk : Nat
  size : Int
  state : sv6
  deriving DecidableEq, Repr

/-- The `switch` of `net_parse6` on one character: `next` is `continue`,
`brk` is `break` out of the `switch`, `ret0` is `return 0`. -/
def net_parse6_switch (s : Parse6State) (ch : Char) : Ctl Parse6State :=
  match s.state with
  | .V_BEG =>
      if isspace ch then .next s
      else if isxdigit ch then .next { s with chunk := xtod ch, state := .V_HCH }
      else if ch = ':' then .next { s with state := .V_IC1 }
      else .ret0
  | .V_IC1 =>
      if ch = ':' then .next { s with state := .V_HC2 } else .ret0
  | .V_HCH =>
      if isxdigit ch then
        .next { s with
          chunk := u32 (u32 (s.chunk <<< 4) + xtod ch),
          octet :=
            if isdigit ch then
              if s.octet ≥ 0 then i32 (s.octet * 10 + ((ch.toNat : Int) - ('1'.toNat : Int)))
              else s.octet
            else -1 }
      else if ch = '.' then
        if s.nhi = 12 ∧ s.octet ≥ 0 ∧ s.octet ≤ 255 then
          .next { s with ahi := ⟨s.ahi.a.set s.nhi (byteOf s.octet)⟩, nhi := s.nhi + 1,
                         state := .V_EIP1D }
        else .ret0
      else if s.nhi > 14 then .ret0
      else
        let s := { s with
          ahi := ⟨(s.ahi.a.set s.nhi ((s.chunk >>> 8) % 256)).set (s.nhi + 1) (s.chunk &&& 255)⟩,
          nhi := s.nhi + 2 }
        if ch = ':' then .next { s with state := .V_HC1 }
        else if ch = '/' then .next { s with state := .V_SIZE }
        else .brk s
  | .V_HC1 =>
      if isxdigit ch then
        .next { s with chunk := xtod ch, octet := if isdigit ch then (xtod ch : Int) else -1,
                       state := .V_HCH }
      else if ch = ':' then .next { s with state := .V_HC2 }
      else .ret0
  | .V_HC2 =>
      if isxdigit ch then
        .next { s with chunk := xtod ch, octet := if isdigit ch then (xtod ch : Int) else -1,
                       state := .V_LCH }
      else if ch = '/' then .next { s with state := .V_SIZE }
      else .brk s
  | .V_LCH =>
      if isxdigit ch then
        .next { s with
          chunk := u32 (u32 (s.chunk <<< 4) + xtod ch),
          octet :=
            if isdigit ch then
              if s.octet ≥ 0 then i32 (s.octet * 10 + ((ch.toNat : Int) - ('0'.toNat : Int)))
              else s.octet
            else -1 }
      else if ch = '.' then
        if s.nhi + s.nlo < 12 ∧ s.octet ≥ 0 ∧ s.octet ≤ 255 then
          let ahi := memset s.ahi.a s.nhi 0 (12 - (s.nhi + s.nlo))
          let ahi := if s.nlo ≠ 0 then memcpy ahi (12 - s.nlo) s.alo.a s.nlo else ahi
          .next { s with ahi := ⟨ahi.set 12 (byteOf s.octet)⟩, nlo := 0, nhi := 13,
                         state := .V_EIP1D }
        else .ret0
      else if s.nhi + s.nlo > 12 then .ret0
      else if s.chunk > 0xffff then .ret0
      else
        let s := { s with
          alo := ⟨(s.alo.a.set s.nlo ((s.chunk >>> 8) % 256)).set (s.nlo + 1) (s.chunk &&& 255)⟩,
          nlo := s.nlo + 2 }
        if ch = ':' then .next { s with state := .V_LC1 }
        else if ch = '/' then .next { s with state := .V_SIZE }
        else .brk s
  | .V_LC1 =>
      if isxdigit ch then
        .next { s with chunk := xtod ch, octet := if isdigit ch then (xtod ch : Int) else -1,
                       state := .V_LCH }
      else .ret0
  | .V_EIP1D | .V_EIP2D | .V_EIP3D =>
      if isdigit ch then
        .next { s with octet := (ch.toNat : Int) - ('0'.toNat : Int), state := s.state.succ }
      else .ret0
  | .V_EIP2 | .V_EIP3 =>
      if isdigit ch then
        .next { s with octet := i32 (s.octet * 10 + ((ch.toNat : Int) - ('0'.toNat : Int))) }
      else if ch = '.' then
        if s.octet > 255 then .ret0
        else .next { s with ahi := ⟨s.ahi.a.set s.nhi (byteOf s.octet)⟩, nhi := s.nhi + 1,
                            state := s.state.succ }
      else .ret0
  | .V_EIP4 =>
      if isdigit ch then
        .next { s with octet := i32 (s.octet * 10 + ((ch.toNat : Int) - ('0'.toNat : Int))) }
      else if s.octet > 255 then .brk s
      else
        let s := { s with ahi := ⟨s.ahi.a.set s.nhi (byteOf s.octet)⟩, nhi := s.nhi + 1 }
        if ch = '/' then .next { s with state := .V_SIZE } else .brk s
  | .V_SIZE =>
      if isdigit ch then
        let size := if s.size < 0 then 0 else s.size
        .next { s with size := i32 (size * 10 + ((ch.toNat : Int) - ('0'.toNat : Int))) }
      else if s.size < 0 ∨ s.size > 128 then .ret0
      else .brk s

/-- The loop `for(;;)` of `net_parse6`: `none` is `return 0`, `some s` the
variables when the loop is left.  The statement after the `switch` is an
unconditional `break`, so every `break` out of the `switch` leaves the loop
whatever the character was.  `*p++` reads the head of the remaining text, or
NUL at its end; no state continues after reading NUL (reading on would be a
fault). -/
def net_parse6_loop : Parse6State → List Char → Except Fault (Option Parse6State)
  | s, [] =>
      match net_parse6_switch s NUL with
      | .brk s' => .ok (some s')
      | .ret0 => .ok none
      | .next _ => .error .outOfBounds
  | s, ch :: rest =>
      match net_parse6_switch s ch with
      | .next s' => net_parse6_loop s' rest
      | .ret0 => .ok none
      | .brk s' => .ok (some s')

/-- The code of `net_parse6` between its loop and the call of `applymask6`
("combine ahi and alo"): `none` is `return 0`, otherwise the address. -/
def net_parse6_combine (s : Parse6State) : Option v6addr :=
  if s.nlo ≠ 0 ∧ s.nhi + s.nlo ≥ 16 then none
  else
    let ahi := if s.nhi + s.nlo < 16 then memset s.ahi.a s.nhi 0 (16 - (s.nhi + s.nlo))
               else s.ahi.a
    let ahi := if s.nlo ≠ 0 then memcpy ahi (16 - s.nlo) s.alo.a s.nlo else ahi
    some ⟨ahi⟩

/-- The arguments `ahi` and `size` with which `net_parse6` calls `applymask6`
on a token, or `none` where it returns 0 before the call. -/
def net_parse6_args (line : List Char) : Except Fault (Option (v6addr × Int)) :=
  match net_parse6_loop
      ⟨⟨List.replicate 16 0⟩, ⟨List.replicate 16 0⟩, 0, 0, -1, 0, -1, .V_BEG⟩ line with
  | .error e => .error e
  | .ok none => .ok none
  | .ok (some s) =>
      match net_parse6_combine s with
      | none => .ok none
      | some ahi => .ok (some (ahi, s.size))

/-- `int net_parse6(const char* line, struct netspec6* spec)`: `none` is the
return value 0, `some (spec, bad)` is the return value 1 with the range stored
in `*spec`, where `bad` tells that "Bad cidr range" went to `stderr`; a failed
`assert` of `applymask6` is a fault. -/
def net_parse6 (sloppy : Bool) (line : List Char) : Except Fault (Option (netspec6 × Bool)) :=
  match net_parse6_args line with
  | .error e => .error e
  | .ok none => .ok none
  | .ok (some (ahi, size)) =>
      match applymask6 ahi size with
      | .error e => .error e
      | .ok r => .ok (some (r.1, decide (r.2 = 0) && !sloppy))

/-- The globals of a run with default flags, no IPv4 pattern and the IPv6
pattern array `array6`. -/
def env_v6 (array6 : List netspec6) : ScanEnv :=
  ⟨false, false, false, false, false, false, false, [], array6, none⟩

/-- The range of `2001:db8::/32`. -/
def pat6_db8 : netspec6 :=
  ⟨⟨[32, 1, 13, 184, 0, 0, 0, 0, 0, 0, 0, 0, 0, 0, 0, 0]⟩,
   ⟨[32, 1, 13, 184, 255, 255, 255, 255, 255, 255, 255, 255, 255, 255, 255, 255]⟩⟩

/-- The address `1:2:3:4:5:6:9.2.3.4` as a range of one address. -/
def pat6_quad9 : netspec6 :=
  ⟨⟨[0, 1, 0, 2, 0, 3, 0, 4, 0, 5, 0, 6, 9, 2, 3, 4]⟩,
   ⟨[0, 1, 0, 2, 0, 3, 0, 4, 0, 5, 0, 6, 9, 2, 3, 4]⟩⟩

/-- The all-zero IPv6 address. -/
def v6zero : v6addr := ⟨List.replicate 16 0⟩

/-- The globals of a run with the single pattern `10.0.0.0/24` and
`cidrsearch` on, all other options off but `didrsearch` as given. -/
def env_cidr (didrsearch : Bool) : ScanEnv :=
  ⟨false, false, false, false, true, didrsearch, false,
    sort_merge [⟨0x0A000000, 0x0A0000FF⟩], [], none⟩

/-- The states of the scanner on text that holds no hexadecimal digit and no
colon: it is between addresses and has seen none on the line. -/
def Idle (s : ScanState) : Prop :=
  (s.state = .S_BEG ∨
    ((s.state = .S_SC ∨ s.state = .S_NSC ∨ s.state = .S_SCNL) ∧ s.seenone = false)) ∧
  ∀ c ∈ s.p, isxdigit c = false ∧ c ≠ ':'

/-- The text of the current line that the scanner has read (from `lp` to
`p`); at the beginning of a line it has read none. -/
def cur_line (s : ScanState) : List Char := if s.state = .S_BEG then [] else s.line

/-- A complete line: bytes other than newline, then a newline. -/
def IsLine (l : List Char) : Prop := ∃ body, l = body ++ ['\n'] ∧ '\n' ∉ body

/-- What a round of the loop has done when it started with the text `b` of
the current line read, `o` written, the counter at `n` and the text `p0`
unread: it has read a text `c`, and either `c` holds no newline, the line goes
on and nothing was written or counted, or `c` ends in the only newline it
holds, the scanner is at the beginning of the next line, and the line `b ++ c`
was either left out or written and counted. -/
def Post (env : ScanEnv) (b o : List Char) (n : Nat) (p0 : List Char) (s' : ScanState) : Prop :=
  ∃ c : List Char, p0 = c ++ s'.p ∧
    (('\n' ∉ c ∧ s'.state ≠ .S_BEG ∧ s'.line = b ++ c ∧ s'.out = o ∧ s'.nmatch = n) ∨
     (∃ body, c = body ++ ['\n'] ∧ '\n' ∉ body ∧ s'.state = .S_BEG ∧
       ((s'.out = o ∧ s'.nmatch = n) ∨
        (s'.out = o ++ printed env (b ++ c) ∧ s'.nmatch = n + 1))))

/-- Where a round of the loop stands after reading: of the text `p0` it has
read `c`, whose last character is `x` and which holds no newline before `x`. -/
def Mid (b c : List Char) (x : Char) (o : List Char) (n : Nat) (p0 : List Char)
    (s : ScanState) : Prop :=
  c.getLast? = some x ∧ '\n' ∉ c.dropLast ∧ s.line = b ++ c ∧ p0 = c ++ s.p ∧
    s.out = o ∧ s.nmatch = n

/-- What holds of the variables in every state that a run of the loop
reaches: a prefix length in `S_V6SZ` is at most 128, and `S_V4SZ` is only
entered with `cidrsearch` on. -/
def Sane (env : ScanEnv) (s : ScanState) : Prop :=
  (s.state = .S_V6SZ → s.size ≤ 128) ∧ (s.state = .S_V4SZ → env.cidrsearch = true)

/-- How a round of the loop can end: in a state, or in the call of `netmatch`
without an IPv4 pattern, which reads `array[0]` of an empty array and is only
reached with `cidrsearch` on. -/
def Runs (env : ScanEnv) (r : Except Fault ScanState) : Prop :=
  (∃ s', r = .ok s' ∧ Sane env s') ∨
    (r = .error .outOfBounds ∧ env.array = [] ∧ env.cidrsearch = true)

/-- The state with its record of the output dropped. -/
def ScanState.noOut (s : ScanState) : ScanState := { s with out := [] }

/-- The globals with `counting` set. -/
def ScanEnv.count (env : ScanEnv) : ScanEnv := { env with counting := true }

/-- Where a run of `scan_block` on the buffer `bp`, entered with the counter
at `n0`, stands in a state `s`: the text read so far is a list `ls` of
complete lines followed by the part of the current line read, which holds no
newline; what was written is the concatenation of a sublist `sel` of `ls`, and
the counter has advanced by the length of `sel`. -/
def LinesDone (bp : List Char) (n0 : Nat) (s : ScanState) : Prop :=
  ∃ ls sel : List (List Char), bp = ls.flatten ++ (cur_line s ++ s.p) ∧
    (∀ l ∈ ls, IsLine l) ∧ '\n' ∉ cur_line s ∧ sel.Sublist ls ∧
    s.out = sel.flatten ∧ s.nmatch = n0 + sel.length

/-- The octet accumulation `octet = octet*10 + ch-'0'` of `net_parse` over a
digit string, in `unsigned int` arithmetic. -/
def accum32 (v : Nat) (ds : List Char) : Nat :=
  ds.foldl (fun a c => u32 (a * 10 + dval c)) v

/-- A decimal numeral: one or more digits. -/
def IsNumeral (ds : List Char) : Prop := ds ≠ [] ∧ ∀ c ∈ ds, isdigit c = true

/-- The globals of a run with `cidrsearch` on, no IPv4 pattern and the single
IPv6 pattern `2001:db8::/32`, all other options off. -/
def env_v6_cidr : ScanEnv :=
  ⟨false, false, false, false, true, false, false, [], [pat6_db8], none⟩

/-- The first `k` rounds of the loop `for(p = bp; p < plim;)` of `scan_block`:
the state they reach, or the fault they end in. -/
def scan_rounds (env : ScanEnv) : Nat → ScanState → Except Fault ScanState
  | 0, s => .ok s
  | k + 1, s =>
      if s.p = [] then .ok s
      else
        match scan_iter env s with
        | .error e => .error e
        | .ok s' => scan_rounds env k s'

/-! # Theorems -/

/-! ## Decimal numerals and `net_parse` -/

set_option maxRecDepth 100000 in
/-- Every numeral of a value below 256 is a non-empty digit string of that value. -/
theorem dec_small : ∀ n, n < 256 → dec n ≠ [] ∧ (dec n).all isdigit = true ∧ accum 0 (dec n) = n := by
  decide

theorem isdigit_ne {c : Char} (h : isdigit c = true) :
    c ≠ '.' ∧ c ≠ '/' ∧ c ≠ '-' ∧ c ≠ NUL ∧ isspace c = false := by
  simp [isdigit] at h
  refine ⟨?_, ?_, ?_, ?_, ?_⟩
  · rintro rfl; simp at h
  · rintro rfl; simp at h
  · rintro rfl; simp at h
  · rintro rfl; simp [NUL] at h
  · simp [isspace]; omega

theorem le_accum (ds : List Char) (v : Nat) : v ≤ accum v ds := by
  induction ds generalizing v with
  | nil => simp [accum]
  | cons c ds ih =>
    have := ih (v * 10 + dval c)
    simp only [accum, List.foldl_cons] at this ⊢
    omega

theorem accum_cons (v : Nat) (c : Char) (ds : List Char) :
    accum v (c :: ds) = accum (v * 10 + dval c) ds := rfl

/-- A decimal numeral of a value below 256: first digit, further digits. -/
theorem dec_cases {n : Nat} (h : n < 256) :
    ∃ c ds, dec n = c :: ds ∧ isdigit c = true ∧ (∀ x ∈ ds, isdigit x = true) ∧
      accum (dval c) ds = n := by
  obtain ⟨h1, h2, h3⟩ := dec_small n h
  cases hd : dec n with
  | nil => exact absurd hd h1
  | cons c ds =>
    rw [hd] at h2 h3
    simp only [List.all_cons, Bool.and_eq_true, List.all_eq_true] at h2
    refine ⟨c, ds, rfl, h2.1, h2.2, ?_⟩
    simpa [accum_cons] using h3

theorem np_digits (sl : Bool) (rest : List Char) (ds : List Char) :
    ∀ s : ParseState, octetState s.state → (∀ c ∈ ds, isdigit c = true) →
      accum s.octet ds < 2 ^ 32 →
      net_parse_loop sl s (ds ++ rest) =
        net_parse_loop sl { s with octet := accum s.octet ds } rest := by
  induction ds with
  | nil => intro s _ _ _; rfl
  | cons c ds ih =>
    intro s hst hd hv
    have hc : isdigit c = true := hd c (List.mem_cons_self _ _)
    have hlt : s.octet * 10 + dval c < 2 ^ 32 :=
      lt_of_le_of_lt (le_accum ds _) (by simpa [accum_cons] using hv)
    have hu : u32 (s.octet * 10 + dval c) = s.octet * 10 + dval c := Nat.mod_eq_of_lt hlt
    have key : net_parse_switch sl s c = .next { s with octet := s.octet * 10 + dval c } := by
      rcases hst with h | h | h | h | h | h | h | h <;>
        simp [net_parse_switch, h, hc, hu]
    rw [List.cons_append, net_parse_loop, key]
    simp only
    exact ih { s with octet := s.octet * 10 + dval c } hst
      (fun x hx => hd x (List.mem_cons_of_mem _ hx)) (by simpa [accum_cons] using hv)

theorem np_mask_digits (sl : Bool) (rest : List Char) (ds : List Char) :
    ∀ s : ParseState, s.state = .I_MASK → (∀ c ∈ ds, isdigit c = true) →
      accum s.size ds < 2 ^ 32 →
      net_parse_loop sl s (ds ++ rest) =
        net_parse_loop sl { s with size := accum s.size ds } rest := by
  induction ds with
  | nil => intro s _ _ _; rfl
  | cons c ds ih =>
    intro s hst hd hv
    have hc : isdigit c = true := hd c (List.mem_cons_self _ _)
    have hlt : s.size * 10 + dval c < 2 ^ 32 :=
      lt_of_le_of_lt (le_accum ds _) (by simpa [accum_cons] using hv)
    have hu : u32 (s.size * 10 + dval c) = s.size * 10 + dval c := Nat.mod_eq_of_lt hlt
    have key : net_parse_switch sl s c = .next { s with size := s.size * 10 + dval c } := by
      simp [net_parse_switch, hst, hc, hu]
    rw [List.cons_append, net_parse_loop, key]
    exact ih { s with size := s.size * 10 + dval c } hst
      (fun x hx => hd x (List.mem_cons_of_mem _ hx)) (by simpa [accum_cons] using hv)

/-- An octet numeral followed by a dot, read from the start of an address or
after a dot. -/
theorem np_octet_dot (sl : Bool) (s : ParseState) (n : Nat) (rest : List Char)
    (hst : s.state = .I_BEG ∨ s.state = .I_IP1D ∨ s.state = .I_IP2D) (hn : n < 256) :
    net_parse_loop sl s (dec n ++ '.' :: rest) =
      net_parse_loop sl { s with octet := n, maxip := u32 (u32 (s.maxip <<< 8) + n),
                                 state := s.state.succ.succ } rest := by
  obtain ⟨c, ds, hdec, hc, hds, hval⟩ := dec_cases hn
  obtain ⟨h1, h2, h3, h4, h5⟩ := isdigit_ne hc
  have first : net_parse_switch sl s c = .next { s with octet := dval c, state := s.state.succ } := by
    rcases hst with h | h | h <;> simp [net_parse_switch, h, hc, h5, iscan.succ]
  rw [hdec, List.cons_append, net_parse_loop, first]
  simp only
  have hoct : octetState s.state.succ := by
    rcases hst with h | h | h <;> simp [h, iscan.succ, octetState]
  rw [np_digits sl _ ds _ hoct hds (by simp only [hval]; omega)]
  simp only [hval]
  have dot : net_parse_switch sl { s with octet := n, state := s.state.succ } '.' =
      .next { s with octet := n, maxip := u32 (u32 (s.maxip <<< 8) + n),
                     state := s.state.succ.succ } := by
    have : ¬ n > 255 := by omega
    rcases hst with h | h | h <;> simp [net_parse_switch, h, iscan.succ, isdigit, this]
  rw [net_parse_loop, dot]


theorem np_last_octet_slash (sl : Bool) (s : ParseState) (n : Nat) (rest : List Char)
    (hst : s.state = .I_IP3D) (hn : n < 256) :
    net_parse_loop sl s (dec n ++ '/' :: rest) =
      net_parse_loop sl { s with octet := n, maxip := u32 (u32 (s.maxip <<< 8) + n),
                                 minip := u32 (u32 (s.maxip <<< 8) + n),
                                 state := .I_MASK } rest := by
  obtain ⟨c, ds, hdec, hc, hds, hval⟩ := dec_cases hn
  have first : net_parse_switch sl s c = .next { s with octet := dval c, state := .I_IP4 } := by
    simp [net_parse_switch, hst, hc, iscan.succ]
  rw [hdec, List.cons_append, net_parse_loop, first]
  simp only
  rw [np_digits sl _ ds _ (by simp [octetState]) hds (by simp only [hval]; omega)]
  simp only [hval]
  have hgt : ¬ n > 255 := by omega
  rw [net_parse_loop]
  simp [net_parse_switch, isdigit, hgt, NUL]

theorem le_lor (n m : Nat) : n ≤ n ||| m := by
  have h : (n ||| m) &&& n = n := by
    apply Nat.eq_of_testBit_eq
    intro i
    simp only [Nat.testBit_and, Nat.testBit_or]
    cases n.testBit i <;> cases m.testBit i <;> rfl
  calc n = (n ||| m) &&& n := h.symm
    _ ≤ n ||| m := Nat.and_le_left

theorem ip_value (a b c d : Nat) (ha : a < 256) (hb : b < 256) (hc : c < 256) (hd : d < 256) :
    u32 (u32 (u32 (u32 (u32 (u32 (u32 (u32 (0 <<< 8) + a) <<< 8) + b) <<< 8) + c) <<< 8) + d)
      = ((a * 256 + b) * 256 + c) * 256 + d := by
  simp only [u32, Nat.shiftLeft_eq]
  omega

theorem hostmask_value (size : Nat) (h : size ≤ 32) :
    u32 ((1 <<< (32 - size)) % 2 ^ 64 - 1) = 2 ^ (32 - size) - 1 := by
  interval_cases size <;> rfl

/-- C1: for all octets `a b c d` in 0..255 and every `size` in 0..32, written in
decimal, `net_parse` succeeds on the token `a.b.c.d/size` and stores
`min = ip & ~hostmask` and `max = ip | hostmask`, where `ip` is the 32-bit
value of `a.b.c.d` and `hostmask = 2^(32-size) - 1`.  Host bits set in `ip`
change nothing but the diagnostic, which is printed unless `sloppy` is set. -/
theorem C1_net_parse_cidr (sloppy : Bool) (a b c d size : Nat)
    (ha : a ≤ 255) (hb : b ≤ 255) (hc : c ≤ 255) (hd : d ≤ 255) (hs : size ≤ 32) :
    net_parse sloppy
        (dec a ++ ['.'] ++ dec b ++ ['.'] ++ dec c ++ ['.'] ++ dec d ++ ['/'] ++ dec size) =
      some (⟨(((a * 256 + b) * 256 + c) * 256 + d) &&& not32 (2 ^ (32 - size) - 1),
             (((a * 256 + b) * 256 + c) * 256 + d) ||| (2 ^ (32 - size) - 1)⟩,
            if (((a * 256 + b) * 256 + c) * 256 + d) &&& (2 ^ (32 - size) - 1) ≠ 0
                ∧ sloppy = false
            then [Diag.invalidCidr] else []) := by
  have e : dec a ++ ['.'] ++ dec b ++ ['.'] ++ dec c ++ ['.'] ++ dec d ++ ['/'] ++ dec size =
      dec a ++ '.' :: (dec b ++ '.' :: (dec c ++ '.' :: (dec d ++ '/' :: (dec size ++ [])))) := by
    simp
  obtain ⟨h1, h2, h3⟩ := dec_small size (by omega)
  rw [e, net_parse, np_octet_dot sloppy _ a _ (Or.inl rfl) (by omega)]
  rw [np_octet_dot sloppy _ b _ (Or.inr (Or.inl rfl)) (by omega)]
  rw [np_octet_dot sloppy _ c _ (Or.inr (Or.inr rfl)) (by omega)]
  rw [np_last_octet_slash sloppy _ d _ rfl (by omega)]
  rw [np_mask_digits sloppy [] (dec size) _ rfl (by simpa [List.all_eq_true] using h2)
    (by simp only [h3]; omega)]
  simp only [h3, ip_value a b c d (by omega) (by omega) (by omega) (by omega)]
  have hgt : ¬ size > 32 := by omega
  have hle : (((a * 256 + b) * 256 + c) * 256 + d) &&& not32 (2 ^ (32 - size) - 1) ≤
      (((a * 256 + b) * 256 + c) * 256 + d) ||| (2 ^ (32 - size) - 1) :=
    le_trans Nat.and_le_left (le_lor _ _)
  simp only [net_parse_loop, net_parse_switch, isdigit, NUL, hostmask_value size hs]
  simp [hgt, net_parse_finish, not_lt.mpr hle]

/-- C1 at the token `10.1.2.3/8`, whose address has host bits set. -/
theorem C1_net_parse_cidr_witness :
    net_parse false "10.1.2.3/8".toList = some (⟨0x0A000000, 0x0AFFFFFF⟩, [Diag.invalidCidr]) :=
  C1_net_parse_cidr false 10 1 2 3 8 (by decide) (by decide) (by decide) (by decide) (by decide)

/-! ## Sorting and merging -/

theorem merge_loop_eq (rest : List netspec) :
    ∀ (out junk : List netspec) (cur : netspec),
      ((merge_loop rest.length (out ++ cur :: (junk ++ rest)) out.length
          (out.length + 1 + junk.length)).1.take
        ((merge_loop rest.length (out ++ cur :: (junk ++ rest)) out.length
          (out.length + 1 + junk.length)).2 + 1)) = out ++ mergeF cur rest := by
  induction rest with
  | nil =>
    intro out junk cur
    simp [merge_loop, mergeF, List.take_append_eq_append_take]
  | cons x rest ih =>
    intro out junk cur
    have hi : (out ++ cur :: (junk ++ x :: rest)).getD (out.length + 1 + junk.length) default = x := by
      rw [List.getD_append_right _ _ _ _ (by omega)]
      have : out.length + 1 + junk.length - out.length = junk.length + 1 := by omega
      rw [this, List.getD_cons_succ, List.getD_append_right _ _ _ _ (by omega)]
      simp
    have ho : (out ++ cur :: (junk ++ x :: rest)).getD out.length default = cur := by
      rw [List.getD_append_right _ _ _ _ (by omega)]
      simp
    have e1 : out ++ cur :: (junk ++ x :: rest) = out ++ cur :: ((junk ++ [x]) ++ rest) := by simp
    have l1 : out.length + 1 + junk.length + 1 = out.length + 1 + (junk ++ [x]).length := by
      simp; omega
    simp only [List.length_cons, merge_loop, hi, ho, mergeF]
    by_cases h1 : x.max ≤ cur.max
    · simp only [h1, if_true]
      rw [e1, l1]
      exact ih out (junk ++ [x]) cur
    · simp only [h1, if_false]
      by_cases h2 : x.min ≤ cur.max
      · simp only [h2, if_true]
        have : (out ++ cur :: (junk ++ x :: rest)).set out.length { cur with max := x.max } =
            out ++ { cur with max := x.max } :: ((junk ++ [x]) ++ rest) := by
          rw [List.set_append_right _ _ (by omega)]
          simp
        rw [this, l1]
        exact ih out (junk ++ [x]) { cur with max := x.max }
      · simp only [h2, if_false]
        cases junk with
        | nil =>
          have hlt : ¬ (out.length + 1 < out.length + 1 + ([] : List netspec).length) := by simp
          simp only [hlt, if_false]
          have := ih (out ++ [cur]) [] x
          simp only [List.length_append, List.length_singleton, List.length_nil, List.nil_append,
            List.append_assoc, List.singleton_append, Nat.add_zero] at this
          simpa using this
        | cons j junk =>
          have hlt : out.length + 1 < out.length + 1 + (j :: junk).length := by simp
          simp only [hlt, if_true]
          have hset : (out ++ cur :: (j :: junk ++ x :: rest)).set (out.length + 1) x =
              (out ++ [cur]) ++ x :: ((junk ++ [x]) ++ rest) := by
            rw [List.set_append_right _ _ (by omega)]
            simp
          have hl : out.length + 1 + (j :: junk).length + 1 =
              (out ++ [cur]).length + 1 + (junk ++ [x]).length := by
            simp; omega
          have hl2 : out.length + 1 = (out ++ [cur]).length := by simp
          rw [hset, hl]
          have := ih (out ++ [cur]) (junk ++ [x]) x
          rw [← hl2] at this ⊢
          simpa using this

theorem netsort_le_iff (a b : netspec) :
    netsort a b ≤ 0 ↔ a.min < b.min ∨ (a.min = b.min ∧ a.max ≤ b.max) := by
  unfold netsort
  split_ifs <;> constructor <;> intro h <;> omega

theorem netsort_total : IsTotal netspec (fun a b => netsort a b ≤ 0) :=
  ⟨fun a b => by simp only [netsort_le_iff]; omega⟩

theorem netsort_trans : IsTrans netspec (fun a b => netsort a b ≤ 0) :=
  ⟨fun a b c => by simp only [netsort_le_iff]; omega⟩

theorem qsort_perm (array : List netspec) : (qsort netsort array).Perm array :=
  List.perm_insertionSort _ _

theorem qsort_sorted (array : List netspec) :
    (qsort netsort array).Pairwise (fun a b => a.min ≤ b.min) := by
  haveI := netsort_total
  haveI := netsort_trans
  have h : (qsort netsort array).Sorted (fun a b => netsort a b ≤ 0) :=
    List.sorted_insertionSort _ _
  exact List.Pairwise.imp (fun {a b} hab => by
    rcases (netsort_le_iff a b).1 hab with h | h <;> omega) h

/-- The sort-and-merge step of `main` is the functional merge of the sorted
array. -/
theorem sort_merge_eq (array : List netspec) (h : array ≠ []) :
    ∃ c rest, qsort netsort array = c :: rest ∧ sort_merge array = mergeF c rest := by
  have hlen : (qsort netsort array).length = array.length := (qsort_perm array).length_eq
  cases hq : qsort netsort array with
  | nil => rw [hq] at hlen; exact absurd (List.length_eq_zero.1 hlen.symm) h
  | cons c rest =>
    refine ⟨c, rest, rfl, ?_⟩
    have hne : ¬ array.length = 0 := by simpa using h
    have := merge_loop_eq rest [] [] c
    simp only [List.length_nil, List.nil_append, Nat.zero_add, Nat.add_zero] at this
    simp only [sort_merge, hne, if_false, hq, List.length_cons, Nat.add_sub_cancel]
    exact this

theorem covers_perm {l₁ l₂ : List netspec} (h : l₁.Perm l₂) (x : Nat) :
    covers l₁ x ↔ covers l₂ x := by
  unfold covers
  constructor
  · rintro ⟨p, hp, hx⟩; exact ⟨p, h.mem_iff.1 hp, hx⟩
  · rintro ⟨p, hp, hx⟩; exact ⟨p, h.mem_iff.2 hp, hx⟩

theorem covers_cons (p : netspec) (l : List netspec) (x : Nat) :
    covers (p :: l) x ↔ (p.min ≤ x ∧ x ≤ p.max) ∨ covers l x := by
  simp [covers]

theorem mergeF_covers (rest : List netspec) :
    ∀ cur : netspec, (cur :: rest).Pairwise (fun a b => a.min ≤ b.min) →
      ∀ x, covers (mergeF cur rest) x ↔ covers (cur :: rest) x := by
  induction rest with
  | nil => intro cur _ x; simp [mergeF]
  | cons y rest ih =>
    intro cur hs x
    have hcy : cur.min ≤ y.min := (List.pairwise_cons.1 hs).1 y (List.mem_cons_self _ _)
    have hcr : ∀ z ∈ rest, cur.min ≤ z.min := fun z hz =>
      (List.pairwise_cons.1 hs).1 z (List.mem_cons_of_mem _ hz)
    have hyr : (y :: rest).Pairwise (fun a b => a.min ≤ b.min) := (List.pairwise_cons.1 hs).2
    have hrr : rest.Pairwise (fun a b => a.min ≤ b.min) := (List.pairwise_cons.1 hyr).2
    simp only [mergeF]
    by_cases h1 : y.max ≤ cur.max
    · simp only [h1, if_true]
      rw [ih cur (List.pairwise_cons.2 ⟨hcr, hrr⟩) x]
      simp only [covers_cons]
      constructor
      · rintro (h | h)
        · exact Or.inl h
        · exact Or.inr (Or.inr h)
      · rintro (h | h | h)
        · exact Or.inl h
        · exact Or.inl ⟨by omega, by omega⟩
        · exact Or.inr h
    · simp only [h1, if_false]
      by_cases h2 : y.min ≤ cur.max
      · simp only [h2, if_true]
        rw [ih { cur with max := y.max } (List.pairwise_cons.2 ⟨hcr, hrr⟩) x]
        simp only [covers_cons]
        constructor
        · rintro (h | h)
          · by_cases hx : x ≤ cur.max
            · exact Or.inl ⟨h.1, hx⟩
            · exact Or.inr (Or.inl ⟨by omega, h.2⟩)
          · exact Or.inr (Or.inr h)
        · rintro (h | h | h)
          · exact Or.inl ⟨h.1, show x ≤ y.max by omega⟩
          · exact Or.inl ⟨show cur.min ≤ x by omega, h.2⟩
          · exact Or.inr h
      · simp only [h2, if_false]
        rw [covers_cons, ih y hyr x, covers_cons cur]

/-- C2: the IPv4 sort-and-merge step of `main` preserves coverage: for every
non-empty array of ranges (a range with `min > max` holding no address) and
every address `x`, `x` lies in a range of the merged array iff it lies in a
range of the input; and the ranges of `10.0.0.0/30` and `10.0.0.2/30` merge
into the single range `[10.0.0.0, 10.0.0.3]`, which holds `10.0.0.3`. -/
theorem C2_sort_merge_coverage :
    (∀ (array : List netspec) (x : Nat), array ≠ [] →
      (covers (sort_merge array) x ↔ covers array x)) ∧
    sort_merge [⟨0x0A000000, 0x0A000003⟩, ⟨0x0A000000, 0x0A000003⟩]
      = [⟨0x0A000000, 0x0A000003⟩] ∧
    covers (sort_merge [⟨0x0A000000, 0x0A000003⟩, ⟨0x0A000000, 0x0A000003⟩]) 0x0A000003 := by
  refine ⟨?_, by decide, ?_⟩
  · intro array x h
    obtain ⟨c, rest, hq, hm⟩ := sort_merge_eq array h
    rw [hm, mergeF_covers rest c (hq ▸ qsort_sorted array) x, ← hq]
    exact covers_perm (qsort_perm array) x
  · exact ⟨⟨0x0A000000, 0x0A000003⟩, by decide, by decide, by decide⟩

/-- C2 at an input with a contained, an overlapping and a backward range. -/
theorem C2_sort_merge_coverage_witness :
    covers (sort_merge [⟨10, 20⟩, ⟨5, 3⟩, ⟨15, 30⟩, ⟨12, 13⟩]) 25 ↔
      covers [⟨10, 20⟩, ⟨5, 3⟩, ⟨15, 30⟩, ⟨12, 13⟩] 25 :=
  C2_sort_merge_coverage.1 [⟨10, 20⟩, ⟨5, 3⟩, ⟨15, 30⟩, ⟨12, 13⟩] 25 (by decide)

theorem mergeF_head (rest : List netspec) :
    ∀ cur : netspec, ∃ m t, mergeF cur rest = ⟨cur.min, m⟩ :: t ∧ cur.max ≤ m := by
  induction rest with
  | nil => intro cur; exact ⟨cur.max, [], rfl, le_refl _⟩
  | cons y rest ih =>
    intro cur
    simp only [mergeF]
    by_cases h1 : y.max ≤ cur.max
    · simp only [h1, if_true]; exact ih cur
    · simp only [h1, if_false]
      by_cases h2 : y.min ≤ cur.max
      · simp only [h2, if_true]
        obtain ⟨m, t, he, hm⟩ := ih { cur with max := y.max }
        exact ⟨m, t, he, by have : y.max ≤ m := hm; omega⟩
      · simp only [h2, if_false]
        exact ⟨cur.max, _, rfl, le_refl _⟩

theorem mergeF_chain (rest : List netspec) :
    ∀ cur : netspec, (mergeF cur rest).Chain' (fun p q => p.max < q.min) := by
  induction rest with
  | nil => intro cur; simp [mergeF]
  | cons y rest ih =>
    intro cur
    simp only [mergeF]
    by_cases h1 : y.max ≤ cur.max
    · simp only [h1, if_true]; exact ih cur
    · simp only [h1, if_false]
      by_cases h2 : y.min ≤ cur.max
      · simp only [h2, if_true]; exact ih _
      · simp only [h2, if_false]
        obtain ⟨m, t, he, _⟩ := mergeF_head rest y
        have := ih y
        rw [he] at this ⊢
        exact List.Chain'.cons (by show cur.max < y.min; omega) this

theorem mergeF_le (rest : List netspec) :
    ∀ cur : netspec, cur.min ≤ cur.max → (∀ y ∈ rest, y.min ≤ y.max) →
      ∀ p ∈ mergeF cur rest, p.min ≤ p.max := by
  induction rest with
  | nil => intro cur hc _ p hp; simp [mergeF] at hp; subst hp; exact hc
  | cons y rest ih =>
    intro cur hc hr
    have hy := hr y (List.mem_cons_self _ _)
    have hr' : ∀ z ∈ rest, z.min ≤ z.max := fun z hz => hr z (List.mem_cons_of_mem _ hz)
    simp only [mergeF]
    by_cases h1 : y.max ≤ cur.max
    · simp only [h1, if_true]; exact ih cur hc hr'
    · simp only [h1, if_false]
      by_cases h2 : y.min ≤ cur.max
      · simp only [h2, if_true]
        exact ih _ (show cur.min ≤ y.max by omega) hr'
      · simp only [h2, if_false]
        intro p hp
        rcases List.mem_cons.1 hp with h | h
        · subst h; exact hc
        · exact ih y hy hr' p h

theorem mergeF_merged (rest : List netspec) :
    ∀ cur : netspec, (cur :: rest).Pairwise (fun a b => a.min ≤ b.min) →
      Merged (mergeF cur rest) ∧
        ∀ q ∈ mergeF cur rest, cur.min ≤ q.min ∧ cur.max ≤ q.max := by
  induction rest with
  | nil => intro cur _; simp [mergeF, Merged]
  | cons y rest ih =>
    intro cur hs
    have hcy : cur.min ≤ y.min := (List.pairwise_cons.1 hs).1 y (List.mem_cons_self _ _)
    have hcr : ∀ z ∈ rest, cur.min ≤ z.min := fun z hz =>
      (List.pairwise_cons.1 hs).1 z (List.mem_cons_of_mem _ hz)
    have hyr : (y :: rest).Pairwise (fun a b => a.min ≤ b.min) := (List.pairwise_cons.1 hs).2
    have hrr : rest.Pairwise (fun a b => a.min ≤ b.min) := (List.pairwise_cons.1 hyr).2
    simp only [mergeF]
    by_cases h1 : y.max ≤ cur.max
    · simp only [h1, if_true]; exact ih cur (List.pairwise_cons.2 ⟨hcr, hrr⟩)
    · simp only [h1, if_false]
      by_cases h2 : y.min ≤ cur.max
      · simp only [h2, if_true]
        obtain ⟨hm, hq⟩ := ih { cur with max := y.max } (List.pairwise_cons.2 ⟨hcr, hrr⟩)
        refine ⟨hm, fun q hqm => ?_⟩
        have := hq q hqm
        exact ⟨this.1, by have h3 : y.max ≤ q.max := this.2; omega⟩
      · simp only [h2, if_false]
        obtain ⟨hm, hq⟩ := ih y hyr
        refine ⟨List.pairwise_cons.2 ⟨fun q hqm => ?_, hm⟩, fun q hqm => ?_⟩
        · have := hq q hqm
          exact ⟨by omega, by omega, by omega⟩
        · rcases List.mem_cons.1 hqm with h | h
          · subst h; exact ⟨le_refl _, le_refl _⟩
          · have := hq q h; exact ⟨by omega, by omega⟩

/-- The output of sort-and-merge satisfies `Merged`, whatever the input. -/
theorem sort_merge_merged (array : List netspec) (h : array ≠ []) :
    Merged (sort_merge array) ∧ sort_merge array ≠ [] := by
  obtain ⟨c, rest, hq, hm⟩ := sort_merge_eq array h
  rw [hm]
  refine ⟨(mergeF_merged rest c (hq ▸ qsort_sorted array)).1, ?_⟩
  obtain ⟨m, t, he, _⟩ := mergeF_head rest c
  rw [he]; exact List.cons_ne_nil _ _

theorem sorted_disjoint_merged : ∀ {l : List netspec}, SortedDisjoint l → Merged l := by
  intro l
  induction l with
  | nil => intro _; exact List.Pairwise.nil
  | cons a l ih =>
    intro h
    have hl : SortedDisjoint l :=
      ⟨fun p hp => h.1 p (List.mem_cons_of_mem _ hp), (List.chain'_cons'.1 h.2).2⟩
    have hm := ih hl
    refine List.pairwise_cons.2 ⟨?_, hm⟩
    cases l with
    | nil => intro q hq; simp at hq
    | cons b l' =>
      have hab : a.max < b.min := (List.chain'_cons.1 h.2).1
      have ha : a.min ≤ a.max := h.1 a (List.mem_cons_self _ _)
      have hb : b.min ≤ b.max := h.1 b (List.mem_cons_of_mem _ (List.mem_cons_self _ _))
      intro q hq
      rcases List.mem_cons.1 hq with e | e
      · subst e; exact ⟨by omega, hab, by omega⟩
      · have := (List.pairwise_cons.1 hm).1 q e
        have hqle : q.min ≤ q.max := h.1 q (List.mem_cons_of_mem _ hq)
        exact ⟨by omega, by omega, by omega⟩

/-- C3: for every non-empty array of IPv4 ranges that each satisfy
`min ≤ max`, the output of the sort-and-merge step of `main` is sorted and
disjoint: every output range has `min ≤ max`, and the `min` of every output
range is strictly greater than the `max` of the output range before it. -/
theorem C3_sort_merge_sorted_disjoint (array : List netspec) (hne : array ≠ [])
    (hle : ∀ p ∈ array, p.min ≤ p.max) :
    (∀ p ∈ sort_merge array, p.min ≤ p.max) ∧
    (sort_merge array).Chain' (fun p q => p.max < q.min) := by
  obtain ⟨c, rest, hq, hm⟩ := sort_merge_eq array hne
  have hmem : ∀ p ∈ c :: rest, p.min ≤ p.max := fun p hp =>
    hle p ((qsort_perm array).mem_iff.1 (hq ▸ hp))
  rw [hm]
  exact ⟨mergeF_le rest c (hmem c (List.mem_cons_self _ _))
      (fun y hy => hmem y (List.mem_cons_of_mem _ hy)), mergeF_chain rest c⟩

/-- C3 at an input with contained, overlapping, touching and separate ranges. -/
theorem C3_sort_merge_sorted_disjoint_witness :
    (∀ p ∈ sort_merge [⟨40, 50⟩, ⟨10, 20⟩, ⟨15, 30⟩, ⟨12, 13⟩, ⟨50, 60⟩, ⟨61, 70⟩],
        p.min ≤ p.max) ∧
    (sort_merge [⟨40, 50⟩, ⟨10, 20⟩, ⟨15, 30⟩, ⟨12, 13⟩, ⟨50, 60⟩, ⟨61, 70⟩]).Chain'
      (fun p q => p.max < q.min) :=
  C3_sort_merge_sorted_disjoint [⟨40, 50⟩, ⟨10, 20⟩, ⟨15, 30⟩, ⟨12, 13⟩, ⟨50, 60⟩, ⟨61, 70⟩]
    (by decide) (by decide)

/-! ## The binary search of the range matchers -/

theorem elemAt_ok {α : Type} {array : List α} {i : Int} {x : α}
    (h0 : 0 ≤ i) (h : array[i.toNat]? = some x) : elemAt array i = .ok x := by
  simp [elemAt, h0, h]

theorem elemAt_nat {α : Type} {array : List α} {i : Nat} {x : α}
    (h : array[i]? = some x) : elemAt array (i : Int) = .ok x :=
  elemAt_ok (Int.ofNat_nonneg i) (by simpa using h)

theorem netmatch_search_eq (array : List netspec) (ip4 : netspec) :
    ∀ (fuel : Nat) (minx maxx tryx : Int),
      netmatch_search array ip4 fuel minx maxx tryx =
        bsearch array (fun t => decide (ip4.max < t.min)) (fun t => decide (ip4.min > t.max))
          fuel minx maxx tryx := by
  intro fuel
  induction fuel with
  | zero => intro minx maxx tryx; rfl
  | succ fuel ih =>
    intro minx maxx tryx
    simp only [netmatch_search, bsearch]
    split_ifs with h1
    · cases elemAt array ((minx + maxx) / 2) with
      | error e => rfl
      | ok t => simp only [ih, decide_eq_true_eq]
    · rfl

theorem netmatch6_search_eq (array6 : List netspec6) (ip6 : netspec6) :
    ∀ (fuel : Nat) (minx maxx tryx : Int),
      netmatch6_search array6 ip6 fuel minx maxx tryx =
        bsearch array6 (fun t => decide (v6cmp ip6.min t.min < 0))
          (fun t => decide (v6cmp ip6.min t.max > 0)) fuel minx maxx tryx := by
  intro fuel
  induction fuel with
  | zero => intro minx maxx tryx; rfl
  | succ fuel ih =>
    intro minx maxx tryx
    simp only [netmatch6_search, bsearch]
    split_ifs with h1
    · cases elemAt array6 ((minx + maxx) / 2) with
      | error e => rfl
      | ok t => simp only [ih, decide_eq_true_eq]
    · rfl

/-- The search returns an index of the array; and when the elements with a
property `Q` lie to the left of every probe that sends the search left, to
the right of every probe that sends it right, and a probe that stops the
search has `Q` if any element has, then the element returned has `Q` if an
element between `minx` and `maxx` has. -/
theorem bsearch_spec {α : Type} (array : List α) (goLeft goRight : α → Bool) (Q : α → Prop)
    (hL : ∀ (i j : Nat) (p q : α), array[i]? = some p → array[j]? = some q →
      Q p → goLeft q = true → i < j)
    (hR : ∀ (i j : Nat) (p q : α), array[i]? = some p → array[j]? = some q →
      Q p → goLeft q = false → goRight q = true → j < i)
    (hB : ∀ (i j : Nat) (p q : α), array[i]? = some p → array[j]? = some q →
      Q p → goLeft q = false → goRight q = false → Q q) :
    ∀ (fuel : Nat) (minx maxx tryx : Int), 0 ≤ minx → maxx < array.length →
      maxx + 1 - minx ≤ fuel → 0 ≤ tryx → tryx < array.length →
      ∃ t : Nat, bsearch array goLeft goRight fuel minx maxx tryx = .ok (t : Int) ∧
        t < array.length ∧
        ((∃ (i : Nat) (p : α), array[i]? = some p ∧ minx ≤ i ∧ (i : Int) ≤ maxx ∧ Q p) →
          ∃ q, array[t]? = some q ∧ Q q) := by
  intro fuel
  induction fuel with
  | zero =>
    intro minx maxx tryx h0 _ hf ht0 htn
    have hlt : ¬ minx ≤ maxx := by omega
    refine ⟨tryx.toNat, ?_, by omega, ?_⟩
    · simp [bsearch, hlt, Int.toNat_of_nonneg ht0]
    · rintro ⟨i, p, _, h1, h2, _⟩; omega
  | succ fuel ih =>
    intro minx maxx tryx h0 hn hf ht0 htn
    by_cases hle : minx ≤ maxx
    · have hmid0 : 0 ≤ (minx + maxx) / 2 := by omega
      have hmidn : ((minx + maxx) / 2).toNat < array.length := by omega
      have hget : array[((minx + maxx) / 2).toNat]? = some array[((minx + maxx) / 2).toNat] :=
        List.getElem?_eq_getElem hmidn
      have hcast : (((minx + maxx) / 2).toNat : Int) = (minx + maxx) / 2 :=
        Int.toNat_of_nonneg hmid0
      simp only [bsearch, hle, if_true, elemAt_ok hmid0 hget]
      by_cases hl : goLeft array[((minx + maxx) / 2).toNat] = true
      · simp only [hl, if_true]
        obtain ⟨t, ht, htl, hpost⟩ := ih minx ((minx + maxx) / 2 - 1) ((minx + maxx) / 2)
          h0 (by omega) (by omega) hmid0 (by omega)
        refine ⟨t, ht, htl, ?_⟩
        rintro ⟨i, p, hp, h1, h2, hq⟩
        have := hL i _ p _ hp hget hq hl
        exact hpost ⟨i, p, hp, h1, by omega, hq⟩
      · have hl' : goLeft array[((minx + maxx) / 2).toNat] = false := by simpa using hl
        simp only [hl', Bool.false_eq_true, if_false]
        by_cases hr : goRight array[((minx + maxx) / 2).toNat] = true
        · simp only [hr, if_true]
          obtain ⟨t, ht, htl, hpost⟩ := ih ((minx + maxx) / 2 + 1) maxx ((minx + maxx) / 2)
            (by omega) hn (by omega) hmid0 (by omega)
          refine ⟨t, ht, htl, ?_⟩
          rintro ⟨i, p, hp, h1, h2, hq⟩
          have := hR i _ p _ hp hget hq hl' hr
          exact hpost ⟨i, p, hp, by omega, h2, hq⟩
        · have hr' : goRight array[((minx + maxx) / 2).toNat] = false := by simpa using hr
          simp only [hr', Bool.false_eq_true, if_false]
          refine ⟨((minx + maxx) / 2).toNat, by rw [hcast], hmidn, ?_⟩
          rintro ⟨i, p, hp, _, _, hq⟩
          exact ⟨_, hget, hB i _ p _ hp hget hq hl' hr'⟩
    · refine ⟨tryx.toNat, ?_, by omega, ?_⟩
      · simp [bsearch, hle, Int.toNat_of_nonneg ht0]
      · rintro ⟨i, p, _, h1, h2, _⟩; omega

/-! ## `netmatch` -/

theorem merged_get {array : List netspec} (hm : Merged array) {i j : Nat} {p q : netspec}
    (hi : array[i]? = some p) (hj : array[j]? = some q) (hij : i < j) :
    p.min ≤ q.min ∧ p.max < q.min ∧ p.max < q.max := by
  obtain ⟨hil, rfl⟩ := List.getElem?_eq_some.1 hi
  obtain ⟨hjl, rfl⟩ := List.getElem?_eq_some.1 hj
  exact (List.pairwise_iff_getElem.1 hm) i j hil hjl hij

theorem merged_get_le {array : List netspec} (hm : Merged array) {i j : Nat} {p q : netspec}
    (hi : array[i]? = some p) (hj : array[j]? = some q) (hij : i ≤ j) :
    p.min ≤ q.min ∧ p.max ≤ q.max := by
  rcases Nat.lt_or_eq_of_le hij with h | h
  · have := merged_get hm hi hj h; omega
  · subst h; rw [hi] at hj; cases hj; omega

/-- The result of `netmatch` on a non-empty array, in terms of the element
that the search stops at. -/
theorem netmatch_eval (didr : Bool) (array : List netspec) (c f l : netspec)
    (hf : array[0]? = some f) (hl : array[array.length - 1]? = some l)
    (h1 : ¬ c.max < f.min) (h2 : ¬ c.min > l.max) (t : Nat) (q : netspec)
    (hs : netmatch_search array c array.length 0 ((array.length : Int) - 1) 0 = .ok (t : Int))
    (hq : array[t]? = some q) :
    netmatch didr array c =
      .ok (decide ((c.min ≥ q.min ∧ c.max ≤ q.max) ∨
        (didr = true ∧ ((c.min ≤ q.min ∧ c.max ≥ q.max) ∨ (c.min ≥ q.min ∧ c.min ≤ q.max) ∨
          (c.max ≥ q.min ∧ c.max ≤ q.max))))) := by
  have hpos : 0 < array.length := by
    rcases Nat.eq_zero_or_pos array.length with h | h
    · rw [List.length_eq_zero.1 h] at hf; simp at hf
    · exact h
  have hlast : elemAt array ((array.length : Int) - 1) = .ok l := by
    have : ((array.length : Int) - 1) = ((array.length - 1 : Nat) : Int) := by omega
    rw [this]; exact elemAt_nat hl
  have hfirst : elemAt array 0 = .ok f := elemAt_nat (i := 0) hf
  simp only [netmatch, hfirst, hlast, h1, h2, if_false, hs, elemAt_nat hq]
  cases didr <;> by_cases ha : (c.min ≥ q.min ∧ c.max ≤ q.max) <;> simp [ha]
  split_ifs <;> simp_all

theorem netmatch_search_ok (array : List netspec) (c : netspec) (hne : array ≠ []) (Q : netspec → Prop)
    (hL : ∀ (i j : Nat) (p q : netspec), array[i]? = some p → array[j]? = some q →
      Q p → c.max < q.min → i < j)
    (hR : ∀ (i j : Nat) (p q : netspec), array[i]? = some p → array[j]? = some q →
      Q p → ¬ c.max < q.min → c.min > q.max → j < i)
    (hB : ∀ (i j : Nat) (p q : netspec), array[i]? = some p → array[j]? = some q →
      Q p → ¬ c.max < q.min → ¬ c.min > q.max → Q q) :
    ∃ (t : Nat) (q : netspec),
      netmatch_search array c array.length 0 ((array.length : Int) - 1) 0 = .ok (t : Int) ∧
      array[t]? = some q ∧ ((∃ p ∈ array, Q p) → Q q) := by
  have hpos : 0 < array.length := List.length_pos.2 hne
  obtain ⟨t, ht, htl, hpost⟩ := bsearch_spec array (fun t => decide (c.max < t.min))
    (fun t => decide (c.min > t.max)) Q
    (fun i j p q hp hq hQ h => hL i j p q hp hq hQ (by simpa using h))
    (fun i j p q hp hq hQ h h' => hR i j p q hp hq hQ (by simpa using h) (by simpa using h'))
    (fun i j p q hp hq hQ h h' => hB i j p q hp hq hQ (by simpa using h) (by simpa using h'))
    array.length 0 ((array.length : Int) - 1) 0 (le_refl _) (by omega) (by omega) (le_refl _)
    (by omega)
  refine ⟨t, array[t], ?_, List.getElem?_eq_getElem htl, ?_⟩
  · rw [netmatch_search_eq]; exact ht
  · rintro ⟨p, hp, hQ⟩
    obtain ⟨i, hi, hpi⟩ := List.mem_iff_getElem.1 hp
    obtain ⟨q, hq, hQq⟩ := hpost ⟨i, p, by rw [List.getElem?_eq_getElem hi, hpi],
      by omega, by omega, hQ⟩
    rw [List.getElem?_eq_getElem htl] at hq
    cases hq; exact hQq

theorem first_last {α : Type} (array : List α) (hne : array ≠ []) :
    ∃ f l, array[0]? = some f ∧ array[array.length - 1]? = some l := by
  have hpos : 0 < array.length := List.length_pos.2 hne
  exact ⟨array[0], array[array.length - 1], List.getElem?_eq_getElem hpos,
    List.getElem?_eq_getElem (by omega)⟩

/-- Containment mode on any merged array: `netmatch` answers whether some
range of the array contains the candidate. -/
theorem netmatch_contain (array : List netspec) (c : netspec) (hne : array ≠ [])
    (hm : Merged array) (hc : c.min ≤ c.max) :
    netmatch false array c =
      .ok (decide (∃ p ∈ array, p.min ≤ c.min ∧ c.max ≤ p.max)) := by
  obtain ⟨f, l, hf, hl⟩ := first_last array hne
  have hpos : 0 < array.length := List.length_pos.2 hne
  by_cases h1 : c.max < f.min
  · have hfirst : elemAt array 0 = .ok f := elemAt_nat (i := 0) hf
    have hno : ¬ ∃ p ∈ array, p.min ≤ c.min ∧ c.max ≤ p.max := by
      rintro ⟨p, hp, hpc⟩
      obtain ⟨i, hi, rfl⟩ := List.mem_iff_getElem.1 hp
      have := merged_get_le hm hf (List.getElem?_eq_getElem hi) (Nat.zero_le i)
      omega
    simp only [netmatch, hfirst, h1, if_true, decide_eq_false hno]
  by_cases h2 : c.min > l.max
  · have hfirst : elemAt array 0 = .ok f := elemAt_nat (i := 0) hf
    have hlast : elemAt array ((array.length : Int) - 1) = .ok l := by
      have : ((array.length : Int) - 1) = ((array.length - 1 : Nat) : Int) := by omega
      rw [this]; exact elemAt_nat hl
    have hno : ¬ ∃ p ∈ array, p.min ≤ c.min ∧ c.max ≤ p.max := by
      rintro ⟨p, hp, hpc⟩
      obtain ⟨i, hi, rfl⟩ := List.mem_iff_getElem.1 hp
      have := merged_get_le hm (List.getElem?_eq_getElem hi) hl (by omega)
      omega
    simp only [netmatch, hfirst, hlast, h1, h2, if_true, if_false, decide_eq_false hno]
  obtain ⟨t, q, hs, hq, hpost⟩ := netmatch_search_ok array c hne
    (fun p => p.min ≤ c.min ∧ c.max ≤ p.max)
    (fun i j p q hp hq hQ h => by
      by_contra hij
      have := merged_get_le hm hq hp (by omega)
      omega)
    (fun i j p q hp hq hQ h h' => by
      by_contra hij
      rcases Nat.lt_or_eq_of_le (Nat.le_of_not_lt hij) with e | e
      · have := merged_get hm hp hq e; omega
      · subst e; rw [hp] at hq; cases hq; omega)
    (fun i j p q hp hq hQ h h' => by
      rcases Nat.lt_trichotomy i j with e | e | e
      · have := merged_get hm hp hq e; omega
      · subst e; rw [hp] at hq; cases hq; exact hQ
      · have := merged_get hm hq hp e; omega)
  rw [netmatch_eval false array c f l hf hl h1 h2 t q hs hq]
  congr 1
  apply decide_eq_decide.2
  constructor
  · rintro (h | h)
    · exact ⟨q, List.getElem?_mem hq, h.1, h.2⟩
    · simp at h
  · intro h
    exact Or.inl ⟨(hpost h).1, (hpost h).2⟩

/-- C4: in containment mode (`didrsearch` off), for every non-empty pattern
array that is sorted and disjoint and every candidate with `min ≤ max`,
`netmatch` returns true iff some range `p` of the array satisfies
`p.min ≤ candidate.min` and `candidate.max ≤ p.max`. -/
theorem C4_netmatch_containment (array : List netspec) (c : netspec) (hne : array ≠ [])
    (hsd : SortedDisjoint array) (hc : c.min ≤ c.max) :
    netmatch false array c =
      .ok (decide (∃ p ∈ array, p.min ≤ c.min ∧ c.max ≤ p.max)) :=
  netmatch_contain array c hne (sorted_disjoint_merged hsd) hc

/-- C4 at three ranges and a candidate inside the second. -/
theorem C4_netmatch_containment_witness :
    netmatch false [⟨1, 2⟩, ⟨10, 15⟩, ⟨30, 40⟩] ⟨11, 12⟩ =
      .ok (decide (∃ p ∈ [(⟨1, 2⟩ : netspec), ⟨10, 15⟩, ⟨30, 40⟩], p.min ≤ 11 ∧ 12 ≤ p.max)) :=
  C4_netmatch_containment [⟨1, 2⟩, ⟨10, 15⟩, ⟨30, 40⟩] ⟨11, 12⟩ (by decide)
    ⟨by decide, by simp⟩ (by decide)

/-- Overlap mode on a sorted disjoint array: `netmatch` answers whether some
range of the array meets the candidate. -/
theorem netmatch_overlap (array : List netspec) (c : netspec) (hne : array ≠ [])
    (hsd : SortedDisjoint array) (hc : c.min ≤ c.max) :
    netmatch true array c =
      .ok (decide (∃ p ∈ array, c.min ≤ p.max ∧ p.min ≤ c.max)) := by
  have hm := (sorted_disjoint_merged hsd)
  obtain ⟨f, l, hf, hl⟩ := first_last array hne
  have hpos : 0 < array.length := List.length_pos.2 hne
  by_cases h1 : c.max < f.min
  · have hfirst : elemAt array 0 = .ok f := elemAt_nat (i := 0) hf
    have hno : ¬ ∃ p ∈ array, c.min ≤ p.max ∧ p.min ≤ c.max := by
      rintro ⟨p, hp, hpc⟩
      obtain ⟨i, hi, rfl⟩ := List.mem_iff_getElem.1 hp
      have := merged_get_le hm hf (List.getElem?_eq_getElem hi) (Nat.zero_le i)
      omega
    simp only [netmatch, hfirst, h1, if_true, decide_eq_false hno]
  by_cases h2 : c.min > l.max
  · have hfirst : elemAt array 0 = .ok f := elemAt_nat (i := 0) hf
    have hlast : elemAt array ((array.length : Int) - 1) = .ok l := by
      have : ((array.length : Int) - 1) = ((array.length - 1 : Nat) : Int) := by omega
      rw [this]; exact elemAt_nat hl
    have hno : ¬ ∃ p ∈ array, c.min ≤ p.max ∧ p.min ≤ c.max := by
      rintro ⟨p, hp, hpc⟩
      obtain ⟨i, hi, rfl⟩ := List.mem_iff_getElem.1 hp
      have := merged_get_le hm (List.getElem?_eq_getElem hi) hl (by omega)
      omega
    simp only [netmatch, hfirst, hlast, h1, h2, if_true, if_false, decide_eq_false hno]
  obtain ⟨t, q, hs, hq, hpost⟩ := netmatch_search_ok array c hne
    (fun p => c.min ≤ p.max ∧ p.min ≤ c.max)
    (fun i j p q hp hq hQ h => by
      by_contra hij
      have := merged_get_le hm hq hp (by omega)
      omega)
    (fun i j p q hp hq hQ h h' => by
      by_contra hij
      have := merged_get_le hm hp hq (by omega)
      omega)
    (fun i j p q hp hq hQ h h' => ⟨by omega, by omega⟩)
  have hqle : q.min ≤ q.max := hsd.1 q (List.getElem?_mem hq)
  rw [netmatch_eval true array c f l hf hl h1 h2 t q hs hq]
  congr 1
  apply decide_eq_decide.2
  constructor
  · intro h
    simp only [true_and] at h
    refine ⟨q, List.getElem?_mem hq, ?_⟩
    omega
  · intro h
    have := hpost h
    by_cases hb : c.min ≥ q.min
    · exact Or.inr ⟨rfl, Or.inr (Or.inl ⟨hb, this.1⟩)⟩
    · by_cases he : c.max ≤ q.max
      · exact Or.inr ⟨rfl, Or.inr (Or.inr ⟨this.2, he⟩)⟩
      · exact Or.inr ⟨rfl, Or.inl ⟨by omega, by omega⟩⟩

/-- C7: in overlap mode (`didrsearch` on), for every non-empty sorted
disjoint IPv4 pattern array and every candidate with `min ≤ max`, `netmatch`
returns true iff the candidate meets some range `p` of the array, that is
`candidate.min ≤ p.max` and `p.min ≤ candidate.max`. -/
theorem C7_netmatch_overlap (array : List netspec) (c : netspec) (hne : array ≠ [])
    (hsd : SortedDisjoint array) (hc : c.min ≤ c.max) :
    netmatch true array c =
      .ok (decide (∃ p ∈ array, c.min ≤ p.max ∧ p.min ≤ c.max)) :=
  netmatch_overlap array c hne hsd hc

/-- C7 at three ranges and a candidate that straddles the gap before the
second. -/
theorem C7_netmatch_overlap_witness :
    netmatch true [⟨1, 2⟩, ⟨10, 15⟩, ⟨30, 40⟩] ⟨5, 12⟩ =
      .ok (decide (∃ p ∈ [(⟨1, 2⟩ : netspec), ⟨10, 15⟩, ⟨30, 40⟩], 5 ≤ p.max ∧ p.min ≤ 12)) :=
  C7_netmatch_overlap [⟨1, 2⟩, ⟨10, 15⟩, ⟨30, 40⟩] ⟨5, 12⟩ (by decide)
    ⟨by decide, by simp⟩ (by decide)

/-! ## Byte strings as numbers, and `v6cmp` -/

theorem valL_foldl (l : List Nat) (v : Nat) :
    l.foldl (fun acc b => acc * 256 + b) v = v * 256 ^ l.length + valL l := by
  induction l generalizing v with
  | nil => simp [valL]
  | cons b l ih =>
    simp only [List.foldl_cons, List.length_cons, valL]
    rw [ih (v * 256 + b), ih (0 * 256 + b)]
    ring

theorem valL_cons (b : Nat) (l : List Nat) : valL (b :: l) = b * 256 ^ l.length + valL l := by
  simp only [valL, List.foldl_cons]
  rw [valL_foldl]
  simp [valL]

theorem valL_append (l₁ l₂ : List Nat) :
    valL (l₁ ++ l₂) = valL l₁ * 256 ^ l₂.length + valL l₂ := by
  simp only [valL, List.foldl_append]
  rw [valL_foldl]
  rfl

theorem valL_lt (l : List Nat) (h : ∀ b ∈ l, b < 256) : valL l < 256 ^ l.length := by
  induction l with
  | nil => simp [valL]
  | cons b l ih =>
    have hb := h b (List.mem_cons_self _ _)
    have hl := ih (fun x hx => h x (List.mem_cons_of_mem _ hx))
    rw [valL_cons, List.length_cons, pow_succ]
    have : b * 256 ^ l.length ≤ 255 * 256 ^ l.length := Nat.mul_le_mul_right _ (by omega)
    omega

theorem memcmp_spec : ∀ (n : Nat) (xs ys : List Nat), xs.length = n → ys.length = n →
    (∀ b ∈ xs, b < 256) → (∀ b ∈ ys, b < 256) →
    (memcmp xs ys n < 0 ↔ valL xs < valL ys) ∧ (0 < memcmp xs ys n ↔ valL ys < valL xs) := by
  intro n
  induction n with
  | zero =>
    intro xs ys hx hy _ _
    rw [List.length_eq_zero.1 hx, List.length_eq_zero.1 hy]
    simp [memcmp]
  | succ n ih =>
    intro xs ys hx hy hbx hby
    cases xs with
    | nil => simp at hx
    | cons x xs =>
      cases ys with
      | nil => simp at hy
      | cons y ys =>
        simp only [List.length_cons, Nat.add_right_cancel_iff] at hx hy
        have hvx := valL_lt xs (fun b hb => hbx b (List.mem_cons_of_mem _ hb))
        have hvy := valL_lt ys (fun b hb => hby b (List.mem_cons_of_mem _ hb))
        have hrec := ih xs ys hx hy (fun b hb => hbx b (List.mem_cons_of_mem _ hb))
          (fun b hb => hby b (List.mem_cons_of_mem _ hb))
        rw [valL_cons, valL_cons, hx, hy] at *
        simp only [memcmp]
        by_cases h1 : x < y
        · have : (x + 1) * 256 ^ n ≤ y * 256 ^ n := Nat.mul_le_mul_right _ h1
          have e : (x + 1) * 256 ^ n = x * 256 ^ n + 256 ^ n := by ring
          simp only [h1, if_true]
          constructor <;> constructor <;> intro h <;> omega
        · by_cases h2 : x > y
          · have : (y + 1) * 256 ^ n ≤ x * 256 ^ n := Nat.mul_le_mul_right _ h2
            have e : (y + 1) * 256 ^ n = y * 256 ^ n + 256 ^ n := by ring
            simp only [h1, h2, if_true, if_false]
            constructor <;> constructor <;> intro h <;> omega
          · have e : x = y := by omega
            subst e
            simp only [h1, if_false]
            constructor
            · rw [hrec.1]; omega
            · rw [hrec.2]; omega

theorem v6cmp_lt {a b : v6addr} (ha : a.wf) (hb : b.wf) :
    v6cmp a b < 0 ↔ v6val a < v6val b :=
  (memcmp_spec 16 a.a b.a ha.1 hb.1 ha.2 hb.2).1

theorem v6cmp_gt {a b : v6addr} (ha : a.wf) (hb : b.wf) :
    v6cmp a b > 0 ↔ v6val b < v6val a :=
  (memcmp_spec 16 a.a b.a ha.1 hb.1 ha.2 hb.2).2

theorem v6cmp_le {a b : v6addr} (ha : a.wf) (hb : b.wf) :
    v6cmp a b ≤ 0 ↔ v6val a ≤ v6val b := by
  have := v6cmp_gt ha hb
  constructor <;> intro h <;> omega

theorem v6cmp_ge {a b : v6addr} (ha : a.wf) (hb : b.wf) :
    v6cmp a b ≥ 0 ↔ v6val b ≤ v6val a := by
  have := v6cmp_lt ha hb
  constructor <;> intro h <;> omega

/-! ## `netmatch6` -/

theorem sd6_tail {a : netspec6} {l : List netspec6}
    (h : SortedDisjoint6 (a :: l)) : SortedDisjoint6 l :=
  ⟨fun p hp => h.1 p (List.mem_cons_of_mem _ hp), (List.chain'_cons'.1 h.2).2⟩

theorem sd6_pairwise : ∀ {l : List netspec6}, SortedDisjoint6 l →
    l.Pairwise (fun p q => v6val p.max < v6val q.min) := by
  intro l
  induction l with
  | nil => intro _; exact List.Pairwise.nil
  | cons a l ih =>
    intro h
    have hm := ih (sd6_tail h)
    refine List.pairwise_cons.2 ⟨?_, hm⟩
    cases l with
    | nil => intro q hq; simp at hq
    | cons b l' =>
      have hab : v6val a.max < v6val b.min := (List.chain'_cons.1 h.2).1
      have hb := (h.1 b (List.mem_cons_of_mem _ (List.mem_cons_self _ _))).2
      intro q hq
      rcases List.mem_cons.1 hq with e | e
      · subst e; exact hab
      · have := (List.pairwise_cons.1 hm).1 q e
        omega

theorem sd6_get {array : List netspec6} (hsd : SortedDisjoint6 array) {i j : Nat}
    {p q : netspec6} (hi : array[i]? = some p) (hj : array[j]? = some q) (hij : i < j) :
    v6val p.max < v6val q.min := by
  obtain ⟨hil, rfl⟩ := List.getElem?_eq_some.1 hi
  obtain ⟨hjl, rfl⟩ := List.getElem?_eq_some.1 hj
  exact (List.pairwise_iff_getElem.1 (sd6_pairwise hsd)) i j hil hjl hij

theorem sd6_elem {array : List netspec6} (hsd : SortedDisjoint6 array) {i : Nat}
    {p : netspec6} (hi : array[i]? = some p) :
    p.min.wf ∧ p.max.wf ∧ v6val p.min ≤ v6val p.max :=
  ⟨(hsd.1 p (List.getElem?_mem hi)).1.1, (hsd.1 p (List.getElem?_mem hi)).1.2,
    (hsd.1 p (List.getElem?_mem hi)).2⟩

theorem sd6_get_le {array : List netspec6} (hsd : SortedDisjoint6 array) {i j : Nat}
    {p q : netspec6} (hi : array[i]? = some p) (hj : array[j]? = some q) (hij : i ≤ j) :
    v6val p.min ≤ v6val q.min ∧ v6val p.max ≤ v6val q.max := by
  have hp := sd6_elem hsd hi
  have hq := sd6_elem hsd hj
  rcases Nat.lt_or_eq_of_le hij with h | h
  · have := sd6_get hsd hi hj h; omega
  · subst h; rw [hi] at hj; cases hj; omega

/-- Containment mode of `netmatch6` on a sorted disjoint array. -/
theorem netmatch6_contain (array6 : List netspec6) (c : netspec6) (hne : array6 ≠ [])
    (hsd : SortedDisjoint6 array6) (hw : c.wf) (hc : v6val c.min ≤ v6val c.max) :
    netmatch6 false array6 c =
      .ok (decide (∃ p ∈ array6, v6val p.min ≤ v6val c.min ∧ v6val c.max ≤ v6val p.max)) := by
  obtain ⟨f, l, hf, hl⟩ := first_last array6 hne
  have hpos : 0 < array6.length := List.length_pos.2 hne
  have hfw := sd6_elem hsd hf
  have hlw := sd6_elem hsd hl
  have hfirst : elemAt array6 0 = .ok f := elemAt_nat (i := 0) hf
  have hlast : elemAt array6 ((array6.length : Int) - 1) = .ok l := by
    have : ((array6.length : Int) - 1) = ((array6.length - 1 : Nat) : Int) := by omega
    rw [this]; exact elemAt_nat hl
  by_cases h1 : v6cmp c.max f.min < 0
  · have h1' := (v6cmp_lt hw.2 hfw.1).1 h1
    have hno : ¬ ∃ p ∈ array6, v6val p.min ≤ v6val c.min ∧ v6val c.max ≤ v6val p.max := by
      rintro ⟨p, hp, hpc⟩
      obtain ⟨i, hi, rfl⟩ := List.mem_iff_getElem.1 hp
      have := sd6_get_le hsd hf (List.getElem?_eq_getElem hi) (Nat.zero_le i)
      omega
    simp only [netmatch6, hfirst, h1, if_true, decide_eq_false hno]
  by_cases h2 : v6cmp c.min l.max > 0
  · have h2' := (v6cmp_gt hw.1 hlw.2.1).1 h2
    have hno : ¬ ∃ p ∈ array6, v6val p.min ≤ v6val c.min ∧ v6val c.max ≤ v6val p.max := by
      rintro ⟨p, hp, hpc⟩
      obtain ⟨i, hi, rfl⟩ := List.mem_iff_getElem.1 hp
      have := sd6_get_le hsd (List.getElem?_eq_getElem hi) hl (by omega)
      omega
    simp only [netmatch6, hfirst, hlast, h1, h2, if_true, if_false, decide_eq_false hno]
  obtain ⟨t, ht, htl, hpost⟩ := bsearch_spec array6 (fun t => decide (v6cmp c.min t.min < 0))
    (fun t => decide (v6cmp c.min t.max > 0))
    (fun p => v6val p.min ≤ v6val c.min ∧ v6val c.max ≤ v6val p.max)
    (fun i j p q hp hq hQ h => by
      have h' := (v6cmp_lt hw.1 (sd6_elem hsd hq).1).1 (by simpa using h)
      by_contra hij
      have := sd6_get_le hsd hq hp (by omega)
      omega)
    (fun i j p q hp hq hQ h h' => by
      have h'' := (v6cmp_gt hw.1 (sd6_elem hsd hq).2.1).1 (by simpa using h')
      by_contra hij
      have := sd6_get_le hsd hp hq (by omega)
      omega)
    (fun i j p q hp hq hQ h h' => by
      have e1 : ¬ v6val c.min < v6val q.min := fun hh =>
        absurd ((v6cmp_lt hw.1 (sd6_elem hsd hq).1).2 hh) (by simpa using h)
      have e2 : ¬ v6val q.max < v6val c.min := fun hh =>
        absurd ((v6cmp_gt hw.1 (sd6_elem hsd hq).2.1).2 hh) (by simpa using h')
      rcases Nat.lt_trichotomy i j with e | e | e
      · have := sd6_get hsd hp hq e; omega
      · subst e; rw [hp] at hq; cases hq; exact hQ
      · have := sd6_get hsd hq hp e
        have := (sd6_elem hsd hp).2.2
        omega)
    array6.length 0 ((array6.length : Int) - 1) 0 (le_refl _) (by omega) (by omega) (le_refl _)
    (by omega)
  have hq : array6[t]? = some array6[t] := List.getElem?_eq_getElem htl
  have hqw := sd6_elem hsd hq
  simp only [netmatch6, hfirst, hlast, h1, h2, if_false, netmatch6_search_eq, ht, elemAt_nat hq,
    v6cmp_ge hw.1 hqw.1, v6cmp_le hw.2 hqw.2.1, Bool.false_eq_true]
  by_cases ha : v6val array6[t].min ≤ v6val c.min ∧ v6val c.max ≤ v6val array6[t].max
  · have hex : ∃ p ∈ array6, v6val p.min ≤ v6val c.min ∧ v6val c.max ≤ v6val p.max :=
      ⟨array6[t], List.getElem_mem _, ha⟩
    simp only [ha, and_self, if_true, decide_eq_true hex]
  · have hno : ¬ ∃ p ∈ array6, v6val p.min ≤ v6val c.min ∧ v6val c.max ≤ v6val p.max := by
      rintro ⟨p, hp, hQ⟩
      obtain ⟨i, hi, rfl⟩ := List.mem_iff_getElem.1 hp
      obtain ⟨q, hq', hQq⟩ := hpost ⟨i, _, List.getElem?_eq_getElem hi, by omega, by omega, hQ⟩
      rw [hq] at hq'; cases hq'
      exact ha hQq
    simp only [ha, if_false, decide_eq_false hno]

/-- C9: in containment mode (`didrsearch` off), for every non-empty sorted
disjoint IPv6 pattern array and every IPv6 candidate with `min ≤ max`,
`netmatch6` returns true iff some range `p` of the array satisfies
`p.min ≤ candidate.min` and `candidate.max ≤ p.max`; addresses are compared
as the big-endian numbers of their 16 bytes, which is how `v6cmp` orders
them (`v6cmp_le`). -/
theorem C9_netmatch6_containment (array6 : List netspec6) (c : netspec6) (hne : array6 ≠ [])
    (hsd : SortedDisjoint6 array6) (hw : c.wf) (hc : v6val c.min ≤ v6val c.max) :
    netmatch6 false array6 c =
      .ok (decide (∃ p ∈ array6, v6val p.min ≤ v6val c.min ∧ v6val c.max ≤ v6val p.max)) :=
  netmatch6_contain array6 c hne hsd hw hc

/-- C9 at three ranges and an address inside the second. -/
theorem C9_netmatch6_containment_witness :
    netmatch6 false pat6_three cand6_point =
      .ok (decide (∃ p ∈ pat6_three,
        v6val p.min ≤ v6val cand6_point.min ∧ v6val cand6_point.max ≤ v6val p.max)) :=
  C9_netmatch6_containment pat6_three cand6_point (by decide)
    (by simp [SortedDisjoint6, pat6_three, netspec6.wf, v6addr.wf, v6val, valL])
    (by simp [cand6_point, netspec6.wf, v6addr.wf]) (by decide)

/-- C8 fails on the code: with the sorted disjoint patterns `2001:db8:1::/48`,
`2001:db8:2:8000::/49`, `2001:db8:3::/48` and the candidate `2001:db8:2::/48`
(`min ≤ max`), which contains the second pattern, `netmatch6` in overlap mode
returns false; and so `scan_block`, with `cidrsearch` and `didrsearch` on,
does not emit the line `2001:db8:2::/48`.  The search of `netmatch6` goes
left on `ip6.min < array6[tryx].min` where `netmatch` tests `ip4.max`, so it
leaves the one range that the candidate meets. -/
theorem C8_netmatch6_overlap_misses :
    pat6_three ≠ [] ∧ SortedDisjoint6 pat6_three ∧ cand6_wide.wf ∧
    v6val cand6_wide.min ≤ v6val cand6_wide.max ∧
    (∃ p ∈ pat6_three, v6val cand6_wide.min ≤ v6val p.max ∧ v6val p.min ≤ v6val cand6_wide.max) ∧
    netmatch6 true pat6_three cand6_wide = .ok false ∧
    scan_block ⟨false, false, false, false, true, true, false, [], pat6_three, none⟩
      "2001:db8:2::/48\n".toList 0 = .ok ([], 0) := by
  refine ⟨by decide, ?_, ?_, by decide, by decide, by decide, by decide⟩
  · simp [SortedDisjoint6, pat6_three, netspec6.wf, v6addr.wf, v6val, valL]
  · simp [cand6_wide, netspec6.wf, v6addr.wf]

/-! ## `applymask6` -/

theorem valL_replicate_zero (k : Nat) : valL (List.replicate k 0) = 0 := by
  induction k with
  | zero => rfl
  | succ k ih => rw [List.replicate_succ, valL_cons, ih]; simp

theorem valL_replicate_ff (k : Nat) : valL (List.replicate k 255) + 1 = 256 ^ k := by
  induction k with
  | zero => rfl
  | succ k ih =>
    rw [List.replicate_succ, valL_cons, List.length_replicate, pow_succ]
    omega

theorem valL_eq_zero (l : List Nat) : valL l = 0 ↔ ∀ b ∈ l, b = 0 := by
  induction l with
  | nil => simp [valL]
  | cons b l ih =>
    rw [valL_cons]
    have hp : 0 < 256 ^ l.length := by positivity
    constructor
    · intro h
      have hb : b = 0 := by
        rcases Nat.eq_zero_or_pos b with e | e
        · exact e
        · have : 256 ^ l.length ≤ b * 256 ^ l.length := Nat.le_mul_of_pos_left _ e
          omega
      subst hb
      have : valL l = 0 := by omega
      intro x hx
      rcases List.mem_cons.1 hx with e | e
      · exact e
      · exact ih.1 this x e
    · intro h
      rw [h b (List.mem_cons_self _ _), ih.2 (fun x hx => h x (List.mem_cons_of_mem _ hx))]
      simp

theorem any_ne_zero (l : List Nat) :
    l.any (fun b => decide (b ≠ 0)) = false ↔ valL l = 0 := by
  rw [valL_eq_zero]; simp

theorem applymask6_loop_eq (k : Nat) :
    ∀ (nbytes : Nat) (h1 h2 m1 m2 x1 x2 : List Nat) (bad : Bool),
      h1.length = nbytes → m1.length = nbytes → x1.length = nbytes →
      h2.length = k → m2.length = k → x2.length = k →
      applymask6_loop ⟨h1 ++ h2⟩ k nbytes ⟨⟨m1 ++ m2⟩, ⟨x1 ++ x2⟩⟩ bad =
        (⟨⟨m1 ++ List.replicate k 0⟩, ⟨x1 ++ List.replicate k 255⟩⟩,
         bad || h2.any (fun b => decide (b ≠ 0))) := by
  induction k with
  | zero =>
    intro nbytes h1 h2 m1 m2 x1 x2 bad _ _ _ e1 e2 e3
    rw [List.length_eq_zero.1 e1, List.length_eq_zero.1 e2, List.length_eq_zero.1 e3]
    simp [applymask6_loop]
  | succ k ih =>
    intro nbytes h1 h2 m1 m2 x1 x2 bad l1 l2 l3 e1 e2 e3
    cases h2 with
    | nil => simp at e1
    | cons hb h2 =>
      cases m2 with
      | nil => simp at e2
      | cons mb m2 =>
        cases x2 with
        | nil => simp at e3
        | cons xb x2 =>
          simp only [List.length_cons, Nat.add_right_cancel_iff] at e1 e2 e3
          have hget : (h1 ++ hb :: h2).getD nbytes 0 = hb := by
            rw [List.getD_append_right _ _ _ _ (by omega)]; simp [l1]
          have hm : (m1 ++ mb :: m2).set nbytes 0 = (m1 ++ [0]) ++ m2 := by
            rw [List.set_append_right _ _ (by omega)]; simp [l2]
          have hx : (x1 ++ xb :: x2).set nbytes 255 = (x1 ++ [255]) ++ x2 := by
            rw [List.set_append_right _ _ (by omega)]; simp [l3]
          have hh : h1 ++ hb :: h2 = (h1 ++ [hb]) ++ h2 := by simp
          simp only [applymask6_loop, hget, hm, hx]
          rw [hh, ih (nbytes + 1) (h1 ++ [hb]) h2 (m1 ++ [0]) m2 (x1 ++ [255]) x2 _
            (by simp [l1]) (by simp [l2]) (by simp [l3]) e1 e2 e3]
          simp only [List.replicate_succ, List.append_assoc, List.singleton_append, List.any_cons]
          by_cases hz : hb = 0 <;> simp [hz]

set_option maxRecDepth 100000 in
/-- The byte masks of `applymask6`, as arithmetic on a byte. -/
theorem byte_mask : ∀ nbits, nbits < 8 → ∀ b, b < 256 →
    b &&& (255 - 255 >>> nbits) = b / 2 ^ (8 - nbits) * 2 ^ (8 - nbits) ∧
    b ||| (255 >>> nbits) = b / 2 ^ (8 - nbits) * 2 ^ (8 - nbits) + (2 ^ (8 - nbits) - 1) ∧
    (b &&& (255 >>> nbits) = 0 ↔ b % 2 ^ (8 - nbits) = 0) := by
  decide

theorem div_mul_aux (A P S : Nat) (hS : S < P) :
    (A * P + S) / P * P = A * P ∧ (A * P + S) % P = S := by
  have hP : 0 < P := by omega
  have h1 : (A * P + S) / P = A := by
    rw [Nat.add_comm, Nat.add_mul_div_right _ _ hP, Nat.div_eq_of_lt hS]; simp
  have h2 : (A * P + S) % P = S := by
    rw [Nat.add_comm, Nat.add_mul_mod_self_right, Nat.mod_eq_of_lt hS]
  exact ⟨by rw [h1], h2⟩

/-- `applymask6` on a size that falls on a byte boundary. -/
theorem applymask6_bytes (a : v6addr) (ha : a.wf) (nbytes : Nat) (hn : nbytes ≤ 16) :
    applymask6 a ((8 * nbytes : Nat) : Int) =
      .ok (⟨⟨a.a.take nbytes ++ List.replicate (16 - nbytes) 0⟩,
            ⟨a.a.take nbytes ++ List.replicate (16 - nbytes) 255⟩⟩,
           if valL (a.a.drop nbytes) = 0 then 1 else 0) := by
  have h3 : (8 * nbytes) >>> 3 = nbytes := by
    rw [Nat.shiftRight_eq_div_pow]; omega
  have h7 : (8 * nbytes) &&& 7 = 0 := by
    have := Nat.and_pow_two_sub_one_eq_mod (8 * nbytes) 3
    simp only [Nat.reducePow, Nat.add_one_sub_one] at this
    rw [this]; omega
  have hlen := ha.1
  have hsplit : a = ⟨a.a.take nbytes ++ a.a.drop nbytes⟩ := by simp
  have hloop := applymask6_loop_eq (16 - nbytes) nbytes (a.a.take nbytes) (a.a.drop nbytes)
    (a.a.take nbytes) (a.a.drop nbytes) (a.a.take nbytes) (a.a.drop nbytes) false
    (by simp [List.length_take]; omega) (by simp [List.length_take]; omega)
    (by simp [List.length_take]; omega) (by simp; omega) (by simp; omega) (by simp; omega)
  rw [← hsplit] at hloop
  have hge : ((8 * nbytes : Nat) : Int) ≥ 0 := by omega
  have hle : ((8 * nbytes : Nat) : Int) ≤ 128 := by omega
  simp only [applymask6, hge, hle, and_self, not_true_eq_false, if_false, if_true,
    Int.toNat_ofNat, h3, h7, ne_eq, hloop, Bool.false_or]
  by_cases hz : valL (a.a.drop nbytes) = 0
  · rw [(any_ne_zero _).2 hz, if_pos hz]; rfl
  · have : (a.a.drop nbytes).any (fun b => decide (b ≠ 0)) = true := by
      cases h : (a.a.drop nbytes).any (fun b => decide (b ≠ 0))
      · exact absurd ((any_ne_zero _).1 h) hz
      · rfl
    rw [this, if_neg hz]; rfl

/-- `applymask6` on a size that falls inside the byte `b`. -/
theorem applymask6_bits (pre suf : List Nat) (b nbytes nbits : Nat)
    (hpre : pre.length = nbytes) (hsuf : suf.length = 15 - nbytes) (hn : nbytes ≤ 15)
    (hb1 : 1 ≤ nbits) (hb7 : nbits ≤ 7) :
    applymask6 ⟨pre ++ b :: suf⟩ ((8 * nbytes + nbits : Nat) : Int) =
      .ok (⟨⟨pre ++ (b &&& (255 - 255 >>> nbits)) :: List.replicate (15 - nbytes) 0⟩,
            ⟨pre ++ (b ||| 255 >>> nbits) :: List.replicate (15 - nbytes) 255⟩⟩,
           if b &&& 255 >>> nbits = 0 ∧ valL suf = 0 then 1 else 0) := by
  have h3 : (8 * nbytes + nbits) >>> 3 = nbytes := by
    rw [Nat.shiftRight_eq_div_pow]; omega
  have h7 : (8 * nbytes + nbits) &&& 7 = nbits := by
    have := Nat.and_pow_two_sub_one_eq_mod (8 * nbytes + nbits) 3
    simp only [Nat.reducePow, Nat.add_one_sub_one] at this
    rw [this]; omega
  have hge : ((8 * nbytes + nbits : Nat) : Int) ≥ 0 := by omega
  have hle : ((8 * nbytes + nbits : Nat) : Int) ≤ 128 := by omega
  have hnz : nbits ≠ 0 := by omega
  have hget : (pre ++ b :: suf).getD nbytes 0 = b := by
    rw [List.getD_append_right _ _ _ _ (by omega)]; simp [hpre]
  have hset : ∀ v, (pre ++ b :: suf).set nbytes v = (pre ++ [v]) ++ suf := by
    intro v
    rw [List.set_append_right _ _ (by omega)]; simp [hpre]
  have hh : pre ++ b :: suf = (pre ++ [b]) ++ suf := by simp
  have hk : 16 - (nbytes + 1) = 15 - nbytes := by omega
  simp only [applymask6, hge, hle, and_self, not_true_eq_false, if_false, if_true,
    Int.toNat_ofNat, h3, h7, ne_eq, hnz, hget, hset, hk]
  rw [hh, applymask6_loop_eq (15 - nbytes) (nbytes + 1) (pre ++ [b]) suf _ suf _ suf _
    (by simp [hpre]) (by simp [hpre]) (by simp [hpre]) hsuf hsuf hsuf]
  simp only [List.append_assoc, List.singleton_append]
  by_cases hm : b &&& 255 >>> nbits = 0
  · by_cases hz : valL suf = 0
    · rw [(any_ne_zero _).2 hz]; simp [hm, hz]
    · have : suf.any (fun b => decide (b ≠ 0)) = true := by
        cases h : suf.any (fun b => decide (b ≠ 0))
        · exact absurd ((any_ne_zero _).1 h) hz
        · rfl
      rw [this]; simp [hm, hz]
  · simp [hm]

set_option maxRecDepth 100000 in
theorem byte_mask_lt : ∀ nbits, nbits < 8 → ∀ b, b < 256 →
    b &&& (255 - 255 >>> nbits) < 256 ∧ b ||| (255 >>> nbits) < 256 := by
  decide

/-- Clearing the low bits of a number whose low bytes are `S` and whose next
byte is `b`, when the cut falls inside `b`. -/
theorem mask_arith (A b S P M : Nat) (hS : S < P) (hM : M ∣ 256) (hMpos : 0 < M) :
    ((A * 256 + b) * P + S) / (M * P) * (M * P) = (A * 256 + b / M * M) * P ∧
    (((A * 256 + b) * P + S) % (M * P) = 0 ↔ b % M = 0 ∧ S = 0) := by
  have hP : 0 < P := by omega
  have h1 : ((A * 256 + b) * P + S) / P = A * 256 + b := by
    rw [Nat.add_comm, Nat.add_mul_div_right _ _ hP, Nat.div_eq_of_lt hS]; simp
  have h2 : ((A * 256 + b) * P + S) / (M * P) = (A * 256 + b) / M := by
    rw [Nat.mul_comm M P, ← Nat.div_div_eq_div_mul, h1]
  obtain ⟨M', hM'⟩ := hM
  have h3 : (A * 256 + b) / M * M = A * 256 + b / M * M := by
    have : A * 256 + b = b + M * (A * M') := by rw [hM']; ring
    rw [this, Nat.add_mul_div_left _ _ hMpos, hM']; ring
  have first : ((A * 256 + b) * P + S) / (M * P) * (M * P) = (A * 256 + b / M * M) * P := by
    rw [h2, ← h3]; ring
  refine ⟨first, ?_⟩
  have hdm := Nat.div_add_mod ((A * 256 + b) * P + S) (M * P)
  rw [Nat.mul_comm (M * P), first] at hdm
  have hb := Nat.div_add_mod b M
  have hexp : (A * 256 + b) * P = (A * 256 + b / M * M) * P + (b % M) * P := by
    conv_lhs => rw [← hb]
    ring
  constructor
  · intro h0
    rw [h0] at hdm
    have hz : b % M * P + S = 0 := by omega
    have hS0 : S = 0 := by omega
    have hbP : b % M * P = 0 := by omega
    rcases Nat.mul_eq_zero.1 hbP with e | e
    · exact ⟨e, hS0⟩
    · omega
  · rintro ⟨hb0, hS0⟩
    have hI : b % M * P = 0 := by rw [hb0]; simp
    omega


theorem applymask6_nat (a : v6addr) (ha : a.wf) (sz : Nat) (hsz : sz ≤ 128) :
    ∃ spec ret, applymask6 a (sz : Int) = .ok (spec, ret) ∧
      spec.min.wf ∧ spec.max.wf ∧
      v6val spec.min = v6val a / 2 ^ (128 - sz) * 2 ^ (128 - sz) ∧
      v6val spec.max = v6val a / 2 ^ (128 - sz) * 2 ^ (128 - sz) + (2 ^ (128 - sz) - 1) ∧
      (ret = 0 ↔ v6val a % 2 ^ (128 - sz) ≠ 0) := by
  obtain ⟨hlen, hbytes⟩ := ha
  by_cases hbits : sz % 8 = 0
  · -- the size falls on a byte boundary
    have hsz8 : sz = 8 * (sz / 8) := by omega
    have hn : sz / 8 ≤ 16 := by omega
    generalize sz / 8 = nbytes at hsz8 hn
    subst hsz8
    refine ⟨_, _, applymask6_bytes a ⟨hlen, hbytes⟩ nbytes hn, ?_, ?_, ?_, ?_, ?_⟩
    · refine ⟨by simp [List.length_take, hlen]; omega, ?_⟩
      intro x hx
      rcases List.mem_append.1 hx with h | h
      · exact hbytes x (List.mem_of_mem_take h)
      · rw [List.eq_of_mem_replicate h]; omega
    · refine ⟨by simp [List.length_take, hlen]; omega, ?_⟩
      intro x hx
      rcases List.mem_append.1 hx with h | h
      · exact hbytes x (List.mem_of_mem_take h)
      · rw [List.eq_of_mem_replicate h]; omega
    all_goals
      have hK : 2 ^ (128 - 8 * nbytes) = 256 ^ (16 - nbytes) := by
        have : 128 - 8 * nbytes = 8 * (16 - nbytes) := by omega
        rw [this, pow_mul]; rfl
      have hdl : (a.a.drop nbytes).length = 16 - nbytes := by simp [hlen]
      have hS : valL (a.a.drop nbytes) < 256 ^ (16 - nbytes) := by
        have := valL_lt (a.a.drop nbytes) (fun x hx => hbytes x (List.mem_of_mem_drop hx))
        rwa [hdl] at this
      have hva : v6val a = valL (a.a.take nbytes) * 256 ^ (16 - nbytes) + valL (a.a.drop nbytes) := by
        have : a.a = a.a.take nbytes ++ a.a.drop nbytes := by simp
        rw [v6val, this, valL_append, hdl, ← this]
      have haux := div_mul_aux (valL (a.a.take nbytes)) _ _ hS
    · rw [hK, hva, haux.1]
      simp [v6val, valL_append, valL_replicate_zero]
    · rw [hK, hva, haux.1]
      have := valL_replicate_ff (16 - nbytes)
      simp only [v6val, valL_append, List.length_replicate]
      omega
    · rw [hK, hva, haux.2]
      by_cases hz : valL (a.a.drop nbytes) = 0 <;> simp [hz]
  · -- the size falls inside byte `sz / 8`
    have hsz8 : sz = 8 * (sz / 8) + sz % 8 := by omega
    have hn : sz / 8 ≤ 15 := by omega
    have hb1 : 1 ≤ sz % 8 := by omega
    have hb7 : sz % 8 ≤ 7 := by omega
    generalize sz / 8 = nbytes at hsz8 hn
    generalize sz % 8 = nbits at hsz8 hb1 hb7
    subst hsz8
    have hlt : nbytes < a.a.length := by omega
    have hsplit : a.a = a.a.take nbytes ++ a.a[nbytes] :: a.a.drop (nbytes + 1) := by
      conv_lhs => rw [← List.take_append_drop nbytes a.a]
      rw [List.drop_eq_getElem_cons hlt]
    have hpre : (a.a.take nbytes).length = nbytes := by
      rw [List.length_take]; omega
    have hsuf : (a.a.drop (nbytes + 1)).length = 15 - nbytes := by
      rw [List.length_drop]; omega
    have hbb : a.a[nbytes] < 256 := hbytes _ (List.getElem_mem _)
    have hpb : ∀ x ∈ a.a.take nbytes, x < 256 := fun x hx => hbytes x (List.mem_of_mem_take hx)
    have hsb : ∀ x ∈ a.a.drop (nbytes + 1), x < 256 := fun x hx =>
      hbytes x (List.mem_of_mem_drop hx)
    have hS : valL (a.a.drop (nbytes + 1)) < 256 ^ (15 - nbytes) := by
      have := valL_lt _ hsb
      rwa [hsuf] at this
    have ha' : a = ⟨a.a.take nbytes ++ a.a[nbytes] :: a.a.drop (nbytes + 1)⟩ := by
      cases a; simp
    generalize a.a.take nbytes = pre at hsplit hpre hpb ha'
    generalize a.a.drop (nbytes + 1) = suf at hsplit hsuf hsb hS ha'
    generalize a.a[nbytes] = b at hsplit hbb ha'
    subst ha'
    obtain ⟨hm1, hm2, hm3⟩ := byte_mask nbits (by omega) b hbb
    obtain ⟨hl1, hl2⟩ := byte_mask_lt nbits (by omega) b hbb
    have hK : 2 ^ (128 - (8 * nbytes + nbits)) = 2 ^ (8 - nbits) * 256 ^ (15 - nbytes) := by
      have : 128 - (8 * nbytes + nbits) = (8 - nbits) + 8 * (15 - nbytes) := by omega
      rw [this, pow_add, pow_mul]; rfl
    have hMd : 2 ^ (8 - nbits) ∣ 256 := by
      have : (256 : Nat) = 2 ^ 8 := rfl
      rw [this]; exact pow_dvd_pow 2 (by omega)
    have hMp : 0 < 2 ^ (8 - nbits) := by positivity
    have hva : v6val ⟨pre ++ b :: suf⟩ = (valL pre * 256 + b) * 256 ^ (15 - nbytes) + valL suf := by
      simp only [v6val, valL_append, valL_cons, List.length_cons, hsuf, pow_succ]
      ring
    obtain ⟨ar1, ar2⟩ := mask_arith (valL pre) b (valL suf) _ _ hS hMd hMp
    refine ⟨_, _, applymask6_bits pre suf b nbytes nbits hpre hsuf hn hb1 hb7, ?_, ?_, ?_, ?_, ?_⟩
    · refine ⟨by simp [hpre]; omega, ?_⟩
      intro x hx
      rcases List.mem_append.1 hx with h | h
      · exact hpb x h
      · rcases List.mem_cons.1 h with e | e
        · rw [e]; exact hl1
        · rw [List.eq_of_mem_replicate e]; omega
    · refine ⟨by simp [hpre]; omega, ?_⟩
      intro x hx
      rcases List.mem_append.1 hx with h | h
      · exact hpb x h
      · rcases List.mem_cons.1 h with e | e
        · rw [e]; exact hl2
        · rw [List.eq_of_mem_replicate e]; omega
    · rw [hK, hva, ar1, hm1]
      simp only [v6val, valL_append, valL_cons, List.length_cons, List.length_replicate, pow_succ,
        valL_replicate_zero]
      ring
    · rw [hK, hva, ar1, hm2]
      have hff := valL_replicate_ff (15 - nbytes)
      have hP : 0 < 256 ^ (15 - nbytes) := by positivity
      simp only [v6val, valL_append, valL_cons, List.length_cons, List.length_replicate, pow_succ]
      have e1 : (b / 2 ^ (8 - nbits) * 2 ^ (8 - nbits) + (2 ^ (8 - nbits) - 1)) * 256 ^ (15 - nbytes)
          + valL (List.replicate (15 - nbytes) 255) + 1
          = (b / 2 ^ (8 - nbits) * 2 ^ (8 - nbits)) * 256 ^ (15 - nbytes)
            + 2 ^ (8 - nbits) * 256 ^ (15 - nbytes) := by
        have : 2 ^ (8 - nbits) - 1 + 1 = 2 ^ (8 - nbits) := by omega
        calc _ = (b / 2 ^ (8 - nbits) * 2 ^ (8 - nbits)) * 256 ^ (15 - nbytes)
              + (2 ^ (8 - nbits) - 1) * 256 ^ (15 - nbytes)
              + (valL (List.replicate (15 - nbytes) 255) + 1) := by ring
          _ = (b / 2 ^ (8 - nbits) * 2 ^ (8 - nbits)) * 256 ^ (15 - nbytes)
              + (2 ^ (8 - nbits) - 1 + 1) * 256 ^ (15 - nbytes) := by rw [hff]; ring
          _ = _ := by rw [this]
      have hMP : 0 < 2 ^ (8 - nbits) * 256 ^ (15 - nbytes) := Nat.mul_pos hMp hP
      have e2 : valL pre * (256 ^ (15 - nbytes) * 256) +
          (b / 2 ^ (8 - nbits) * 2 ^ (8 - nbits) + (2 ^ (8 - nbits) - 1)) * 256 ^ (15 - nbytes)
          = valL pre * (256 ^ (15 - nbytes) * 256) +
          ((b / 2 ^ (8 - nbits) * 2 ^ (8 - nbits) + (2 ^ (8 - nbits) - 1)) * 256 ^ (15 - nbytes)) :=
        rfl
      have e3 : (valL pre * 256 + b / 2 ^ (8 - nbits) * 2 ^ (8 - nbits)) * 256 ^ (15 - nbytes)
          = valL pre * (256 ^ (15 - nbytes) * 256)
            + (b / 2 ^ (8 - nbits) * 2 ^ (8 - nbits)) * 256 ^ (15 - nbytes) := by ring
      omega
    · rw [hK, hva, ne_eq, ar2, hm3.symm]
      by_cases hz : b &&& 255 >>> nbits = 0 ∧ valL suf = 0 <;> simp [hz]


/-- C10: for every 16-byte address `a` and every `size` in 0..128,
`applymask6` stores in `spec.min` the address `a` with its low `128 - size`
bits cleared and in `spec.max` the address `a` with its low `128 - size` bits
set, the 16 bytes being read as a big-endian 128-bit number, so that
`min ≤ a ≤ max`; and it returns 0 iff `a` has one of those low bits set. -/
theorem C10_applymask6 (a : v6addr) (size : Int) (ha : a.wf) (h0 : 0 ≤ size)
    (h128 : size ≤ 128) :
    ∃ spec ret, applymask6 a size = .ok (spec, ret) ∧
      spec.min.wf ∧ spec.max.wf ∧
      v6val spec.min = v6val a / 2 ^ (128 - size.toNat) * 2 ^ (128 - size.toNat) ∧
      v6val spec.max =
        v6val a / 2 ^ (128 - size.toNat) * 2 ^ (128 - size.toNat)
          + (2 ^ (128 - size.toNat) - 1) ∧
      v6val spec.min ≤ v6val a ∧ v6val a ≤ v6val spec.max ∧
      (ret = 0 ↔ v6val a % 2 ^ (128 - size.toNat) ≠ 0) := by
  obtain ⟨sz, rfl⟩ := Int.eq_ofNat_of_zero_le h0
  have hsz : sz ≤ 128 := by omega
  obtain ⟨spec, ret, he, w1, w2, v1, v2, hr⟩ := applymask6_nat a ha sz hsz
  refine ⟨spec, ret, he, w1, w2, by simpa using v1, by simpa using v2, ?_, ?_, by simpa using hr⟩
  · rw [v1]; exact Nat.div_mul_le_self _ _
  · rw [v2]
    have hp : 0 < 2 ^ (128 - sz) := by positivity
    have := Nat.div_add_mod (v6val a) (2 ^ (128 - sz))
    have hm := Nat.mod_lt (v6val a) hp
    rw [Nat.mul_comm] at this
    omega

/-- C10 at the address `2001:db8::1` and the size 33. -/
theorem C10_applymask6_witness :
    ∃ spec ret,
      applymask6 ⟨[0x20, 0x01, 0x0d, 0xb8, 0, 0, 0, 0, 0, 0, 0, 0, 0, 0, 0, 1]⟩ 33
        = .ok (spec, ret) ∧
      spec.min.wf ∧ spec.max.wf ∧
      v6val spec.min =
        v6val ⟨[0x20, 0x01, 0x0d, 0xb8, 0, 0, 0, 0, 0, 0, 0, 0, 0, 0, 0, 1]⟩
          / 2 ^ (128 - (33 : Int).toNat) * 2 ^ (128 - (33 : Int).toNat) ∧
      v6val spec.max =
        v6val ⟨[0x20, 0x01, 0x0d, 0xb8, 0, 0, 0, 0, 0, 0, 0, 0, 0, 0, 0, 1]⟩
          / 2 ^ (128 - (33 : Int).toNat) * 2 ^ (128 - (33 : Int).toNat)
          + (2 ^ (128 - (33 : Int).toNat) - 1) ∧
      v6val spec.min ≤ v6val ⟨[0x20, 0x01, 0x0d, 0xb8, 0, 0, 0, 0, 0, 0, 0, 0, 0, 0, 0, 1]⟩ ∧
      v6val ⟨[0x20, 0x01, 0x0d, 0xb8, 0, 0, 0, 0, 0, 0, 0, 0, 0, 0, 0, 1]⟩ ≤ v6val spec.max ∧
      (ret = 0 ↔
        v6val ⟨[0x20, 0x01, 0x0d, 0xb8, 0, 0, 0, 0, 0, 0, 0, 0, 0, 0, 0, 1]⟩
          % 2 ^ (128 - (33 : Int).toNat) ≠ 0) :=
  C10_applymask6 ⟨[0x20, 0x01, 0x0d, 0xb8, 0, 0, 0, 0, 0, 0, 0, 0, 0, 0, 0, 1]⟩ 33
    (by simp [v6addr.wf]) (by decide) (by decide)

set_option linter.unusedTactic false
set_option linter.unreachableTactic false
/-! ## The loop of `scan_block` -/

theorem skip_blanks_len (p : List Char) : ∀ (ch : Char) (line : List Char),
    (skip_blanks ch p line).2.1.length ≤ p.length := by
  induction p with
  | nil => intro ch line; simp [skip_blanks]
  | cons c p ih =>
    intro ch line
    simp only [skip_blanks]
    split_ifs
    · exact le_trans (ih c _) (by simp)
    · simp

theorem skip_line_len (p : List Char) : ∀ (ch : Char) (line : List Char),
    (skip_line ch p line).2.1.length ≤ p.length := by
  induction p with
  | nil => intro ch line; simp [skip_line]
  | cons c p ih =>
    intro ch line
    simp only [skip_line]
    split_ifs
    · exact le_trans (ih c _) (by simp)
    · simp

@[simp] theorem emit_line_p (env : ScanEnv) (s : ScanState) : (emit_line env s).p = s.p := rfl

@[simp] theorem scan_default_p (env : ScanEnv) (s : ScanState) (ch : Char) :
    (scan_default env s ch).p = s.p := by
  unfold scan_default
  split_ifs <;> rfl

theorem scan_scnlp_len (env : ScanEnv) (s : ScanState) (ch : Char) :
    (scan_scnlp env s ch).p.length ≤ s.p.length := by
  have := skip_line_len s.p ch s.line
  simp only [scan_scnlp]
  split_ifs <;> exact this

@[simp] theorem scan_sc_p (env : ScanEnv) (s : ScanState) (ch : Char) :
    (scan_sc env s ch).p = s.p := by
  unfold scan_sc
  split_ifs <;> simp

@[simp] theorem scan_ip23_p (env : ScanEnv) (s : ScanState) (ch : Char) :
    (scan_ip23 env s ch).p = s.p := by
  unfold scan_ip23
  split_ifs <;> simp

@[simp] theorem push_hi_p (s : ScanState) : (push_hi s).p = s.p := rfl
@[simp] theorem push_lo_p (s : ScanState) : (push_lo s).p = s.p := rfl

theorem scan_try6_len (env : ScanEnv) (s s' : ScanState) (ch : Char) (r : netspec6)
    (h : scan_try6 env s ch r = .ok s') : s'.p.length ≤ s.p.length := by
  unfold scan_try6 at h
  split at h
  · cases h
  · cases h; simp
  · cases h; exact scan_scnlp_len _ _ _

theorem scan_try4_len (env : ScanEnv) (s s' : ScanState) (ch : Char) (r : netspec)
    (h : scan_try4 env s ch r = .ok s') : s'.p.length ≤ s.p.length := by
  unfold scan_try4 at h
  split at h
  · cases h
  · cases h; simp
  · cases h; exact scan_scnlp_len _ _ _

theorem case_S_BEG_len (env : ScanEnv) (s s' : ScanState) (ch : Char)
    (h : case_S_BEG env s ch = .ok s') : s'.p.length ≤ s.p.length := by
  unfold case_S_BEG at h
  cases h
  simp only [scan_sc_p]
  exact skip_blanks_len _ _ _

theorem case_S_SCNL_len (env : ScanEnv) (s s' : ScanState) (ch : Char)
    (h : case_S_SCNL env s ch = .ok s') : s'.p.length ≤ s.p.length := by
  unfold case_S_SCNL at h
  cases h
  simp only [scan_default_p]
  exact skip_line_len _ _ _

theorem case_S_V6SZ_len (env : ScanEnv) (s s' : ScanState) (ch : Char)
    (h : case_S_V6SZ env s ch = .ok s') : s'.p.length ≤ s.p.length := by
  unfold case_S_V6SZ at h
  dsimp only at h
  split_ifs at h
  all_goals first
    | (cases h; simp; done)
    | (split at h
       · cases h
       · exact le_trans (scan_try6_len _ _ _ _ _ h) (by simp; done))

theorem case_S_EIP4_len (env : ScanEnv) (s s' : ScanState) (ch : Char)
    (h : case_S_EIP4 env s ch = .ok s') : s'.p.length ≤ s.p.length := by
  unfold case_S_EIP4 at h
  dsimp only at h
  split_ifs at h
  all_goals first
    | (cases h; simp; done)
    | (exact le_trans (scan_try4_len _ _ _ _ _ h) (by simp; done))
    | (split at h
       all_goals first
         | (cases h; done)
         | (cases h; simp; done)
         | (cases h; exact le_trans (scan_scnlp_len _ _ _) (by simp; done))
         | (exact le_trans (scan_try4_len _ _ _ _ _ h) (by simp; done)))

theorem case_S_SC_len (env : ScanEnv) (s s' : ScanState) (ch : Char)
    (h : case_S_SC env s ch = .ok s') : s'.p.length ≤ s.p.length := by
  unfold case_S_SC at h
  try dsimp only at h
  try split_ifs at h
  all_goals first
    | (cases h; simp; done)
    | (cases h; exact scan_scnlp_len _ _ _)
    | (exact le_trans (scan_try6_len _ _ _ _ _ h) (by simp; done))
    | (exact le_trans (scan_try4_len _ _ _ _ _ h) (by simp; done))

theorem case_S_NSC_len (env : ScanEnv) (s s' : ScanState) (ch : Char)
    (h : case_S_NSC env s ch = .ok s') : s'.p.length ≤ s.p.length := by
  unfold case_S_NSC at h
  try dsimp only at h
  try split_ifs at h
  all_goals first
    | (cases h; simp; done)
    | (cases h; exact scan_scnlp_len _ _ _)
    | (exact le_trans (scan_try6_len _ _ _ _ _ h) (by simp; done))
    | (exact le_trans (scan_try4_len _ _ _ _ _ h) (by simp; done))

theorem case_S_HCH_len (env : ScanEnv) (s s' : ScanState) (ch : Char)
    (h : case_S_HCH env s ch = .ok s') : s'.p.length ≤ s.p.length := by
  unfold case_S_HCH at h
  try dsimp only at h
  try split_ifs at h
  all_goals first
    | (cases h; simp; done)
    | (cases h; exact scan_scnlp_len _ _ _)
    | (exact le_trans (scan_try6_len _ _ _ _ _ h) (by simp; done))
    | (exact le_trans (scan_try4_len _ _ _ _ _ h) (by simp; done))

theorem case_S_HC1_len (env : ScanEnv) (s s' : ScanState) (ch : Char)
    (h : case_S_HC1 env s ch = .ok s') : s'.p.length ≤ s.p.length := by
  unfold case_S_HC1 at h
  try dsimp only at h
  try split_ifs at h
  all_goals first
    | (cases h; simp; done)
    | (cases h; exact scan_scnlp_len _ _ _)
    | (exact le_trans (scan_try6_len _ _ _ _ _ h) (by simp; done))
    | (exact le_trans (scan_try4_len _ _ _ _ _ h) (by simp; done))

theorem case_S_HC2_len (env : ScanEnv) (s s' : ScanState) (ch : Char)
    (h : case_S_HC2 env s ch = .ok s') : s'.p.length ≤ s.p.length := by
  unfold case_S_HC2 at h
  try dsimp only at h
  try split_ifs at h
  all_goals first
    | (cases h; simp; done)
    | (cases h; exact scan_scnlp_len _ _ _)
    | (exact le_trans (scan_try6_len _ _ _ _ _ h) (by simp; done))
    | (exact le_trans (scan_try4_len _ _ _ _ _ h) (by simp; done))

theorem case_S_LCH_len (env : ScanEnv) (s s' : ScanState) (ch : Char)
    (h : case_S_LCH env s ch = .ok s') : s'.p.length ≤ s.p.length := by
  unfold case_S_LCH at h
  try dsimp only at h
  try split_ifs at h
  all_goals first
    | (cases h; simp; done)
    | (cases h; exact scan_scnlp_len _ _ _)
    | (exact le_trans (scan_try6_len _ _ _ _ _ h) (by simp; done))
    | (exact le_trans (scan_try4_len _ _ _ _ _ h) (by simp; done))

theorem case_S_LC1_len (env : ScanEnv) (s s' : ScanState) (ch : Char)
    (h : case_S_LC1 env s ch = .ok s') : s'.p.length ≤ s.p.length := by
  unfold case_S_LC1 at h
  try dsimp only at h
  try split_ifs at h
  all_goals first
    | (cases h; simp; done)
    | (cases h; exact scan_scnlp_len _ _ _)
    | (exact le_trans (scan_try6_len _ _ _ _ _ h) (by simp; done))
    | (exact le_trans (scan_try4_len _ _ _ _ _ h) (by simp; done))

theorem case_S_IP1_len (env : ScanEnv) (s s' : ScanState) (ch : Char)
    (h : case_S_IP1 env s ch = .ok s') : s'.p.length ≤ s.p.length := by
  unfold case_S_IP1 at h
  try dsimp only at h
  try split_ifs at h
  all_goals first
    | (cases h; simp; done)
    | (cases h; exact scan_scnlp_len _ _ _)
    | (exact le_trans (scan_try6_len _ _ _ _ _ h) (by simp; done))
    | (exact le_trans (scan_try4_len _ _ _ _ _ h) (by simp; done))

theorem case_S_IP2_len (env : ScanEnv) (s s' : ScanState) (ch : Char)
    (h : case_S_IP2 env s ch = .ok s') : s'.p.length ≤ s.p.length := by
  unfold case_S_IP2 at h
  try dsimp only at h
  try split_ifs at h
  all_goals first
    | (cases h; simp; done)
    | (cases h; exact scan_scnlp_len _ _ _)
    | (exact le_trans (scan_try6_len _ _ _ _ _ h) (by simp; done))
    | (exact le_trans (scan_try4_len _ _ _ _ _ h) (by simp; done))

theorem case_S_IP1D_len (env : ScanEnv) (s s' : ScanState) (ch : Char)
    (h : case_S_IP1D env s ch = .ok s') : s'.p.length ≤ s.p.length := by
  unfold case_S_IP1D at h
  try dsimp only at h
  try split_ifs at h
  all_goals first
    | (cases h; simp; done)
    | (cases h; exact scan_scnlp_len _ _ _)
    | (exact le_trans (scan_try6_len _ _ _ _ _ h) (by simp; done))
    | (exact le_trans (scan_try4_len _ _ _ _ _ h) (by simp; done))

theorem case_S_IP4_len (env : ScanEnv) (s s' : ScanState) (ch : Char)
    (h : case_S_IP4 env s ch = .ok s') : s'.p.length ≤ s.p.length := by
  unfold case_S_IP4 at h
  try dsimp only at h
  try split_ifs at h
  all_goals first
    | (cases h; simp; done)
    | (cases h; exact scan_scnlp_len _ _ _)
    | (exact le_trans (scan_try6_len _ _ _ _ _ h) (by simp; done))
    | (exact le_trans (scan_try4_len _ _ _ _ _ h) (by simp; done))

theorem case_S_V4SZ_len (env : ScanEnv) (s s' : ScanState) (ch : Char)
    (h : case_S_V4SZ env s ch = .ok s') : s'.p.length ≤ s.p.length := by
  unfold case_S_V4SZ at h
  try dsimp only at h
  try split_ifs at h
  all_goals first
    | (cases h; simp; done)
    | (cases h; exact scan_scnlp_len _ _ _)
    | (exact le_trans (scan_try6_len _ _ _ _ _ h) (by simp; done))
    | (exact le_trans (scan_try4_len _ _ _ _ _ h) (by simp; done))

theorem case_S_EIP2_len (env : ScanEnv) (s s' : ScanState) (ch : Char)
    (h : case_S_EIP2 env s ch = .ok s') : s'.p.length ≤ s.p.length := by
  unfold case_S_EIP2 at h
  try dsimp only at h
  try split_ifs at h
  all_goals first
    | (cases h; simp; done)
    | (cases h; exact scan_scnlp_len _ _ _)
    | (exact le_trans (scan_try6_len _ _ _ _ _ h) (by simp; done))
    | (exact le_trans (scan_try4_len _ _ _ _ _ h) (by simp; done))

theorem case_S_SCNLP_len (env : ScanEnv) (s s' : ScanState) (ch : Char)
    (h : case_S_SCNLP env s ch = .ok s') : s'.p.length ≤ s.p.length := by
  unfold case_S_SCNLP at h
  try dsimp only at h
  try split_ifs at h
  all_goals first
    | (cases h; simp; done)
    | (cases h; exact scan_scnlp_len _ _ _)
    | (exact le_trans (scan_try6_len _ _ _ _ _ h) (by simp; done))
    | (exact le_trans (scan_try4_len _ _ _ _ _ h) (by simp; done))

/-- A round of the loop leaves no more text than it found after reading its
character, except that the round leaving `S_IC1` may put the character back. -/
theorem scan_switch_len (env : ScanEnv) (s s' : ScanState) (ch : Char)
    (h : scan_switch env s ch = .ok s') :
    s'.p.length ≤ s.p.length ∨
      (s.state = .S_IC1 ∧ s'.state = .S_SC ∧ s'.p.length = s.p.length + 1) := by
  unfold scan_switch at h
  cases hst : s.state <;> simp only [hst] at h
  case S_IC1 =>
    unfold case_S_IC1 at h
    split_ifs at h
    · cases h; left; simp
    · cases h; right; simp [hst]
  all_goals left
  case S_BEG => exact case_S_BEG_len _ _ _ _ h
  case S_SC => exact case_S_SC_len _ _ _ _ h
  case S_NSC => exact case_S_NSC_len _ _ _ _ h
  case S_HCH => exact case_S_HCH_len _ _ _ _ h
  case S_HC1 => exact case_S_HC1_len _ _ _ _ h
  case S_HC2 => exact case_S_HC2_len _ _ _ _ h
  case S_V6SZ => exact case_S_V6SZ_len _ _ _ _ h
  case S_LCH => exact case_S_LCH_len _ _ _ _ h
  case S_LC1 => exact case_S_LC1_len _ _ _ _ h
  case S_IP1 => exact case_S_IP1_len _ _ _ _ h
  case S_IP2 => exact case_S_IP2_len _ _ _ _ h
  case S_IP3 => exact case_S_IP2_len _ _ _ _ h
  case S_IP1D => exact case_S_IP1D_len _ _ _ _ h
  case S_IP2D => exact case_S_IP1D_len _ _ _ _ h
  case S_IP3D => exact case_S_IP1D_len _ _ _ _ h
  case S_EIP1D => exact case_S_IP1D_len _ _ _ _ h
  case S_EIP2D => exact case_S_IP1D_len _ _ _ _ h
  case S_EIP3D => exact case_S_IP1D_len _ _ _ _ h
  case S_IP4 => exact case_S_IP4_len _ _ _ _ h
  case S_V4SZ => exact case_S_V4SZ_len _ _ _ _ h
  case S_EIP2 => exact case_S_EIP2_len _ _ _ _ h
  case S_EIP3 => exact case_S_EIP2_len _ _ _ _ h
  case S_EIP4 => exact case_S_EIP4_len _ _ _ _ h
  case S_SCNLP => exact case_S_SCNLP_len _ _ _ _ h
  case S_SCNL => exact case_S_SCNL_len _ _ _ _ h

theorem scan_iter_measure (env : ScanEnv) (s s' : ScanState) (hp : s.p ≠ [])
    (h : scan_iter env s = .ok s') : scan_measure s' < scan_measure s := by
  unfold scan_iter at h
  cases hsp : s.p with
  | nil => exact absurd hsp hp
  | cons ch rest =>
    rw [hsp] at h
    simp only at h
    have := scan_switch_len env _ s' ch h
    simp only [scan_measure, hsp, List.length_cons]
    rcases this with h1 | ⟨h1, h2, h3⟩
    · simp only at h1
      split_ifs <;> omega
    · simp only at h1 h3
      simp only [h1, h2, if_true]
      simp; omega

/-- Fuel beyond the measure of the state changes nothing. -/
theorem scan_loop_fuel (env : ScanEnv) : ∀ (n : Nat) (s : ScanState) (f : Nat),
    scan_measure s ≤ n → n ≤ f → scan_loop env f s = scan_loop env n s := by
  intro n
  induction n with
  | zero =>
    intro s f hm _
    have hp : s.p = [] := by
      simp only [scan_measure] at hm
      exact List.length_eq_zero.1 (by omega)
    cases f <;> simp [scan_loop, hp]
  | succ n ih =>
    intro s f hm hf
    obtain ⟨f', rfl⟩ : ∃ f', f = f' + 1 := ⟨f - 1, by omega⟩
    simp only [scan_loop]
    by_cases hp : s.p = []
    · simp [hp]
    · simp only [hp, if_false]
      cases hi : scan_iter env s with
      | error e => rfl
      | ok s' =>
        have := scan_iter_measure env s s' hp hi
        exact ih s' f' (by omega) (by omega)

theorem scan_exec_nil (env : ScanEnv) (s : ScanState) (hp : s.p = []) :
    scan_exec env s = .ok s := by
  unfold scan_exec
  cases scan_measure s <;> simp [scan_loop, hp]

theorem scan_exec_iter (env : ScanEnv) (s s' : ScanState) (hp : s.p ≠ [])
    (h : scan_iter env s = .ok s') : scan_exec env s = scan_exec env s' := by
  have hm := scan_iter_measure env s s' hp h
  unfold scan_exec
  obtain ⟨n, hn⟩ : ∃ n, scan_measure s = n + 1 := ⟨scan_measure s - 1, by omega⟩
  rw [hn]
  simp only [scan_loop, hp, if_false, h]
  exact scan_loop_fuel env (scan_measure s') s' n (le_refl _) (by omega)

/-- One round of the loop, in the form used to follow the scanner through a
text: the character read and the state the `switch` leaves. -/
theorem scan_exec_step (env : ScanEnv) (s s' : ScanState) (ch : Char) (rest : List Char)
    (hp : s.p = ch :: rest)
    (h : scan_switch env { s with p := rest, line := s.line ++ [ch] } ch = .ok s') :
    scan_exec env s = scan_exec env s' := by
  apply scan_exec_iter env s s' (by rw [hp]; simp)
  unfold scan_iter
  rw [hp]
  exact h

theorem scan_block_eq (env : ScanEnv) (bp : List Char) (nmatch : Nat) :
    scan_block env bp nmatch = scan_result (scan_exec env (scan_init bp nmatch)) := by
  unfold scan_block scan_exec
  rw [scan_loop_fuel env (scan_measure (scan_init bp nmatch)) (scan_init bp nmatch)
    (2 * bp.length + 1) (le_refl _) (by simp [scan_measure, scan_init])]

/-! ## Dotted quads under `scan_block` -/

theorem isdigit_scan {c : Char} (h : isdigit c = true) :
    isxdigit c = true ∧ c ≠ ':' ∧ c ≠ '.' ∧ c ≠ '\n' ∧ c ≠ ' ' ∧ c ≠ '\t' ∧ c ≠ '/' := by
  have hx : isxdigit c = true := by simp [isxdigit, h]
  simp only [isdigit, Bool.and_eq_true, decide_eq_true_eq] at h
  refine ⟨hx, ?_, ?_, ?_, ?_, ?_, ?_⟩ <;> (rintro rfl; simp at h)

theorem i32_of_lt {n : Nat} (h : n < 2 ^ 31) : i32 (n : Int) = (n : Int) := by
  unfold i32
  omega

theorem accum_append (v : Nat) (xs ys : List Char) :
    accum v (xs ++ ys) = accum (accum v xs) ys := by
  simp [accum, List.foldl_append]

/-- The further digits of an octet, read in state `S_IP2`, `S_IP3` or `S_IP4`. -/
theorem scan_digits (env : ScanEnv) (rest : List Char) (ds : List Char) :
    ∀ (s : ScanState) (v : Nat),
      s.state = .S_IP2 ∨ s.state = .S_IP3 ∨ s.state = .S_IP4 →
      s.octet = (v : Int) → (∀ c ∈ ds, isdigit c = true) → accum v ds < 2 ^ 31 →
      s.p = ds ++ rest →
      scan_exec env s =
        scan_exec env { s with p := rest, line := s.line ++ ds, octet := (accum v ds : Int) } := by
  induction ds with
  | nil =>
    intro s v _ ho _ _ hp
    simp only [List.nil_append] at hp
    simp only [accum, List.foldl_nil, List.append_nil, ← ho, ← hp]
  | cons c ds ih =>
    intro s v hst ho hd hv hp
    have hc : isdigit c = true := hd c (List.mem_cons_self _ _)
    have hlt : v * 10 + dval c < 2 ^ 31 :=
      lt_of_le_of_lt (le_accum ds _) (by simpa [accum_cons] using hv)
    have h32 : i32 ((v : Int) * 10 + (dval c : Int)) = ((v * 10 + dval c : Nat) : Int) := by
      have := i32_of_lt hlt
      push_cast at this ⊢
      exact this
    have key : scan_switch env { s with p := ds ++ rest, line := s.line ++ [c] } c =
        .ok { s with p := ds ++ rest, line := s.line ++ [c],
                     octet := ((v * 10 + dval c : Nat) : Int) } := by
      rcases hst with h | h | h <;>
        simp [scan_switch, h, case_S_IP2, case_S_IP4, scan_ip23, hc, ho, h32]
    rw [scan_exec_step env s _ c (ds ++ rest) (by simpa using hp) key]
    rw [ih _ (v * 10 + dval c) (by simpa using hst) rfl
      (fun x hx => hd x (List.mem_cons_of_mem _ hx)) (by simpa [accum_cons] using hv) rfl]
    simp [accum_cons]

theorem accumHex_cons (v : Nat) (c : Char) (ds : List Char) :
    accumHex v (c :: ds) = accumHex (u32 (u32 (v <<< 4) + xtod c)) ds := rfl

/-- The further digits of the first number of an address, read in state
`S_IP1`, where they also count as hexadecimal digits of a chunk. -/
theorem scan_digits1 (env : ScanEnv) (rest : List Char) (ds : List Char) :
    ∀ (s : ScanState) (v : Nat),
      s.state = .S_IP1 →
      s.octet = (v : Int) → (∀ c ∈ ds, isdigit c = true) → accum v ds < 2 ^ 31 →
      s.p = ds ++ rest →
      scan_exec env s =
        scan_exec env { s with p := rest, line := s.line ++ ds, octet := (accum v ds : Int),
                               chunk := accumHex s.chunk ds } := by
  induction ds with
  | nil =>
    intro s v _ ho _ _ hp
    simp only [List.nil_append] at hp
    simp only [accum, accumHex, List.foldl_nil, List.append_nil, ← ho, ← hp]
  | cons c ds ih =>
    intro s v hst ho hd hv hp
    have hc : isdigit c = true := hd c (List.mem_cons_self _ _)
    have hx := (isdigit_scan hc).1
    have hlt : v * 10 + dval c < 2 ^ 31 :=
      lt_of_le_of_lt (le_accum ds _) (by simpa [accum_cons] using hv)
    have h32 : i32 ((v : Int) * 10 + (dval c : Int)) = ((v * 10 + dval c : Nat) : Int) := by
      have := i32_of_lt hlt
      push_cast at this ⊢
      exact this
    have key : scan_switch env { s with p := ds ++ rest, line := s.line ++ [c] } c =
        .ok { s with p := ds ++ rest, line := s.line ++ [c],
                     octet := ((v * 10 + dval c : Nat) : Int),
                     chunk := u32 (u32 (s.chunk <<< 4) + xtod c) } := by
      simp [scan_switch, hst, case_S_IP1, scan_ip23, hc, hx, ho, h32]
    rw [scan_exec_step env s _ c (ds ++ rest) (by simpa using hp) key]
    rw [ih _ (v * 10 + dval c) (by simpa using hst) rfl
      (fun x hx => hd x (List.mem_cons_of_mem _ hx)) (by simpa [accum_cons] using hv) rfl]
    simp [accum_cons, accumHex_cons]

/-- The dot that ends one of the first three octets. -/
theorem scan_dot (env : ScanEnv) (s : ScanState) (v : Nat) (rest : List Char)
    (hst : s.state = .S_IP1 ∨ s.state = .S_IP2 ∨ s.state = .S_IP3)
    (ho : s.octet = (v : Int)) (hv : v ≤ 255) (hp : s.p = '.' :: rest) :
    scan_exec env s =
      scan_exec env { s with p := rest, line := s.line ++ ['.'],
                             ip4 := u32 (u32 (s.ip4 <<< 8) + v), state := s.state.succ } := by
  have hn : ¬ ((v : Int) > 255) := by omega
  have hm : ((v : Int) % 4294967296).toNat = v := by omega
  apply scan_exec_step env s _ '.' rest hp
  rcases hst with h | h | h <;>
    simp [scan_switch, h, case_S_IP1, case_S_IP2, scan_ip23, isdigit, isxdigit, ho, hn, hm]

/-- An octet read after a dot. -/
theorem scan_octet (env : ScanEnv) (s : ScanState) (ds rest : List Char)
    (hst : s.state = .S_IP1D ∨ s.state = .S_IP2D ∨ s.state = .S_IP3D)
    (hds : isOctet ds) (hp : s.p = ds ++ rest) :
    scan_exec env s =
      scan_exec env { s with p := rest, line := s.line ++ ds, octet := (accum 0 ds : Int),
                             state := s.state.succ } := by
  obtain ⟨hl1, hl3, hd, hval⟩ := hds
  cases ds with
  | nil => simp at hl1
  | cons c ds =>
    have hc : isdigit c = true := hd c (List.mem_cons_self _ _)
    have key : scan_switch env { s with p := ds ++ rest, line := s.line ++ [c] } c =
        .ok { s with p := ds ++ rest, line := s.line ++ [c], octet := (dval c : Int),
                     state := s.state.succ } := by
      rcases hst with h | h | h <;> simp [scan_switch, h, case_S_IP1D, hc]
    rw [scan_exec_step env s _ c (ds ++ rest) (by simpa using hp) key]
    have hacc : accum 0 (c :: ds) = accum (dval c) ds := by simp [accum_cons]
    rw [scan_digits env rest ds _ (dval c)
      (by rcases hst with h | h | h <;> simp [h, sscan.succ]) rfl
      (fun x hx => hd x (List.mem_cons_of_mem _ hx)) (by rw [← hacc]; omega) rfl]
    simp [hacc]

theorem quad_ip4 (a b c d : Nat) (ha : a ≤ 255) (hb : b ≤ 255) (hc : c ≤ 255) (hd : d ≤ 255) :
    u32 (u32 (u32 (u32 (u32 (u32 (u32 (u32 (0 <<< 8) + a) <<< 8) + b) <<< 8) + c) <<< 8) + d)
      = ((a * 256 + b) * 256 + c) * 256 + d :=
  ip_value a b c d (by omega) (by omega) (by omega) (by omega)

/-- A dotted quad read from state `S_SC` up to the character `t` after it:
the scanner asks `netmatch` about its address and goes on as the answer `b`
says, with the quad and `t` added to the line and `seenone` set. -/
theorem scan_quad (env : ScanEnv) (s : ScanState) (q : Quad) (t : Char) (rest : List Char)
    (b : Bool) (hquick : env.quick = false) (hcidr : env.cidrsearch = false)
    (harr : env.array ≠ []) (hst : s.state = .S_SC) (hq : q.valid)
    (ht : isdigit t = false) (hp : s.p = q.text ++ t :: rest)
    (hnm : netmatch env.didrsearch env.array ⟨q.value, q.value⟩ = .ok b) :
    ∃ sX : ScanState, sX.p = rest ∧ sX.line = s.line ++ q.text ++ [t] ∧ sX.out = s.out ∧
      sX.nmatch = s.nmatch ∧ sX.seenone = true ∧
      scan_exec env s =
        scan_exec env (if b then scan_scnlp env { sX with state := .S_SCNLP } t
                       else scan_default env sX t) := by
  obtain ⟨h1, h2, h3, h4⟩ := hq
  obtain ⟨l1, l1', d1, v1⟩ := h1
  cases ho1 : q.o1 with
  | nil => rw [ho1] at l1; simp at l1
  | cons c1 r1 =>
    rw [ho1] at d1 v1
    have hc1 : isdigit c1 = true := d1 c1 (List.mem_cons_self _ _)
    have hacc1 : accum 0 (c1 :: r1) = accum (dval c1) r1 := by simp [accum_cons]
    obtain ⟨tl, htl⟩ : ∃ tl, tl = q.o2 ++ '.' :: (q.o3 ++ '.' :: (q.o4 ++ t :: rest)) :=
      ⟨_, rfl⟩
    have hp' : s.p = c1 :: (r1 ++ '.' :: tl) := by
      rw [hp, Quad.text, ho1, htl]; simp
    -- the first digit
    have key : scan_switch env { s with p := r1 ++ '.' :: tl, line := s.line ++ [c1] } c1 =
        .ok { s with p := r1 ++ '.' :: tl, line := s.line ++ [c1], ip4 := 0, state := .S_IP1,
                     nhi := 0, nlo := 0, octet := (dval c1 : Int), chunk := dval c1 } := by
      simp [scan_switch, hst, case_S_SC, scan_sc, hc1]
    rw [scan_exec_step env s _ c1 _ hp' key]
    -- the first octet and its dot
    rw [scan_digits1 env _ r1 _ (dval c1) rfl rfl
      (fun x hx => d1 x (List.mem_cons_of_mem _ hx)) (by rw [← hacc1]; omega) rfl]
    rw [scan_dot env _ (accum (dval c1) r1) _ (Or.inl rfl) rfl (by rw [← hacc1]; omega) rfl]
    subst htl
    -- the other octets
    rw [scan_octet env _ q.o2 _ (Or.inl rfl) h2 rfl]
    rw [scan_dot env _ (accum 0 q.o2) _ (Or.inr (Or.inl rfl)) rfl h2.2.2.2 rfl]
    rw [scan_octet env _ q.o3 _ (Or.inr (Or.inl rfl)) h3 rfl]
    rw [scan_dot env _ (accum 0 q.o3) _ (Or.inr (Or.inr rfl)) rfl h3.2.2.2 rfl]
    rw [scan_octet env _ q.o4 _ (Or.inr (Or.inr rfl)) h4 rfl]
    simp only [sscan.succ]
    -- the character after the quad
    have hval : u32 (u32 (u32 (u32 (u32 (u32 (u32 (u32 (0 <<< 8) + accum (dval c1) r1) <<< 8)
        + accum 0 q.o2) <<< 8) + accum 0 q.o3) <<< 8) + accum 0 q.o4) = q.value := by
      rw [quad_ip4 _ _ _ _ (by rw [← hacc1]; omega) h2.2.2.2 h3.2.2.2 h4.2.2.2]
      simp [Quad.value, ho1, hacc1]
    have hn : ¬ ((accum 0 q.o4 : Int) > 255) := by have := h4.2.2.2; omega
    have hm : ((accum 0 q.o4 : Int) % 2 ^ 32).toNat = accum 0 q.o4 := by omega
    have hlen : ¬ env.array.length = 0 := by simpa using harr
    refine ⟨{ s with p := rest, line := s.line ++ q.text ++ [t], ip4 := q.value,
                     state := .S_IP4, nhi := 0, nlo := 0, octet := (accum 0 q.o4 : Int),
                     chunk := accumHex (dval c1) r1, seenone := true },
      rfl, rfl, rfl, rfl, rfl, ?_⟩
    apply scan_exec_step env _ _ t rest rfl
    simp only [scan_switch, case_S_IP4, ht, hquick, hcidr, hn, hm, hlen, hval, scan_try4, hnm,
      Bool.false_eq_true, false_and, if_false]
    have hline : s.line ++ [c1] ++ r1 ++ ['.'] ++ q.o2 ++ ['.'] ++ q.o3 ++ ['.'] ++ q.o4 ++ [t]
        = s.line ++ q.text ++ [t] := by
      simp [Quad.text, ho1]
    cases b <;> simp only [hline] <;> rfl

theorem skip_line_to_nl (xs : List Char) : ∀ (ch : Char) (line : List Char),
    ch ≠ '\n' → '\n' ∉ xs →
    skip_line ch (xs ++ ['\n']) line = ('\n', [], line ++ xs ++ ['\n']) := by
  induction xs with
  | nil => intro ch line hch _; simp [skip_line, hch]
  | cons c xs ih =>
    intro ch line hch hx
    have hc : c ≠ '\n' := fun e => hx (by simp [e])
    have hxs : '\n' ∉ xs := fun e => hx (List.mem_cons_of_mem _ e)
    have e : (c :: xs) ++ ['\n'] = c :: (xs ++ ['\n']) := rfl
    rw [e, skip_line, if_pos hch, ih c _ hc hxs]
    simp

theorem octet_no_nl {ds : List Char} (h : isOctet ds) : '\n' ∉ ds := fun hm =>
  (isdigit_scan (h.2.2.1 _ hm)).2.2.2.1 rfl

theorem quad_no_nl {q : Quad} (h : q.valid) : '\n' ∉ q.text := by
  have h1 := octet_no_nl h.1
  have h2 := octet_no_nl h.2.1
  have h3 := octet_no_nl h.2.2.1
  have h4 := octet_no_nl h.2.2.2
  simp [Quad.text, h1, h2, h3, h4]

theorem quadTail_no_nl (qs : List Quad) (h : ∀ q ∈ qs, q.valid) : '\n' ∉ quadTail qs := by
  induction qs with
  | nil => simp [quadTail]
  | cons q qs ih =>
    have hq := quad_no_nl (h q (List.mem_cons_self _ _))
    have := ih (fun x hx => h x (List.mem_cons_of_mem _ hx))
    simp [quadTail, hq, this]

theorem quadLine_cons (q : Quad) (qs : List Quad) :
    quadLine (q :: qs) = q.text ++ quadTail qs ++ ['\n'] := by
  unfold quadLine
  congr 1
  induction qs generalizing q with
  | nil => simp [quadTail, List.intercalate]
  | cons q' qs ih =>
    have := ih q'
    simp only [List.map_cons, List.intercalate, List.intersperse, List.flatten_cons] at this ⊢
    rw [this]
    simp [quadTail]

theorem emit_line_out (env : ScanEnv) (s : ScanState) :
    (emit_line env s).out = s.out ++ printed env s.line ∧
      (emit_line env s).nmatch = s.nmatch + 1 := by
  unfold emit_line printed
  refine ⟨?_, rfl⟩
  dsimp only
  cases env.fn with
  | none => split_ifs <;> simp
  | some name => dsimp only; split_ifs <;> simp

/-- The code at `scnlp` when the rest of the buffer is the rest of the line:
the line is emitted unless `invert` is set. -/
theorem scnlp_done (env : ScanEnv) (sY : ScanState) (t : Char)
    (h : skip_line t sY.p sY.line = ('\n', [], sY.line ++ sY.p)) :
    scan_result (scan_exec env (scan_scnlp env sY t)) =
      .ok (if env.invert then (sY.out, sY.nmatch)
           else (sY.out ++ printed env (sY.line ++ sY.p), sY.nmatch + 1)) := by
  have hp : (scan_scnlp env sY t).p = [] := by
    simp only [scan_scnlp, h]; split_ifs <;> rfl
  rw [scan_exec_nil env _ hp]
  simp only [scan_result, scan_scnlp, h, if_true]
  cases env.invert
  · simp only [Bool.false_eq_true, if_false]
    have := emit_line_out env { sY with p := [], line := sY.line ++ sY.p }
    rw [this.1, this.2]
  · simp

/-- The default action at the newline that ends the buffer, after an address
was seen: the line is emitted if `invert` is set. -/
theorem default_done (env : ScanEnv) (sX : ScanState) (hp : sX.p = [])
    (hseen : sX.seenone = true) :
    scan_result (scan_exec env (scan_default env sX '\n')) =
      .ok (if env.invert then (sX.out ++ printed env sX.line, sX.nmatch + 1)
           else (sX.out, sX.nmatch)) := by
  have hp' : (scan_default env sX '\n').p = [] := by simp [hp]
  rw [scan_exec_nil env _ hp']
  simp only [scan_result, scan_default, if_true, hseen, and_true]
  cases env.invert
  · simp
  · simp only [if_true]
    have := emit_line_out env sX
    rw [this.1, this.2]

/-- A line of dotted quads, scanned from the start of one of its quads. -/
theorem scan_quads (env : ScanEnv) (hquick : env.quick = false) (hcidr : env.cidrsearch = false)
    (hanchor : env.anchor = false) (hdidr : env.didrsearch = false) (harr : env.array ≠ [])
    (hmerged : Merged env.array) :
    ∀ (qs : List Quad) (q : Quad) (s : ScanState), s.state = .S_SC →
      (∀ x ∈ q :: qs, x.valid) → s.p = q.text ++ quadTail qs ++ ['\n'] →
      ((∃ x ∈ q :: qs, covers env.array x.value) →
        scan_result (scan_exec env s) =
          .ok (if env.invert then (s.out, s.nmatch)
               else (s.out ++ printed env (s.line ++ s.p), s.nmatch + 1))) ∧
      (¬ (∃ x ∈ q :: qs, covers env.array x.value) →
        scan_result (scan_exec env s) =
          .ok (if env.invert then (s.out ++ printed env (s.line ++ s.p), s.nmatch + 1)
               else (s.out, s.nmatch))) := by
  have hnm : ∀ v : Nat, netmatch env.didrsearch env.array ⟨v, v⟩ =
      .ok (decide (covers env.array v)) := by
    intro v
    rw [hdidr, netmatch_contain env.array ⟨v, v⟩ harr hmerged (le_refl _)]
    rfl
  intro qs
  induction qs with
  | nil =>
    intro q s hst hv hp
    have hq := hv q (List.mem_cons_self _ _)
    have hp' : s.p = q.text ++ '\n' :: [] := by simpa [quadTail] using hp
    obtain ⟨sX, hXp, hXl, hXo, hXn, hXs, hrun⟩ := scan_quad env s q '\n' [] _ hquick hcidr harr
      hst hq (by decide) hp' (hnm q.value)
    have hline : sX.line = s.line ++ s.p := by rw [hXl, hp']; simp
    by_cases hcov : covers env.array q.value
    · refine ⟨fun _ => ?_, fun hno => absurd ⟨q, List.mem_cons_self _ _, hcov⟩ hno⟩
      rw [hrun, decide_eq_true hcov, if_pos rfl]
      have := scnlp_done env { sX with state := .S_SCNLP } '\n'
        (by simp [hXp, skip_line])
      rw [this]
      simp [hXo, hXn, hXp, hline]
    · refine ⟨fun ⟨x, hx, hxc⟩ => ?_, fun _ => ?_⟩
      · rcases List.mem_cons.1 hx with e | e
        · exact absurd (e ▸ hxc) hcov
        · simp at e
      · rw [hrun, decide_eq_false hcov]
        simp only [Bool.false_eq_true, if_false]
        rw [default_done env sX hXp hXs, hXo, hXn, hline]
  | cons q' qs ih =>
    intro q s hst hv hp
    have hq := hv q (List.mem_cons_self _ _)
    have hv' : ∀ x ∈ q' :: qs, x.valid := fun x hx => hv x (List.mem_cons_of_mem _ hx)
    have hp' : s.p = q.text ++ ' ' :: (q'.text ++ quadTail qs ++ ['\n']) := by
      simpa [quadTail] using hp
    obtain ⟨sX, hXp, hXl, hXo, hXn, hXs, hrun⟩ := scan_quad env s q ' '
      (q'.text ++ quadTail qs ++ ['\n']) _ hquick hcidr harr hst hq (by decide) hp' (hnm q.value)
    have hline : sX.line ++ sX.p = s.line ++ s.p := by rw [hXl, hXp, hp']; simp
    by_cases hcov : covers env.array q.value
    · refine ⟨fun _ => ?_, fun hno => absurd ⟨q, List.mem_cons_self _ _, hcov⟩ hno⟩
      rw [hrun, decide_eq_true hcov, if_pos rfl]
      have hnl : '\n' ∉ q'.text ++ quadTail qs := by
        have h1 := quad_no_nl (hv' q' (List.mem_cons_self _ _))
        have h2 := quadTail_no_nl qs (fun x hx => hv' x (List.mem_cons_of_mem _ hx))
        simp [h1, h2]
      have := scnlp_done env { sX with state := .S_SCNLP } ' '
        (by
          show skip_line ' ' sX.p sX.line = _
          rw [hXp, skip_line_to_nl _ ' ' _ (by decide) hnl]
          simp)
      rw [this]
      simp only [hXo, hXn]
      rw [show ({ sX with state := sscan.S_SCNLP } : ScanState).line ++
        ({ sX with state := sscan.S_SCNLP } : ScanState).p = s.line ++ s.p from hline]
    · have hdef : scan_default env sX ' ' = { sX with state := .S_SC } := by
        simp [scan_default, hanchor]
      have hih := ih q' { sX with state := .S_SC } rfl hv' hXp
      rw [hrun, decide_eq_false hcov]
      simp only [Bool.false_eq_true, if_false, hdef]
      have hiff : (∃ x ∈ q :: q' :: qs, covers env.array x.value) ↔
          (∃ x ∈ q' :: qs, covers env.array x.value) := by
        constructor
        · rintro ⟨x, hx, hxc⟩
          rcases List.mem_cons.1 hx with e | e
          · exact absurd (e ▸ hxc) hcov
          · exact ⟨x, e, hxc⟩
        · rintro ⟨x, hx, hxc⟩
          exact ⟨x, List.mem_cons_of_mem _ hx, hxc⟩
      rw [hiff, ← hXo, ← hXn, ← hline]
      exact hih

theorem skip_blanks_nonblank (ch : Char) (p line : List Char) (h1 : ch ≠ ' ')
    (h2 : ch ≠ '\t') : skip_blanks ch p line = (ch, p, line) := by
  cases p with
  | nil => rfl
  | cons c p => simp [skip_blanks, h1, h2]

/-- A buffer that is one line of dotted quads, scanned by `scan_block`. -/
theorem scan_block_quads (env : ScanEnv) (qs : List Quad) (nmatch : Nat)
    (hquick : env.quick = false) (hcidr : env.cidrsearch = false)
    (hanchor : env.anchor = false) (hdidr : env.didrsearch = false) (harr : env.array ≠ [])
    (hmerged : Merged env.array) (hne : qs ≠ []) (hv : ∀ q ∈ qs, q.valid) :
    ((∃ q ∈ qs, covers env.array q.value) →
      scan_block env (quadLine qs) nmatch =
        .ok (if env.invert then ([], nmatch)
             else (printed env (quadLine qs), nmatch + 1))) ∧
    (¬ (∃ q ∈ qs, covers env.array q.value) →
      scan_block env (quadLine qs) nmatch =
        .ok (if env.invert then (printed env (quadLine qs), nmatch + 1)
             else ([], nmatch))) := by
  cases qs with
  | nil => exact absurd rfl hne
  | cons q qs =>
    have hq := hv q (List.mem_cons_self _ _)
    obtain ⟨l1, _, d1, _⟩ := hq.1
    cases ho1 : q.o1 with
    | nil => rw [ho1] at l1; simp at l1
    | cons c1 r1 =>
      have hc1 : isdigit c1 = true := d1 c1 (by rw [ho1]; exact List.mem_cons_self _ _)
      obtain ⟨_, _, _, _, hsp, htab, _⟩ := isdigit_scan hc1
      obtain ⟨tl, htl⟩ : ∃ tl, quadLine (q :: qs) = c1 :: tl := by
        rw [quadLine_cons, Quad.text, ho1]; exact ⟨_, by simp; rfl⟩
      have hA : scan_exec env (scan_init (quadLine (q :: qs)) nmatch) =
          scan_exec env { scan_init (quadLine (q :: qs)) nmatch with state := .S_SC } := by
        rw [scan_exec_step env (scan_init (quadLine (q :: qs)) nmatch) _ c1 tl
          (by simp [scan_init, htl])
          (show _ = Except.ok (scan_sc env { scan_init (quadLine (q :: qs)) nmatch with
              p := tl, line := [c1], seenone := false } c1) by
            simp [scan_switch, scan_init, case_S_BEG, skip_blanks_nonblank _ _ _ hsp htab])]
        rw [scan_exec_step env { scan_init (quadLine (q :: qs)) nmatch with state := .S_SC } _ c1 tl
          (by simp [scan_init, htl])
          (show _ = Except.ok (scan_sc env { scan_init (quadLine (q :: qs)) nmatch with
              p := tl, line := [c1], seenone := false } c1) by
            simp [scan_switch, scan_init, case_S_SC, scan_sc, hc1])]
      have := scan_quads env hquick hcidr hanchor hdidr harr hmerged qs q
        { scan_init (quadLine (q :: qs)) nmatch with state := .S_SC } rfl hv
        (by simp [scan_init, quadLine_cons])
      rw [scan_block_eq, hA]
      simpa [scan_init] using this

/-- C5: in normal mode (`invert`, `anchor`, `quick`, `cidrsearch` off, and so
`didrsearch` off, which `main` only sets together with `cidrsearch`), with a
non-empty IPv4 pattern array that was sorted and merged, for every line made
of one or more dotted quads (each octet 0..255 in 1 to 3 digits) separated by
single spaces and ended by a newline, `scan_block` emits the line and adds one
to `nmatch` iff one of the addresses lies in a pattern range, and else writes
nothing and leaves `nmatch`; and with the pattern `192.168.0.0/24` the line
`x=192.168.0.55 y` is emitted. -/
theorem C5_scan_block_normal :
    (∀ (env : ScanEnv) (input : List netspec) (qs : List Quad) (nmatch : Nat),
      env.invert = false → env.anchor = false → env.quick = false →
      env.cidrsearch = false → env.didrsearch = false →
      input ≠ [] → env.array = sort_merge input → qs ≠ [] → (∀ q ∈ qs, q.valid) →
      ((∃ q ∈ qs, covers env.array q.value) →
        scan_block env (quadLine qs) nmatch = .ok (printed env (quadLine qs), nmatch + 1)) ∧
      (¬ (∃ q ∈ qs, covers env.array q.value) →
        scan_block env (quadLine qs) nmatch = .ok ([], nmatch))) ∧
    net_parse false "192.168.0.0/24".toList = some (⟨0xC0A80000, 0xC0A800FF⟩, []) ∧
    scan_block ⟨false, false, false, false, false, false, false,
        sort_merge [⟨0xC0A80000, 0xC0A800FF⟩], [], none⟩ "x=192.168.0.55 y\n".toList 0
      = .ok ("x=192.168.0.55 y\n".toList, 1) := by
  refine ⟨?_, by decide, by decide⟩
  intro env input qs nmatch hinv hanchor hquick hcidr hdidr hin harr hne hv
  have hm := sort_merge_merged input hin
  rw [← harr] at hm
  have := scan_block_quads env qs nmatch hquick hcidr hanchor hdidr hm.2 hm.1 hne hv
  simpa [hinv] using this

/-- C5 at the pattern `192.168.0.0/24` and the line `10.0.0.1 192.168.0.55`:
the line is emitted, its second address lying in the pattern. -/
theorem C5_scan_block_normal_witness :
    quadLine quads_two = "10.0.0.1 192.168.0.55\n".toList ∧
    scan_block (env_one false) (quadLine quads_two) 0
      = .ok (printed (env_one false) (quadLine quads_two), 0 + 1) :=
  ⟨by decide,
   (C5_scan_block_normal.1 (env_one false) [⟨0xC0A80000, 0xC0A800FF⟩] quads_two 0
      rfl rfl rfl rfl rfl (by decide) rfl (List.cons_ne_nil _ _)
      (by simp [quads_two, Quad.valid, isOctet, accum, isdigit, dval])).1
    ⟨⟨"192".toList, "168".toList, "0".toList, "55".toList⟩, by simp [quads_two],
      by decide⟩⟩

/-- C6: in inverted mode (`invert` on; `anchor`, `quick`, `cidrsearch` and so
`didrsearch` off), with a non-empty IPv4 pattern array that was sorted and
merged, for every line made of one or more dotted quads (octets 0..255)
separated by single spaces and ended by a newline, `scan_block` emits the
line iff none of its addresses lies in a pattern range; and with the pattern
`192.168.0.0/24` the line `10.0.0.1` is emitted. -/
theorem C6_scan_block_inverted :
    (∀ (env : ScanEnv) (input : List netspec) (qs : List Quad) (nmatch : Nat),
      env.invert = true → env.anchor = false → env.quick = false →
      env.cidrsearch = false → env.didrsearch = false →
      input ≠ [] → env.array = sort_merge input → qs ≠ [] → (∀ q ∈ qs, q.valid) →
      (¬ (∃ q ∈ qs, covers env.array q.value) →
        scan_block env (quadLine qs) nmatch = .ok (printed env (quadLine qs), nmatch + 1)) ∧
      ((∃ q ∈ qs, covers env.array q.value) →
        scan_block env (quadLine qs) nmatch = .ok ([], nmatch))) ∧
    net_parse false "192.168.0.0/24".toList = some (⟨0xC0A80000, 0xC0A800FF⟩, []) ∧
    scan_block ⟨false, true, false, false, false, false, false,
        sort_merge [⟨0xC0A80000, 0xC0A800FF⟩], [], none⟩ "10.0.0.1\n".toList 0
      = .ok ("10.0.0.1\n".toList, 1) := by
  refine ⟨?_, by decide, by decide⟩
  intro env input qs nmatch hinv hanchor hquick hcidr hdidr hin harr hne hv
  have hm := sort_merge_merged input hin
  rw [← harr] at hm
  have := scan_block_quads env qs nmatch hquick hcidr hanchor hdidr hm.2 hm.1 hne hv
  simp only [hinv, if_true] at this
  exact ⟨this.2, this.1⟩

/-- C6 at the pattern `192.168.0.0/24` and the line `10.0.0.1 010.1.2.3`: the
line is emitted, none of its addresses lying in the pattern. -/
theorem C6_scan_block_inverted_witness :
    quadLine quads_out = "10.0.0.1 010.1.2.3\n".toList ∧
    scan_block (env_one true) (quadLine quads_out) 0
      = .ok (printed (env_one true) (quadLine quads_out), 0 + 1) :=
  ⟨by decide,
   (C6_scan_block_inverted.1 (env_one true) [⟨0xC0A80000, 0xC0A800FF⟩] quads_out 0
      rfl rfl rfl rfl rfl (by decide) rfl (List.cons_ne_nil _ _)
      (by simp [quads_out, Quad.valid, isOctet, accum, isdigit, dval])).1
    (by decide)⟩

/-! ## `net_parse6` and `scan_block` on particular IPv6 tokens -/

set_option maxRecDepth 100000 in
/-- C11: the token `2001:db8::/32` is compiled by `net_parse6` to the range
`2001:db8::` to `2001:db8:ffff:ffff:ffff:ffff:ffff:ffff`; with that single
pattern and default flags `scan_block` emits (and counts) the line
`2001:db8:1::1` and does not emit the line `2001:db9::1`, alone or together in
one buffer. -/
theorem C11_scan_block_v6_prefix :
    net_parse6 false "2001:db8::/32".toList = .ok (some (pat6_db8, false)) ∧
    scan_block (env_v6 (sort_merge6 [pat6_db8])) "2001:db8:1::1\n".toList 0
      = .ok ("2001:db8:1::1\n".toList, 1) ∧
    scan_block (env_v6 (sort_merge6 [pat6_db8])) "2001:db9::1\n".toList 0 = .ok ([], 0) ∧
    scan_block (env_v6 (sort_merge6 [pat6_db8])) "2001:db9::1\n2001:db8:1::1\n".toList 0
      = .ok ("2001:db8:1::1\n".toList, 1) := by
  refine ⟨?_, ?_, ?_, ?_⟩ <;> decide

set_option maxRecDepth 100000 in
/-- C12 at `T = 1:2:3:4:5:6:10.2.3.4`: `net_parse6` does not return from `T`
itself (the `assert` of `applymask6` fails on size -1), and compiles `T/128`
to the address whose embedded quad is `9.2.3.4`, since `V_HCH` adds
`ch - '1'` where the other states add `ch - '0'`.  With that pattern
`scan_block`, which reads the quad as `10.2.3.4`, does not emit the line `T`;
it emits the line `1:2:3:4:5:6:9.2.3.4`. -/
theorem C12_embedded_quad_round_trip_fails :
    net_parse6 false "1:2:3:4:5:6:10.2.3.4".toList = .error .assertFailed ∧
    net_parse6 false "1:2:3:4:5:6:10.2.3.4/128".toList = .ok (some (pat6_quad9, false)) ∧
    scan_block (env_v6 (sort_merge6 [pat6_quad9])) "1:2:3:4:5:6:10.2.3.4\n".toList 0
      = .ok ([], 0) ∧
    scan_block (env_v6 (sort_merge6 [pat6_quad9])) "1:2:3:4:5:6:9.2.3.4\n".toList 0
      = .ok ("1:2:3:4:5:6:9.2.3.4\n".toList, 1) := by
  refine ⟨?_, ?_, ?_, ?_⟩ <;> decide

set_option maxRecDepth 100000 in
/-- C20, as claimed, fails: `net_parse6` does not return 0 on the token `::`. -/
theorem C20_double_colon_not_rejected :
    net_parse6 false "::".toList ≠ .ok none ∧ net_parse6 true "::".toList ≠ .ok none := by
  refine ⟨?_, ?_⟩ <;> decide

set_option maxRecDepth 100000 in
/-- C20, amended: on the token `::` alone the scanning loop of `net_parse6`
does not return 0; it accepts the token as the all-zero address and the
function calls `applymask6` with that address and size -1 (no prefix length
was read).  With a prefix length the token is compiled: `::/128` gives the
range of the all-zero address alone, without a diagnostic. -/
theorem C20_double_colon_accepted (sloppy : Bool) :
    net_parse6_args "::".toList = .ok (some (v6zero, -1)) ∧
    net_parse6 sloppy "::".toList ≠ .ok none ∧
    net_parse6 sloppy "::/128".toList = .ok (some (⟨v6zero, v6zero⟩, false)) := by
  cases sloppy <;> refine ⟨?_, ?_, ?_⟩ <;> decide

/-! ## `net_parse` on ranges -/

/-- An octet numeral read from a state whose digit case starts an octet in
state `st1`. -/
theorem np_octet (sl : Bool) (s : ParseState) (n : Nat) (rest : List Char) (st1 : iscan)
    (hfirst : ∀ c, isdigit c = true →
      net_parse_switch sl s c = .next { s with octet := dval c, state := st1 })
    (hoct : octetState st1) (hn : n < 256) :
    net_parse_loop sl s (dec n ++ rest) =
      net_parse_loop sl { s with octet := n, state := st1 } rest := by
  obtain ⟨c, ds, hdec, hc, hds, hval⟩ := dec_cases hn
  rw [hdec, List.cons_append, net_parse_loop, hfirst c hc]
  simp only
  rw [np_digits sl _ ds _ hoct hds (by simp only [hval]; omega)]
  simp only [hval]

theorem range_value (m a b c d : Nat) (ha : a < 256) (hb : b < 256) (hc : c < 256)
    (hd : d < 256) :
    u32 (u32 (u32 (u32 (u32 (u32 (u32 (u32 (m <<< 8) + a) <<< 8) + b) <<< 8) + c) <<< 8) + d)
      = ((a * 256 + b) * 256 + c) * 256 + d := by
  simp only [u32, Nat.shiftLeft_eq]
  omega

/-- C14: for all octets `a` to `h` in 0..255, written in decimal, `net_parse`
succeeds on the range token `a.b.c.d-e.f.g.h` and stores `min` = the value of
`a.b.c.d` and `max` = the value of `e.f.g.h`, unmasked and unswapped; when the
first address is the greater one the range is kept as it is and only the
"Backward range" message is added. -/
theorem C14_net_parse_range (sloppy : Bool) (a b c d e f g h : Nat)
    (ha : a ≤ 255) (hb : b ≤ 255) (hc : c ≤ 255) (hd : d ≤ 255)
    (he : e ≤ 255) (hf : f ≤ 255) (hg : g ≤ 255) (hh : h ≤ 255) :
    net_parse sloppy
        (dec a ++ ['.'] ++ dec b ++ ['.'] ++ dec c ++ ['.'] ++ dec d ++ ['-'] ++
          dec e ++ ['.'] ++ dec f ++ ['.'] ++ dec g ++ ['.'] ++ dec h) =
      some (⟨((a * 256 + b) * 256 + c) * 256 + d, ((e * 256 + f) * 256 + g) * 256 + h⟩,
            if ((a * 256 + b) * 256 + c) * 256 + d > ((e * 256 + f) * 256 + g) * 256 + h
            then [Diag.backwardRange] else []) := by
  have e0 : dec a ++ ['.'] ++ dec b ++ ['.'] ++ dec c ++ ['.'] ++ dec d ++ ['-'] ++
          dec e ++ ['.'] ++ dec f ++ ['.'] ++ dec g ++ ['.'] ++ dec h =
      dec a ++ '.' :: (dec b ++ '.' :: (dec c ++ '.' :: (dec d ++ '-' :: (dec e ++ '.' ::
        (dec f ++ '.' :: (dec g ++ '.' :: (dec h ++ []))))))) := by
    simp
  have dig : ∀ c : Char, isdigit c = true → isspace c = false := fun c hc => (isdigit_ne hc).2.2.2.2
  have nd : isdigit '.' = false ∧ isdigit '-' = false ∧ isdigit NUL = false := by decide
  rw [e0, net_parse, np_octet_dot sloppy _ a _ (Or.inl rfl) (by omega)]
  rw [np_octet_dot sloppy _ b _ (Or.inr (Or.inl rfl)) (by omega)]
  rw [np_octet_dot sloppy _ c _ (Or.inr (Or.inr rfl)) (by omega)]
  rw [np_octet sloppy _ d _ .I_IP4 (fun x hx => by simp [net_parse_switch, hx, iscan.succ])
    (by simp [octetState]) (by omega)]
  have hd' : ¬ d > 255 := by omega
  rw [net_parse_loop]
  simp only [net_parse_switch, nd, hd', if_false, Bool.false_eq_true]
  rw [if_neg (by decide), if_neg (by decide), if_pos trivial]
  simp only
  rw [np_octet sloppy _ e _ .I_MIP1
    (fun x hx => by simp [net_parse_switch, hx, dig x hx]) (by simp [octetState]) (by omega)]
  have he' : ¬ e > 255 := by omega
  rw [net_parse_loop]
  simp only [net_parse_switch, nd, he', if_false, Bool.false_eq_true, if_true, iscan.succ]
  rw [np_octet sloppy _ f _ .I_MIP2
    (fun x hx => by simp [net_parse_switch, hx, iscan.succ]) (by simp [octetState]) (by omega)]
  have hf' : ¬ f > 255 := by omega
  rw [net_parse_loop]
  simp only [net_parse_switch, nd, hf', if_false, Bool.false_eq_true, if_true, iscan.succ]
  rw [np_octet sloppy _ g _ .I_MIP3
    (fun x hx => by simp [net_parse_switch, hx, iscan.succ]) (by simp [octetState]) (by omega)]
  have hg' : ¬ g > 255 := by omega
  rw [net_parse_loop]
  simp only [net_parse_switch, nd, hg', if_false, Bool.false_eq_true, if_true, iscan.succ]
  rw [np_octet sloppy _ h _ .I_MIP4
    (fun x hx => by simp [net_parse_switch, hx, iscan.succ]) (by simp [octetState]) (by omega)]
  have hh' : ¬ h > 255 := by omega
  simp only [net_parse_loop, net_parse_switch, nd, hh', if_false, Bool.false_eq_true]
  simp only [ip_value a b c d (by omega) (by omega) (by omega) (by omega),
    range_value _ e f g h (by omega) (by omega) (by omega) (by omega)]
  simp [net_parse_finish]

/-- C14 at the backward range `10.0.0.5-10.0.0.1`. -/
theorem C14_net_parse_range_witness :
    net_parse false "10.0.0.5-10.0.0.1".toList =
      some (⟨0x0A000005, 0x0A000001⟩, [Diag.backwardRange]) :=
  C14_net_parse_range false 10 0 0 5 10 0 0 1 (by decide) (by decide) (by decide) (by decide)
    (by decide) (by decide) (by decide) (by decide)

/-! ## Sorting and merging again, and matching a merged range -/

theorem netsort_antisymm : IsAntisymm netspec (fun a b => netsort a b ≤ 0) :=
  ⟨fun a b hab hba => by
    rw [netsort_le_iff] at hab hba
    cases a; cases b
    simp only [netspec.mk.injEq] at *
    omega⟩

theorem qsort_of_perm {l l' : List netspec} (h : l.Perm l') :
    qsort netsort l' = qsort netsort l := by
  haveI := netsort_total
  haveI := netsort_trans
  haveI := netsort_antisymm
  exact List.eq_of_perm_of_sorted
    (((List.perm_insertionSort _ l').trans h.symm).trans (List.perm_insertionSort _ l).symm)
    (List.sorted_insertionSort _ _) (List.sorted_insertionSort _ _)

theorem merged_sorted {l : List netspec} (h : Merged l) :
    l.Sorted (fun a b => netsort a b ≤ 0) :=
  List.Pairwise.imp (fun {a b} hab => (netsort_le_iff a b).2 (by omega)) h

theorem qsort_merged {l : List netspec} (h : Merged l) : qsort netsort l = l :=
  List.Sorted.insertionSort_eq (merged_sorted h)

theorem mergeF_id (rest : List netspec) :
    ∀ cur : netspec, Merged (cur :: rest) → mergeF cur rest = cur :: rest := by
  induction rest with
  | nil => intro cur _; rfl
  | cons x rest ih =>
    intro cur h
    have hx := (List.pairwise_cons.1 h).1 x (List.mem_cons_self _ _)
    have h1 : ¬ x.max ≤ cur.max := by omega
    have h2 : ¬ x.min ≤ cur.max := by omega
    simp only [mergeF, h1, h2, if_false]
    rw [ih x (List.pairwise_cons.1 h).2]

theorem sort_merge_of_merged {l : List netspec} (h : Merged l) : sort_merge l = l := by
  cases l with
  | nil => rfl
  | cons c rest =>
    obtain ⟨c', rest', hq, hm⟩ := sort_merge_eq (c :: rest) (List.cons_ne_nil _ _)
    rw [qsort_merged h] at hq
    cases hq
    rw [hm, mergeF_id rest c h]

/-- C15: the sort-and-merge step of `main` is idempotent: run on its own
output, for any input array (backward ranges included), it returns that
output unchanged. -/
theorem C15_sort_merge_idempotent (array : List netspec) :
    sort_merge (sort_merge array) = sort_merge array := by
  by_cases h : array = []
  · subst h; rfl
  · exact sort_merge_of_merged (sort_merge_merged array h).1

/-- C16: the sort-and-merge step of `main` does not depend on the order of
its input: every permutation of a non-empty pattern array gives the same
output array. -/
theorem C16_sort_merge_order_independent (array array' : List netspec) (hne : array ≠ [])
    (hp : array.Perm array') : sort_merge array' = sort_merge array := by
  have hne' : array' ≠ [] := fun h => hne (List.perm_nil.1 (h ▸ hp))
  obtain ⟨c, rest, hq, hm⟩ := sort_merge_eq array hne
  obtain ⟨c', rest', hq', hm'⟩ := sort_merge_eq array' hne'
  rw [qsort_of_perm hp, hq] at hq'
  cases hq'
  rw [hm, hm']

/-- C16 at an array with contained, overlapping, touching, separate and
backward ranges, and the array reversed. -/
theorem C16_sort_merge_order_independent_witness :
    sort_merge [⟨61, 70⟩, ⟨9, 3⟩, ⟨50, 60⟩, ⟨12, 13⟩, ⟨15, 30⟩, ⟨10, 20⟩, ⟨40, 50⟩] =
      sort_merge [⟨40, 50⟩, ⟨10, 20⟩, ⟨15, 30⟩, ⟨12, 13⟩, ⟨50, 60⟩, ⟨9, 3⟩, ⟨61, 70⟩] :=
  C16_sort_merge_order_independent
    [⟨40, 50⟩, ⟨10, 20⟩, ⟨15, 30⟩, ⟨12, 13⟩, ⟨50, 60⟩, ⟨9, 3⟩, ⟨61, 70⟩]
    [⟨61, 70⟩, ⟨9, 3⟩, ⟨50, 60⟩, ⟨12, 13⟩, ⟨15, 30⟩, ⟨10, 20⟩, ⟨40, 50⟩]
    (List.cons_ne_nil _ _) (List.reverse_perm _).symm

set_option maxRecDepth 100000 in
/-- C17, as claimed, fails on a backward range: `net_parse` compiles the token
`0.0.0.5-0.0.0.3` to the range with `min = 5` and `max = 3`; sorting and
merging the array of that one range keeps it, and `netmatch` in containment
mode rejects it as candidate against this array. -/
theorem C17_backward_range_not_matched :
    net_parse false "0.0.0.5-0.0.0.3".toList = some (⟨5, 3⟩, [Diag.backwardRange]) ∧
    (⟨5, 3⟩ : netspec) ∈ sort_merge [⟨5, 3⟩] ∧
    netmatch false (sort_merge [⟨5, 3⟩]) ⟨5, 3⟩ = .ok false := by
  refine ⟨?_, ?_, ?_⟩ <;> decide

/-- C17, amended: for every non-empty array of IPv4 ranges, backward ranges
included, and every range `q` of the sort-and-merge output that has
`min ≤ max`, `netmatch` in containment mode accepts `q` as candidate against
the output array. -/
theorem C17_netmatch_reflexive (array : List netspec) (hne : array ≠ []) (q : netspec)
    (hq : q ∈ sort_merge array) (hle : q.min ≤ q.max) :
    netmatch false (sort_merge array) q = .ok true := by
  obtain ⟨hm, hne'⟩ := sort_merge_merged array hne
  rw [netmatch_contain _ q hne' hm hle]
  exact congrArg _ (decide_eq_true ⟨q, hq, le_refl _, le_refl _⟩)

set_option maxRecDepth 100000 in
/-- C17 (amended) at an array with a backward range: the merged range
`[10, 30]` matches itself. -/
theorem C17_netmatch_reflexive_witness :
    netmatch false (sort_merge [⟨40, 50⟩, ⟨10, 20⟩, ⟨15, 30⟩, ⟨9, 3⟩]) ⟨10, 30⟩ = .ok true :=
  C17_netmatch_reflexive [⟨40, 50⟩, ⟨10, 20⟩, ⟨15, 30⟩, ⟨9, 3⟩] (List.cons_ne_nil _ _) ⟨10, 30⟩
    (by decide) (by decide)

/-! ## Dotted quads with a prefix length under `scan_block` -/

theorem scan_exec_iter_error (env : ScanEnv) (s : ScanState) (e : Fault) (hp : s.p ≠ [])
    (h : scan_iter env s = .error e) : scan_exec env s = .error e := by
  unfold scan_exec
  have hm : scan_measure s ≠ 0 := by
    simp only [scan_measure]
    have : s.p.length ≠ 0 := fun h0 => hp (List.length_eq_zero.1 h0)
    omega
  obtain ⟨n, hn⟩ : ∃ n, scan_measure s = n + 1 := ⟨scan_measure s - 1, by omega⟩
  rw [hn]
  simp only [scan_loop, hp, if_false, h]

/-- A property of the state that every round of the loop keeps, unless the
round ends in a fault of the kind `Bad`, holds when the loop is left, unless
the loop ends in such a fault: the loop always ends. -/
theorem scan_exec_inv (env : ScanEnv) (Inv : ScanState → Prop) (Bad : Fault → Prop)
    (hstep : ∀ s, Inv s → s.p ≠ [] →
      (∃ s', scan_iter env s = .ok s' ∧ Inv s') ∨ (∃ e, scan_iter env s = .error e ∧ Bad e)) :
    ∀ (n : Nat) (s : ScanState), scan_measure s ≤ n → Inv s →
      (∃ s', scan_exec env s = .ok s' ∧ Inv s' ∧ s'.p = []) ∨
        (∃ e, scan_exec env s = .error e ∧ Bad e) := by
  intro n
  induction n with
  | zero =>
    intro s hm hinv
    have hp : s.p = [] := by
      simp only [scan_measure] at hm
      exact List.length_eq_zero.1 (by omega)
    exact Or.inl ⟨s, scan_exec_nil env s hp, hinv, hp⟩
  | succ n ih =>
    intro s hm hinv
    by_cases hp : s.p = []
    · exact Or.inl ⟨s, scan_exec_nil env s hp, hinv, hp⟩
    · rcases hstep s hinv hp with ⟨s', hs', hinv'⟩ | ⟨e, he, hbad⟩
      · have := scan_iter_measure env s s' hp hs'
        rw [scan_exec_iter env s s' hp hs']
        exact ih s' (by omega) hinv'
      · exact Or.inr ⟨e, scan_exec_iter_error env s e hp he, hbad⟩

theorem skip_blanks_mem (p : List Char) : ∀ (ch : Char) (line : List Char),
    (skip_blanks ch p line).1 ∈ ch :: p ∧ ∀ c ∈ (skip_blanks ch p line).2.1, c ∈ p := by
  induction p with
  | nil => intro ch line; simp [skip_blanks]
  | cons c p ih =>
    intro ch line
    simp only [skip_blanks]
    split_ifs
    · obtain ⟨h1, h2⟩ := ih c (line ++ [c])
      exact ⟨List.mem_cons_of_mem _ h1, fun x hx => List.mem_cons_of_mem _ (h2 x hx)⟩
    · exact ⟨List.mem_cons_self _ _, fun x hx => hx⟩

theorem skip_line_mem (p : List Char) : ∀ (ch : Char) (line : List Char),
    (skip_line ch p line).1 ∈ ch :: p ∧ ∀ c ∈ (skip_line ch p line).2.1, c ∈ p := by
  induction p with
  | nil => intro ch line; simp [skip_line]
  | cons c p ih =>
    intro ch line
    simp only [skip_line]
    split_ifs
    · obtain ⟨h1, h2⟩ := ih c (line ++ [c])
      exact ⟨List.mem_cons_of_mem _ h1, fun x hx => List.mem_cons_of_mem _ (h2 x hx)⟩
    · exact ⟨List.mem_cons_self _ _, fun x hx => hx⟩

/-! ## Lines without the start of an address -/

theorem isxdigit_digit {c : Char} (h : isxdigit c = false) : isdigit c = false := by
  cases hd : isdigit c
  · rfl
  · simp [isxdigit, hd] at h

/-- The code of `S_SC` on a character that starts no address, with no address
seen on the line: nothing is written, and no address has been seen. -/
theorem scan_sc_idle (env : ScanEnv) (s : ScanState) (ch : Char)
    (hx : isxdigit ch = false) (hc : ch ≠ ':') (hseen : s.seenone = false) :
    ((scan_sc env s ch).state = .S_BEG ∨
      (((scan_sc env s ch).state = .S_SC ∨ (scan_sc env s ch).state = .S_NSC ∨
        (scan_sc env s ch).state = .S_SCNL) ∧ (scan_sc env s ch).seenone = false)) ∧
    (scan_sc env s ch).p = s.p ∧ (scan_sc env s ch).out = s.out ∧
    (scan_sc env s ch).nmatch = s.nmatch := by
  have hd := isxdigit_digit hx
  simp only [scan_sc, hd, hx, hc, Bool.false_eq_true, if_false, scan_default, hseen, and_false]
  split_ifs <;> simp [hseen]

theorem scan_default_idle (env : ScanEnv) (s : ScanState) (ch : Char)
    (hseen : s.seenone = false) :
    ((scan_default env s ch).state = .S_BEG ∨
      (((scan_default env s ch).state = .S_SC ∨ (scan_default env s ch).state = .S_NSC ∨
        (scan_default env s ch).state = .S_SCNL) ∧ (scan_default env s ch).seenone = false)) ∧
    (scan_default env s ch).p = s.p ∧ (scan_default env s ch).out = s.out ∧
    (scan_default env s ch).nmatch = s.nmatch := by
  simp only [scan_default, hseen, Bool.false_eq_true, and_false, if_false]
  split_ifs <;> simp [hseen]

/-- One round of the loop from an idle state leaves an idle state and writes
nothing. -/
theorem scan_iter_idle (env : ScanEnv) (s : ScanState) (h : Idle s) (hp : s.p ≠ []) :
    ∃ s', scan_iter env s = .ok s' ∧ Idle s' ∧ s'.out = s.out ∧ s'.nmatch = s.nmatch := by
  obtain ⟨hst, hpl⟩ := h
  cases hsp : s.p with
  | nil => exact absurd hsp hp
  | cons ch rest =>
    rw [hsp] at hpl
    have hch := hpl ch (List.mem_cons_self _ _)
    have hrest : ∀ c ∈ rest, isxdigit c = false ∧ c ≠ ':' :=
      fun c hc => hpl c (List.mem_cons_of_mem _ hc)
    simp only [scan_iter, hsp]
    rcases hst with h | ⟨h | h | h, hseen⟩
    · -- S_BEG
      simp only [scan_switch, h, case_S_BEG]
      obtain ⟨m1, m2⟩ := skip_blanks_mem rest ch [ch]
      have hr := hpl _ m1
      obtain ⟨i1, i2, i3, i4⟩ := scan_sc_idle env
        { s with state := .S_BEG, p := (skip_blanks ch rest [ch]).2.1,
                 line := (skip_blanks ch rest [ch]).2.2,
                 seenone := false } (skip_blanks ch rest [ch]).1 hr.1 hr.2 rfl
      refine ⟨_, rfl, ⟨i1, ?_⟩, i3, i4⟩
      rw [i2]
      exact fun c hc => hrest c (m2 c hc)
    · -- S_SC
      simp only [scan_switch, h, case_S_SC]
      obtain ⟨i1, i2, i3, i4⟩ := scan_sc_idle env
        { s with state := .S_SC, p := rest, line := s.line ++ [ch] } ch hch.1 hch.2 hseen
      refine ⟨_, rfl, ⟨i1, ?_⟩, i3, i4⟩
      rw [i2]
      exact hrest
    · -- S_NSC
      simp only [scan_switch, h, case_S_NSC, isxdigit_digit hch.1, Bool.false_eq_true, false_or]
      by_cases hdot : ch = '.'
      · simp only [hdot, if_true]
        exact ⟨_, rfl, ⟨Or.inr ⟨Or.inr (Or.inl rfl), hseen⟩, hrest⟩, rfl, rfl⟩
      · simp only [hdot, if_false]
        obtain ⟨i1, i2, i3, i4⟩ := scan_default_idle env
          { s with p := rest, line := s.line ++ [ch], state := .S_SC } ch hseen
        refine ⟨_, rfl, ⟨i1, ?_⟩, i3, i4⟩
        rw [i2]
        exact hrest
    · -- S_SCNL
      simp only [scan_switch, h, case_S_SCNL]
      obtain ⟨m1, m2⟩ := skip_line_mem rest ch (s.line ++ [ch])
      obtain ⟨i1, i2, i3, i4⟩ := scan_default_idle env
        { s with state := .S_SCNL, p := (skip_line ch rest (s.line ++ [ch])).2.1,
                 line := (skip_line ch rest (s.line ++ [ch])).2.2 }
        (skip_line ch rest (s.line ++ [ch])).1 hseen
      refine ⟨_, rfl, ⟨i1, ?_⟩, i3, i4⟩
      rw [i2]
      exact fun c hc => hrest c (m2 c hc)

/-- A buffer without hexadecimal digits and colons: `scan_block` writes
nothing and counts nothing. -/
theorem scan_block_idle (env : ScanEnv) (bp : List Char) (nmatch : Nat)
    (h : ∀ c ∈ bp, isxdigit c = false ∧ c ≠ ':') :
    scan_block env bp nmatch = .ok ([], nmatch) := by
  have := scan_exec_inv env (fun s => Idle s ∧ s.out = [] ∧ s.nmatch = nmatch)
    (fun _ => False)
    (fun s hs hp => by
      obtain ⟨s', h1, h2, h3, h4⟩ := scan_iter_idle env s hs.1 hp
      exact Or.inl ⟨s', h1, h2, by rw [h3, hs.2.1], by rw [h4, hs.2.2]⟩)
    _ (scan_init bp nmatch) (le_refl _) ⟨⟨Or.inl rfl, h⟩, rfl, rfl⟩
  rcases this with ⟨s', hs', ⟨_, ho, hn⟩, _⟩ | ⟨e, _, hbad⟩
  · rw [scan_block_eq, hs', scan_result, ho, hn]
  · exact absurd hbad id

/-- C18: for every line ended by a newline that holds no decimal digit, no
hexadecimal letter and no colon (so no character for which `isxdigit` holds,
and no colon), and in fact for every buffer of such lines, `scan_block` writes
nothing and leaves `nmatch` unchanged, for every setting of `invert`,
`anchor`, `quick`, `cidrsearch`, `didrsearch` and the other globals and for
every pattern array, the empty ones included. -/
theorem C18_scan_block_no_address (env : ScanEnv) (xs : List Char) (nmatch : Nat)
    (h : ∀ c ∈ xs, isxdigit c = false ∧ c ≠ ':') :
    scan_block env (xs ++ ['\n']) nmatch = .ok ([], nmatch) := by
  apply scan_block_idle
  intro c hc
  rcases List.mem_append.1 hc with h1 | h1
  · exact h c h1
  · have : c = '\n' := by simpa using h1
    subst this
    exact ⟨by decide, by decide⟩

set_option maxRecDepth 100000 in
/-- C18 at the line `  xyz.. -- hijk, mnop; +rst.` in inverted mode with
`anchor`, `quick`, `cidrsearch` and `didrsearch` on. -/
theorem C18_scan_block_no_address_witness :
    scan_block ⟨false, true, true, false, true, true, true, [⟨0, 0xFFFFFFFF⟩], [], none⟩
      ("  xyz.. -- hijk, mnop; +rst.".toList ++ ['\n']) 7 = .ok ([], 7) :=
  C18_scan_block_no_address _ _ 7 (by decide)

set_option linter.unusedVariables false

/-! ## What one round of the loop of `scan_block` does to the line and the output -/

theorem mid_same {b c : List Char} {x : Char} {o : List Char} {n : Nat} {p0 : List Char}
    {s s1 : ScanState} (h : Mid b c x o n p0 s)
    (hs : s1.p = s.p ∧ s1.line = s.line ∧ s1.out = s.out ∧ s1.nmatch = s.nmatch) :
    Mid b c x o n p0 s1 := by
  obtain ⟨h1, h2, h3, h4, h5, h6⟩ := h
  obtain ⟨e1, e2, e3, e4⟩ := hs
  exact ⟨h1, h2, by rw [e2, h3], by rw [e1, h4], by rw [e3, h5], by rw [e4, h6]⟩

theorem mid_split {b c : List Char} {x : Char} {o : List Char} {n : Nat} {p0 : List Char}
    {s : ScanState} (h : Mid b c x o n p0 s) : c = c.dropLast ++ [x] := by
  obtain ⟨h1, _⟩ := h
  cases hc : c.getLast? with
  | none => rw [hc] at h1; cases h1
  | some y =>
    rw [hc] at h1
    cases h1
    have hne : c ≠ [] := by rintro rfl; simp at hc
    have := List.dropLast_append_getLast hne
    rw [List.getLast?_eq_getLast _ hne] at hc
    cases hc
    exact this.symm

theorem mid_no_nl {b c : List Char} {x : Char} {o : List Char} {n : Nat} {p0 : List Char}
    {s : ScanState} (h : Mid b c x o n p0 s) (hx : x ≠ '\n') : '\n' ∉ c := by
  rw [mid_split h]
  intro hm
  rcases List.mem_append.1 hm with h1 | h1
  · exact h.2.1 h1
  · simp at h1; exact hx h1.symm

/-- A round that ends without reading on and without the default action. -/
theorem post_keep {env : ScanEnv} {b c : List Char} {x : Char} {o : List Char} {n : Nat}
    {p0 : List Char} {s : ScanState} (h : Mid b c x o n p0 s) (hx : x ≠ '\n')
    (hst : s.state ≠ .S_BEG) : Post env b o n p0 s :=
  ⟨c, h.2.2.2.1, Or.inl ⟨mid_no_nl h hx, hst, h.2.2.1, h.2.2.2.2.1, h.2.2.2.2.2⟩⟩

/-- A round that ends in the default action. -/
theorem post_default {env : ScanEnv} {b c : List Char} {x : Char} {o : List Char} {n : Nat}
    {p0 : List Char} {s : ScanState} (h : Mid b c x o n p0 s) :
    Post env b o n p0 (scan_default env s x) := by
  obtain ⟨_, h2, h3, h4, h5, h6⟩ := id h
  refine ⟨c, by simpa using h4, ?_⟩
  by_cases hx : x = '\n'
  · right
    refine ⟨c.dropLast, by rw [← hx]; exact mid_split h, h2, by simp [scan_default, hx], ?_⟩
    simp only [scan_default, hx, if_true]
    split_ifs
    · right
      have := emit_line_out env s
      simp only [this.1, this.2, h3, h5, h6, and_self]
    · left; exact ⟨h5, h6⟩
  · left
    refine ⟨mid_no_nl h hx, ?_, ?_, ?_, ?_⟩
    · simp only [scan_default, hx, if_false]; split_ifs <;> simp
    · simp only [scan_default, hx, if_false]; exact h3
    · simp only [scan_default, hx, if_false]; exact h5
    · simp only [scan_default, hx, if_false]; exact h6

/-- What `skip_line` reads: a text whose last character is the one it
returns, with no newline before it; it stops short of a newline only at the
end of the buffer. -/
theorem skip_line_spec (p : List Char) : ∀ (x : Char) (line : List Char),
    ∃ t, p = t ++ (skip_line x p line).2.1 ∧ (skip_line x p line).2.2 = line ++ t ∧
      (x :: t).getLast? = some (skip_line x p line).1 ∧ '\n' ∉ (x :: t).dropLast ∧
      ((skip_line x p line).1 ≠ '\n' → (skip_line x p line).2.1 = []) := by
  induction p with
  | nil => intro x line; exact ⟨[], by simp [skip_line]⟩
  | cons y p ih =>
    intro x line
    by_cases hx : x = '\n'
    · exact ⟨[], by simp [skip_line, hx]⟩
    · obtain ⟨t, h1, h2, h3, h4, h5⟩ := ih y (line ++ [y])
      refine ⟨y :: t, ?_, ?_, ?_, ?_, ?_⟩
      · simp only [skip_line, hx, ne_eq, not_false_eq_true, if_true, List.cons_append]
        rw [← h1]
      · simp only [skip_line, hx, ne_eq, not_false_eq_true, if_true]
        rw [h2]; simp
      · simp only [skip_line, hx, ne_eq, not_false_eq_true, if_true]
        rw [← h3]; simp [List.getLast?_cons_cons]
      · rw [List.dropLast_cons₂]
        intro hm
        rcases List.mem_cons.1 hm with e | e
        · exact hx e.symm
        · exact h4 e
      · simpa only [skip_line, hx, ne_eq, not_false_eq_true, if_true] using h5

/-- What `skip_blanks` reads: a text whose last character is the one it
returns, with no newline before it. -/
theorem skip_blanks_spec (p : List Char) : ∀ (x : Char) (line : List Char),
    ∃ t, p = t ++ (skip_blanks x p line).2.1 ∧ (skip_blanks x p line).2.2 = line ++ t ∧
      (x :: t).getLast? = some (skip_blanks x p line).1 ∧ '\n' ∉ (x :: t).dropLast := by
  induction p with
  | nil => intro x line; exact ⟨[], by simp [skip_blanks]⟩
  | cons y p ih =>
    intro x line
    by_cases hx : x = ' ' ∨ x = '\t'
    · obtain ⟨t, h1, h2, h3, h4⟩ := ih y (line ++ [y])
      have hnl : x ≠ '\n' := by rcases hx with e | e <;> (rw [e]; decide)
      refine ⟨y :: t, ?_, ?_, ?_, ?_⟩
      · simp only [skip_blanks, hx, if_true, List.cons_append]
        rw [← h1]
      · simp only [skip_blanks, hx, if_true]
        rw [h2]; simp
      · simp only [skip_blanks, hx, if_true]
        rw [← h3]; simp [List.getLast?_cons_cons]
      · rw [List.dropLast_cons₂]
        intro hm
        rcases List.mem_cons.1 hm with e | e
        · exact hnl e.symm
        · exact h4 e
    · exact ⟨[], by simp [skip_blanks, hx]⟩

/-- Reading on within a round. -/
theorem mid_extend {b c : List Char} {x x' : Char} {o : List Char} {n : Nat} {p0 : List Char}
    {s s1 : ScanState} (t : List Char) (h : Mid b c x o n p0 s)
    (h1 : s.p = t ++ s1.p) (h2 : s1.line = s.line ++ t)
    (h3 : (x :: t).getLast? = some x') (h4 : '\n' ∉ (x :: t).dropLast)
    (h5 : s1.out = s.out) (h6 : s1.nmatch = s.nmatch) :
    Mid b (c ++ t) x' o n p0 s1 := by
  have hc := mid_split h
  obtain ⟨_, m2, m3, m4, m5, m6⟩ := h
  have e : c ++ t = c.dropLast ++ (x :: t) := by
    conv_lhs => rw [hc]
    simp
  refine ⟨?_, ?_, ?_, ?_, by rw [h5, m5], by rw [h6, m6]⟩
  · rw [e, List.getLast?_append, h3]; rfl
  · rw [e, List.dropLast_append_of_ne_nil _ (List.cons_ne_nil _ _)]
    intro hm
    rcases List.mem_append.1 hm with e1 | e1
    · exact m2 e1
    · exact h4 e1
  · rw [h2, m3]; simp
  · rw [m4, h1]; simp
/-- A round that ends at a newline, at the beginning of the next line. -/
theorem post_newline {env : ScanEnv} {b c : List Char} {o : List Char} {n : Nat}
    {p0 : List Char} {s s' : ScanState} (h : Mid b c '\n' o n p0 s) (hp : s'.p = s.p)
    (hst : s'.state = .S_BEG)
    (ho : (s'.out = o ∧ s'.nmatch = n) ∨
      (s'.out = o ++ printed env (b ++ c) ∧ s'.nmatch = n + 1)) :
    Post env b o n p0 s' :=
  ⟨c, by rw [hp]; exact h.2.2.2.1, Or.inr ⟨c.dropLast, mid_split h, h.2.1, hst, ho⟩⟩

/-- A round that ends at the label `scnlp`. -/
theorem post_scnlp {env : ScanEnv} {b c : List Char} {x : Char} {o : List Char} {n : Nat}
    {p0 : List Char} {s : ScanState} (h : Mid b c x o n p0 s) (hst : s.state ≠ .S_BEG) :
    Post env b o n p0 (scan_scnlp env s x) := by
  obtain ⟨t, h1, h2, h3, h4, _⟩ := skip_line_spec s.p x s.line
  have hm : Mid b (c ++ t) (skip_line x s.p s.line).1 o n p0
      { s with p := (skip_line x s.p s.line).2.1, line := (skip_line x s.p s.line).2.2 } :=
    mid_extend t h h1 h2 h3 h4 rfl rfl
  by_cases hx : (skip_line x s.p s.line).1 = '\n'
  · rw [hx] at hm
    apply post_newline hm
    · simp only [scan_scnlp, hx, if_true]; split_ifs <;> rfl
    · simp only [scan_scnlp, hx, if_true]
    · simp only [scan_scnlp, hx, if_true]
      split_ifs
      · left; exact ⟨hm.2.2.2.2.1, hm.2.2.2.2.2⟩
      · right
        have := emit_line_out env
          { s with p := (skip_line x s.p s.line).2.1, line := (skip_line x s.p s.line).2.2 }
        have hl : (skip_line x s.p s.line).2.2 = b ++ (c ++ t) := hm.2.2.1
        have ho : s.out = o := hm.2.2.2.2.1
        have hn : s.nmatch = n := hm.2.2.2.2.2
        rw [this.1, this.2]
        exact ⟨by show s.out ++ printed env (skip_line x s.p s.line).2.2 = _; rw [ho, hl],
          by show s.nmatch + 1 = _; rw [hn]⟩
  · have : scan_scnlp env s x =
        { s with p := (skip_line x s.p s.line).2.1, line := (skip_line x s.p s.line).2.2 } := by
      simp only [scan_scnlp, hx, if_false]
    rw [this]
    exact post_keep hm hx hst

theorem post_try6 {env : ScanEnv} {b c : List Char} {x : Char} {o : List Char} {n : Nat}
    {p0 : List Char} {s s' : ScanState} {r : netspec6} (h : scan_try6 env s x r = .ok s')
    (hm : Mid b c x o n p0 s) : Post env b o n p0 s' := by
  unfold scan_try6 at h
  split at h
  · cases h
  · cases h; exact post_default (mid_same hm ⟨rfl, rfl, rfl, rfl⟩)
  · cases h; exact post_scnlp (mid_same hm ⟨rfl, rfl, rfl, rfl⟩) (by simp)

theorem post_try4 {env : ScanEnv} {b c : List Char} {x : Char} {o : List Char} {n : Nat}
    {p0 : List Char} {s s' : ScanState} {r : netspec} (h : scan_try4 env s x r = .ok s')
    (hm : Mid b c x o n p0 s) : Post env b o n p0 s' := by
  unfold scan_try4 at h
  split at h
  · cases h
  · cases h; exact post_default hm
  · cases h; exact post_scnlp (mid_same hm ⟨rfl, rfl, rfl, rfl⟩) (by simp)

theorem isxdigit_nl {c : Char} (h : isxdigit c = true) : c ≠ '\n' := by
  rintro rfl
  revert h
  decide

theorem isdigit_nl {c : Char} (h : isdigit c = true) : c ≠ '\n' := (isdigit_scan h).2.2.2.1

theorem succ_ne_beg (st : sscan) : st.succ ≠ .S_BEG := by
  cases st <;> decide

theorem post_sc {env : ScanEnv} {b c : List Char} {x : Char} {o : List Char} {n : Nat}
    {p0 : List Char} {s : ScanState} (hm : Mid b c x o n p0 s) :
    Post env b o n p0 (scan_sc env s x) := by
  unfold scan_sc
  split_ifs with h1 h2 h3 h4
  · exact post_keep (mid_same hm ⟨rfl, rfl, rfl, rfl⟩) (isdigit_nl h1) (by simp)
  · exact post_keep (mid_same hm ⟨rfl, rfl, rfl, rfl⟩) (isxdigit_nl h2) (by simp)
  · exact post_keep (mid_same hm ⟨rfl, rfl, rfl, rfl⟩) (by rw [h3]; decide) (by simp)
  · exact post_keep (mid_same hm ⟨rfl, rfl, rfl, rfl⟩) (by rw [h4.2]; decide) (by simp)
  · exact post_default hm

theorem post_ip23 {env : ScanEnv} {b c : List Char} {x : Char} {o : List Char} {n : Nat}
    {p0 : List Char} {s : ScanState} (hm : Mid b c x o n p0 s) (hst : s.state ≠ .S_BEG) :
    Post env b o n p0 (scan_ip23 env s x) := by
  unfold scan_ip23
  split_ifs with h1 h2 h3
  · exact post_keep (mid_same hm ⟨rfl, rfl, rfl, rfl⟩) (isdigit_nl h1) hst
  · exact post_default hm
  · exact post_keep (mid_same hm ⟨rfl, rfl, rfl, rfl⟩) (by rw [h2]; decide) (succ_ne_beg _)
  · exact post_default hm
theorem case_S_SC_post {env : ScanEnv} {b c : List Char} {x : Char} {o : List Char}
    {n : Nat} {p0 : List Char} {s s' : ScanState} (h : case_S_SC env s x = .ok s')
    (hnb : s.state ≠ .S_BEG) (hm : Mid b c x o n p0 s) : Post env b o n p0 s' := by
  unfold case_S_SC at h
  try dsimp only at h
  try split_ifs at h
  all_goals first
    | (cases h; exact post_default (mid_same hm ⟨rfl, rfl, rfl, rfl⟩))
    | (cases h; exact post_scnlp (mid_same hm ⟨rfl, rfl, rfl, rfl⟩)
        (by first | exact hnb | (simp; done)))
    | (cases h; exact post_sc (mid_same hm ⟨rfl, rfl, rfl, rfl⟩))
    | (cases h; exact post_ip23 (mid_same hm ⟨rfl, rfl, rfl, rfl⟩) hnb)
    | (exact post_try6 h (mid_same hm ⟨rfl, rfl, rfl, rfl⟩))
    | (exact post_try4 h (mid_same hm ⟨rfl, rfl, rfl, rfl⟩))
    | (cases h; exact post_keep (mid_same hm ⟨rfl, rfl, rfl, rfl⟩)
        (by first
          | exact isdigit_nl (by assumption)
          | exact isxdigit_nl (by assumption)
          | (rintro rfl; simp [isdigit, isxdigit] at *; done))
        (by first | exact hnb | exact succ_ne_beg _ | (simp; done)))

theorem case_S_NSC_post {env : ScanEnv} {b c : List Char} {x : Char} {o : List Char}
    {n : Nat} {p0 : List Char} {s s' : ScanState} (h : case_S_NSC env s x = .ok s')
    (hnb : s.state ≠ .S_BEG) (hm : Mid b c x o n p0 s) : Post env b o n p0 s' := by
  unfold case_S_NSC at h
  try dsimp only at h
  try split_ifs at h
  all_goals first
    | (cases h; exact post_default (mid_same hm ⟨rfl, rfl, rfl, rfl⟩))
    | (cases h; exact post_scnlp (mid_same hm ⟨rfl, rfl, rfl, rfl⟩)
        (by first | exact hnb | (simp; done)))
    | (cases h; exact post_sc (mid_same hm ⟨rfl, rfl, rfl, rfl⟩))
    | (cases h; exact post_ip23 (mid_same hm ⟨rfl, rfl, rfl, rfl⟩) hnb)
    | (exact post_try6 h (mid_same hm ⟨rfl, rfl, rfl, rfl⟩))
    | (exact post_try4 h (mid_same hm ⟨rfl, rfl, rfl, rfl⟩))
    | (cases h; exact post_keep (mid_same hm ⟨rfl, rfl, rfl, rfl⟩)
        (by first
          | exact isdigit_nl (by assumption)
          | exact isxdigit_nl (by assumption)
          | (rintro rfl; simp [isdigit, isxdigit] at *; done))
        (by first | exact hnb | exact succ_ne_beg _ | (simp; done)))

theorem case_S_HCH_post {env : ScanEnv} {b c : List Char} {x : Char} {o : List Char}
    {n : Nat} {p0 : List Char} {s s' : ScanState} (h : case_S_HCH env s x = .ok s')
    (hnb : s.state ≠ .S_BEG) (hm : Mid b c x o n p0 s) : Post env b o n p0 s' := by
  unfold case_S_HCH at h
  try dsimp only at h
  try split_ifs at h
  all_goals first
    | (cases h; exact post_default (mid_same hm ⟨rfl, rfl, rfl, rfl⟩))
    | (cases h; exact post_scnlp (mid_same hm ⟨rfl, rfl, rfl, rfl⟩)
        (by first | exact hnb | (simp; done)))
    | (cases h; exact post_sc (mid_same hm ⟨rfl, rfl, rfl, rfl⟩))
    | (cases h; exact post_ip23 (mid_same hm ⟨rfl, rfl, rfl, rfl⟩) hnb)
    | (exact post_try6 h (mid_same hm ⟨rfl, rfl, rfl, rfl⟩))
    | (exact post_try4 h (mid_same hm ⟨rfl, rfl, rfl, rfl⟩))
    | (cases h; exact post_keep (mid_same hm ⟨rfl, rfl, rfl, rfl⟩)
        (by first
          | exact isdigit_nl (by assumption)
          | exact isxdigit_nl (by assumption)
          | (rintro rfl; simp [isdigit, isxdigit] at *; done))
        (by first | exact hnb | exact succ_ne_beg _ | (simp; done)))

theorem case_S_HC1_post {env : ScanEnv} {b c : List Char} {x : Char} {o : List Char}
    {n : Nat} {p0 : List Char} {s s' : ScanState} (h : case_S_HC1 env s x = .ok s')
    (hnb : s.state ≠ .S_BEG) (hm : Mid b c x o n p0 s) : Post env b o n p0 s' := by
  unfold case_S_HC1 at h
  try dsimp only at h
  try split_ifs at h
  all_goals first
    | (cases h; exact post_default (mid_same hm ⟨rfl, rfl, rfl, rfl⟩))
    | (cases h; exact post_scnlp (mid_same hm ⟨rfl, rfl, rfl, rfl⟩)
        (by first | exact hnb | (simp; done)))
    | (cases h; exact post_sc (mid_same hm ⟨rfl, rfl, rfl, rfl⟩))
    | (cases h; exact post_ip23 (mid_same hm ⟨rfl, rfl, rfl, rfl⟩) hnb)
    | (exact post_try6 h (mid_same hm ⟨rfl, rfl, rfl, rfl⟩))
    | (exact post_try4 h (mid_same hm ⟨rfl, rfl, rfl, rfl⟩))
    | (cases h; exact post_keep (mid_same hm ⟨rfl, rfl, rfl, rfl⟩)
        (by first
          | exact isdigit_nl (by assumption)
          | exact isxdigit_nl (by assumption)
          | (rintro rfl; simp [isdigit, isxdigit] at *; done))
        (by first | exact hnb | exact succ_ne_beg _ | (simp; done)))

theorem case_S_HC2_post {env : ScanEnv} {b c : List Char} {x : Char} {o : List Char}
    {n : Nat} {p0 : List Char} {s s' : ScanState} (h : case_S_HC2 env s x = .ok s')
    (hnb : s.state ≠ .S_BEG) (hm : Mid b c x o n p0 s) : Post env b o n p0 s' := by
  unfold case_S_HC2 at h
  try dsimp only at h
  try split_ifs at h
  all_goals first
    | (cases h; exact post_default (mid_same hm ⟨rfl, rfl, rfl, rfl⟩))
    | (cases h; exact post_scnlp (mid_same hm ⟨rfl, rfl, rfl, rfl⟩)
        (by first | exact hnb | (simp; done)))
    | (cases h; exact post_sc (mid_same hm ⟨rfl, rfl, rfl, rfl⟩))
    | (cases h; exact post_ip23 (mid_same hm ⟨rfl, rfl, rfl, rfl⟩) hnb)
    | (exact post_try6 h (mid_same hm ⟨rfl, rfl, rfl, rfl⟩))
    | (exact post_try4 h (mid_same hm ⟨rfl, rfl, rfl, rfl⟩))
    | (cases h; exact post_keep (mid_same hm ⟨rfl, rfl, rfl, rfl⟩)
        (by first
          | exact isdigit_nl (by assumption)
          | exact isxdigit_nl (by assumption)
          | (rintro rfl; simp [isdigit, isxdigit] at *; done))
        (by first | exact hnb | exact succ_ne_beg _ | (simp; done)))

theorem case_S_V6SZ_post {env : ScanEnv} {b c : List Char} {x : Char} {o : List Char}
    {n : Nat} {p0 : List Char} {s s' : ScanState} (h : case_S_V6SZ env s x = .ok s')
    (hnb : s.state ≠ .S_BEG) (hm : Mid b c x o n p0 s) : Post env b o n p0 s' := by
  unfold case_S_V6SZ at h
  dsimp only at h
  split_ifs at h
  all_goals first
    | (cases h; exact post_default (mid_same hm ⟨rfl, rfl, rfl, rfl⟩))
    | (cases h; exact post_scnlp (mid_same hm ⟨rfl, rfl, rfl, rfl⟩)
        (by first | exact hnb | (simp; done)))
    | (cases h; exact post_sc (mid_same hm ⟨rfl, rfl, rfl, rfl⟩))
    | (cases h; exact post_ip23 (mid_same hm ⟨rfl, rfl, rfl, rfl⟩) hnb)
    | (exact post_try6 h (mid_same hm ⟨rfl, rfl, rfl, rfl⟩))
    | (exact post_try4 h (mid_same hm ⟨rfl, rfl, rfl, rfl⟩))
    | (cases h; exact post_keep (mid_same hm ⟨rfl, rfl, rfl, rfl⟩)
        (by first
          | exact isdigit_nl (by assumption)
          | exact isxdigit_nl (by assumption)
          | (rintro rfl; simp [isdigit, isxdigit] at *; done))
        (by first | exact hnb | exact succ_ne_beg _ | (simp; done)))
    | (split at h
       all_goals first
         | (cases h; done)
         | (cases h; exact post_default (mid_same hm ⟨rfl, rfl, rfl, rfl⟩))
         | (cases h; exact post_scnlp (mid_same hm ⟨rfl, rfl, rfl, rfl⟩)
             (by first | exact hnb | (simp; done)))
         | (cases h; exact post_sc (mid_same hm ⟨rfl, rfl, rfl, rfl⟩))
         | (cases h; exact post_ip23 (mid_same hm ⟨rfl, rfl, rfl, rfl⟩) hnb)
         | (exact post_try6 h (mid_same hm ⟨rfl, rfl, rfl, rfl⟩))
         | (exact post_try4 h (mid_same hm ⟨rfl, rfl, rfl, rfl⟩))
         | (cases h; exact post_keep (mid_same hm ⟨rfl, rfl, rfl, rfl⟩)
             (by first
                    | exact isdigit_nl (by assumption)
                    | exact isxdigit_nl (by assumption)
                    | (rintro rfl; simp [isdigit, isxdigit] at *; done))
             (by first | exact hnb | exact succ_ne_beg _ | (simp; done)))
)

theorem case_S_LCH_post {env : ScanEnv} {b c : List Char} {x : Char} {o : List Char}
    {n : Nat} {p0 : List Char} {s s' : ScanState} (h : case_S_LCH env s x = .ok s')
    (hnb : s.state ≠ .S_BEG) (hm : Mid b c x o n p0 s) : Post env b o n p0 s' := by
  unfold case_S_LCH at h
  try dsimp only at h
  try split_ifs at h
  all_goals first
    | (cases h; exact post_default (mid_same hm ⟨rfl, rfl, rfl, rfl⟩))
    | (cases h; exact post_scnlp (mid_same hm ⟨rfl, rfl, rfl, rfl⟩)
        (by first | exact hnb | (simp; done)))
    | (cases h; exact post_sc (mid_same hm ⟨rfl, rfl, rfl, rfl⟩))
    | (cases h; exact post_ip23 (mid_same hm ⟨rfl, rfl, rfl, rfl⟩) hnb)
    | (exact post_try6 h (mid_same hm ⟨rfl, rfl, rfl, rfl⟩))
    | (exact post_try4 h (mid_same hm ⟨rfl, rfl, rfl, rfl⟩))
    | (cases h; exact post_keep (mid_same hm ⟨rfl, rfl, rfl, rfl⟩)
        (by first
          | exact isdigit_nl (by assumption)
          | exact isxdigit_nl (by assumption)
          | (rintro rfl; simp [isdigit, isxdigit] at *; done))
        (by first | exact hnb | exact succ_ne_beg _ | (simp; done)))

theorem case_S_LC1_post {env : ScanEnv} {b c : List Char} {x : Char} {o : List Char}
    {n : Nat} {p0 : List Char} {s s' : ScanState} (h : case_S_LC1 env s x = .ok s')
    (hnb : s.state ≠ .S_BEG) (hm : Mid b c x o n p0 s) : Post env b o n p0 s' := by
  unfold case_S_LC1 at h
  try dsimp only at h
  try split_ifs at h
  all_goals first
    | (cases h; exact post_default (mid_same hm ⟨rfl, rfl, rfl, rfl⟩))
    | (cases h; exact post_scnlp (mid_same hm ⟨rfl, rfl, rfl, rfl⟩)
        (by first | exact hnb | (simp; done)))
    | (cases h; exact post_sc (mid_same hm ⟨rfl, rfl, rfl, rfl⟩))
    | (cases h; exact post_ip23 (mid_same hm ⟨rfl, rfl, rfl, rfl⟩) hnb)
    | (exact post_try6 h (mid_same hm ⟨rfl, rfl, rfl, rfl⟩))
    | (exact post_try4 h (mid_same hm ⟨rfl, rfl, rfl, rfl⟩))
    | (cases h; exact post_keep (mid_same hm ⟨rfl, rfl, rfl, rfl⟩)
        (by first
          | exact isdigit_nl (by assumption)
          | exact isxdigit_nl (by assumption)
          | (rintro rfl; simp [isdigit, isxdigit] at *; done))
        (by first | exact hnb | exact succ_ne_beg _ | (simp; done)))

theorem case_S_IP1_post {env : ScanEnv} {b c : List Char} {x : Char} {o : List Char}
    {n : Nat} {p0 : List Char} {s s' : ScanState} (h : case_S_IP1 env s x = .ok s')
    (hnb : s.state ≠ .S_BEG) (hm : Mid b c x o n p0 s) : Post env b o n p0 s' := by
  unfold case_S_IP1 at h
  try dsimp only at h
  try split_ifs at h
  all_goals first
    | (cases h; exact post_default (mid_same hm ⟨rfl, rfl, rfl, rfl⟩))
    | (cases h; exact post_scnlp (mid_same hm ⟨rfl, rfl, rfl, rfl⟩)
        (by first | exact hnb | (simp; done)))
    | (cases h; exact post_sc (mid_same hm ⟨rfl, rfl, rfl, rfl⟩))
    | (cases h; exact post_ip23 (mid_same hm ⟨rfl, rfl, rfl, rfl⟩) hnb)
    | (exact post_try6 h (mid_same hm ⟨rfl, rfl, rfl, rfl⟩))
    | (exact post_try4 h (mid_same hm ⟨rfl, rfl, rfl, rfl⟩))
    | (cases h; exact post_keep (mid_same hm ⟨rfl, rfl, rfl, rfl⟩)
        (by first
          | exact isdigit_nl (by assumption)
          | exact isxdigit_nl (by assumption)
          | (rintro rfl; simp [isdigit, isxdigit] at *; done))
        (by first | exact hnb | exact succ_ne_beg _ | (simp; done)))

theorem case_S_IP2_post {env : ScanEnv} {b c : List Char} {x : Char} {o : List Char}
    {n : Nat} {p0 : List Char} {s s' : ScanState} (h : case_S_IP2 env s x = .ok s')
    (hnb : s.state ≠ .S_BEG) (hm : Mid b c x o n p0 s) : Post env b o n p0 s' := by
  unfold case_S_IP2 at h
  try dsimp only at h
  try split_ifs at h
  all_goals first
    | (cases h; exact post_default (mid_same hm ⟨rfl, rfl, rfl, rfl⟩))
    | (cases h; exact post_scnlp (mid_same hm ⟨rfl, rfl, rfl, rfl⟩)
        (by first | exact hnb | (simp; done)))
    | (cases h; exact post_sc (mid_same hm ⟨rfl, rfl, rfl, rfl⟩))
    | (cases h; exact post_ip23 (mid_same hm ⟨rfl, rfl, rfl, rfl⟩) hnb)
    | (exact post_try6 h (mid_same hm ⟨rfl, rfl, rfl, rfl⟩))
    | (exact post_try4 h (mid_same hm ⟨rfl, rfl, rfl, rfl⟩))
    | (cases h; exact post_keep (mid_same hm ⟨rfl, rfl, rfl, rfl⟩)
        (by first
          | exact isdigit_nl (by assumption)
          | exact isxdigit_nl (by assumption)
          | (rintro rfl; simp [isdigit, isxdigit] at *; done))
        (by first | exact hnb | exact succ_ne_beg _ | (simp; done)))

theorem case_S_IP1D_post {env : ScanEnv} {b c : List Char} {x : Char} {o : List Char}
    {n : Nat} {p0 : List Char} {s s' : ScanState} (h : case_S_IP1D env s x = .ok s')
    (hnb : s.state ≠ .S_BEG) (hm : Mid b c x o n p0 s) : Post env b o n p0 s' := by
  unfold case_S_IP1D at h
  try dsimp only at h
  try split_ifs at h
  all_goals first
    | (cases h; exact post_default (mid_same hm ⟨rfl, rfl, rfl, rfl⟩))
    | (cases h; exact post_scnlp (mid_same hm ⟨rfl, rfl, rfl, rfl⟩)
        (by first | exact hnb | (simp; done)))
    | (cases h; exact post_sc (mid_same hm ⟨rfl, rfl, rfl, rfl⟩))
    | (cases h; exact post_ip23 (mid_same hm ⟨rfl, rfl, rfl, rfl⟩) hnb)
    | (exact post_try6 h (mid_same hm ⟨rfl, rfl, rfl, rfl⟩))
    | (exact post_try4 h (mid_same hm ⟨rfl, rfl, rfl, rfl⟩))
    | (cases h; exact post_keep (mid_same hm ⟨rfl, rfl, rfl, rfl⟩)
        (by first
          | exact isdigit_nl (by assumption)
          | exact isxdigit_nl (by assumption)
          | (rintro rfl; simp [isdigit, isxdigit] at *; done))
        (by first | exact hnb | exact succ_ne_beg _ | (simp; done)))

theorem case_S_IP4_post {env : ScanEnv} {b c : List Char} {x : Char} {o : List Char}
    {n : Nat} {p0 : List Char} {s s' : ScanState} (h : case_S_IP4 env s x = .ok s')
    (hnb : s.state ≠ .S_BEG) (hm : Mid b c x o n p0 s) : Post env b o n p0 s' := by
  unfold case_S_IP4 at h
  try dsimp only at h
  try split_ifs at h
  all_goals first
    | (cases h; exact post_default (mid_same hm ⟨rfl, rfl, rfl, rfl⟩))
    | (cases h; exact post_scnlp (mid_same hm ⟨rfl, rfl, rfl, rfl⟩)
        (by first | exact hnb | (simp; done)))
    | (cases h; exact post_sc (mid_same hm ⟨rfl, rfl, rfl, rfl⟩))
    | (cases h; exact post_ip23 (mid_same hm ⟨rfl, rfl, rfl, rfl⟩) hnb)
    | (exact post_try6 h (mid_same hm ⟨rfl, rfl, rfl, rfl⟩))
    | (exact post_try4 h (mid_same hm ⟨rfl, rfl, rfl, rfl⟩))
    | (cases h; exact post_keep (mid_same hm ⟨rfl, rfl, rfl, rfl⟩)
        (by first
          | exact isdigit_nl (by assumption)
          | exact isxdigit_nl (by assumption)
          | (rintro rfl; simp [isdigit, isxdigit] at *; done))
        (by first | exact hnb | exact succ_ne_beg _ | (simp; done)))

theorem case_S_V4SZ_post {env : ScanEnv} {b c : List Char} {x : Char} {o : List Char}
    {n : Nat} {p0 : List Char} {s s' : ScanState} (h : case_S_V4SZ env s x = .ok s')
    (hnb : s.state ≠ .S_BEG) (hm : Mid b c x o n p0 s) : Post env b o n p0 s' := by
  unfold case_S_V4SZ at h
  try dsimp only at h
  try split_ifs at h
  all_goals first
    | (cases h; exact post_default (mid_same hm ⟨rfl, rfl, rfl, rfl⟩))
    | (cases h; exact post_scnlp (mid_same hm ⟨rfl, rfl, rfl, rfl⟩)
        (by first | exact hnb | (simp; done)))
    | (cases h; exact post_sc (mid_same hm ⟨rfl, rfl, rfl, rfl⟩))
    | (cases h; exact post_ip23 (mid_same hm ⟨rfl, rfl, rfl, rfl⟩) hnb)
    | (exact post_try6 h (mid_same hm ⟨rfl, rfl, rfl, rfl⟩))
    | (exact post_try4 h (mid_same hm ⟨rfl, rfl, rfl, rfl⟩))
    | (cases h; exact post_keep (mid_same hm ⟨rfl, rfl, rfl, rfl⟩)
        (by first
          | exact isdigit_nl (by assumption)
          | exact isxdigit_nl (by assumption)
          | (rintro rfl; simp [isdigit, isxdigit] at *; done))
        (by first | exact hnb | exact succ_ne_beg _ | (simp; done)))

theorem case_S_EIP2_post {env : ScanEnv} {b c : List Char} {x : Char} {o : List Char}
    {n : Nat} {p0 : List Char} {s s' : ScanState} (h : case_S_EIP2 env s x = .ok s')
    (hnb : s.state ≠ .S_BEG) (hm : Mid b c x o n p0 s) : Post env b o n p0 s' := by
  unfold case_S_EIP2 at h
  try dsimp only at h
  try split_ifs at h
  all_goals first
    | (cases h; exact post_default (mid_same hm ⟨rfl, rfl, rfl, rfl⟩))
    | (cases h; exact post_scnlp (mid_same hm ⟨rfl, rfl, rfl, rfl⟩)
        (by first | exact hnb | (simp; done)))
    | (cases h; exact post_sc (mid_same hm ⟨rfl, rfl, rfl, rfl⟩))
    | (cases h; exact post_ip23 (mid_same hm ⟨rfl, rfl, rfl, rfl⟩) hnb)
    | (exact post_try6 h (mid_same hm ⟨rfl, rfl, rfl, rfl⟩))
    | (exact post_try4 h (mid_same hm ⟨rfl, rfl, rfl, rfl⟩))
    | (cases h; exact post_keep (mid_same hm ⟨rfl, rfl, rfl, rfl⟩)
        (by first
          | exact isdigit_nl (by assumption)
          | exact isxdigit_nl (by assumption)
          | (rintro rfl; simp [isdigit, isxdigit] at *; done))
        (by first | exact hnb | exact succ_ne_beg _ | (simp; done)))

theorem case_S_EIP4_post {env : ScanEnv} {b c : List Char} {x : Char} {o : List Char}
    {n : Nat} {p0 : List Char} {s s' : ScanState} (h : case_S_EIP4 env s x = .ok s')
    (hnb : s.state ≠ .S_BEG) (hm : Mid b c x o n p0 s) : Post env b o n p0 s' := by
  unfold case_S_EIP4 at h
  dsimp only at h
  split_ifs at h
  all_goals first
    | (cases h; exact post_default (mid_same hm ⟨rfl, rfl, rfl, rfl⟩))
    | (cases h; exact post_scnlp (mid_same hm ⟨rfl, rfl, rfl, rfl⟩)
        (by first | exact hnb | (simp; done)))
    | (cases h; exact post_sc (mid_same hm ⟨rfl, rfl, rfl, rfl⟩))
    | (cases h; exact post_ip23 (mid_same hm ⟨rfl, rfl, rfl, rfl⟩) hnb)
    | (exact post_try6 h (mid_same hm ⟨rfl, rfl, rfl, rfl⟩))
    | (exact post_try4 h (mid_same hm ⟨rfl, rfl, rfl, rfl⟩))
    | (cases h; exact post_keep (mid_same hm ⟨rfl, rfl, rfl, rfl⟩)
        (by first
          | exact isdigit_nl (by assumption)
          | exact isxdigit_nl (by assumption)
          | (rintro rfl; simp [isdigit, isxdigit] at *; done))
        (by first | exact hnb | exact succ_ne_beg _ | (simp; done)))
    | (split at h
       all_goals first
         | (cases h; done)
         | (cases h; exact post_default (mid_same hm ⟨rfl, rfl, rfl, rfl⟩))
         | (cases h; exact post_scnlp (mid_same hm ⟨rfl, rfl, rfl, rfl⟩)
             (by first | exact hnb | (simp; done)))
         | (cases h; exact post_sc (mid_same hm ⟨rfl, rfl, rfl, rfl⟩))
         | (cases h; exact post_ip23 (mid_same hm ⟨rfl, rfl, rfl, rfl⟩) hnb)
         | (exact post_try6 h (mid_same hm ⟨rfl, rfl, rfl, rfl⟩))
         | (exact post_try4 h (mid_same hm ⟨rfl, rfl, rfl, rfl⟩))
         | (cases h; exact post_keep (mid_same hm ⟨rfl, rfl, rfl, rfl⟩)
             (by first
                    | exact isdigit_nl (by assumption)
                    | exact isxdigit_nl (by assumption)
                    | (rintro rfl; simp [isdigit, isxdigit] at *; done))
             (by first | exact hnb | exact succ_ne_beg _ | (simp; done)))
)

theorem case_S_SCNLP_post {env : ScanEnv} {b c : List Char} {x : Char} {o : List Char}
    {n : Nat} {p0 : List Char} {s s' : ScanState} (h : case_S_SCNLP env s x = .ok s')
    (hnb : s.state ≠ .S_BEG) (hm : Mid b c x o n p0 s) : Post env b o n p0 s' := by
  unfold case_S_SCNLP at h
  try dsimp only at h
  try split_ifs at h
  all_goals first
    | (cases h; exact post_default (mid_same hm ⟨rfl, rfl, rfl, rfl⟩))
    | (cases h; exact post_scnlp (mid_same hm ⟨rfl, rfl, rfl, rfl⟩)
        (by first | exact hnb | (simp; done)))
    | (cases h; exact post_sc (mid_same hm ⟨rfl, rfl, rfl, rfl⟩))
    | (cases h; exact post_ip23 (mid_same hm ⟨rfl, rfl, rfl, rfl⟩) hnb)
    | (exact post_try6 h (mid_same hm ⟨rfl, rfl, rfl, rfl⟩))
    | (exact post_try4 h (mid_same hm ⟨rfl, rfl, rfl, rfl⟩))
    | (cases h; exact post_keep (mid_same hm ⟨rfl, rfl, rfl, rfl⟩)
        (by first
          | exact isdigit_nl (by assumption)
          | exact isxdigit_nl (by assumption)
          | (rintro rfl; simp [isdigit, isxdigit] at *; done))
        (by first | exact hnb | exact succ_ne_beg _ | (simp; done)))

theorem case_S_SCNL_post {env : ScanEnv} {b c : List Char} {x : Char} {o : List Char}
    {n : Nat} {p0 : List Char} {s s' : ScanState} (h : case_S_SCNL env s x = .ok s')
    (hm : Mid b c x o n p0 s) : Post env b o n p0 s' := by
  unfold case_S_SCNL at h
  cases h
  obtain ⟨t, h1, h2, h3, h4, _⟩ := skip_line_spec s.p x s.line
  exact post_default (mid_extend t hm h1 h2 h3 h4 rfl rfl)

theorem case_S_BEG_post {env : ScanEnv} {x : Char} {s s' : ScanState}
    (h : case_S_BEG env s x = .ok s') : Post env [] s.out s.nmatch (x :: s.p) s' := by
  unfold case_S_BEG at h
  cases h
  obtain ⟨t, h1, h2, h3, h4⟩ := skip_blanks_spec s.p x [x]
  have hm : Mid [] [x] x s.out s.nmatch (x :: s.p) { s with line := [x] } :=
    ⟨rfl, by simp, rfl, rfl, rfl, rfl⟩
  exact post_sc (mid_extend t hm h1 h2 h3 h4 rfl rfl)

/-- One round of the loop, from the state before its character is read. -/
theorem scan_iter_post (env : ScanEnv) (s s' : ScanState) (hp : s.p ≠ [])
    (h : scan_iter env s = .ok s') : Post env (cur_line s) s.out s.nmatch s.p s' := by
  cases hsp : s.p with
  | nil => exact absurd hsp hp
  | cons ch rest =>
    simp only [scan_iter, hsp] at h
    unfold scan_switch at h
    cases hst : s.state <;> simp only [hst] at h
    case S_BEG => simpa [cur_line, hst] using case_S_BEG_post h
    all_goals
      have hcur : cur_line s = s.line := by simp [cur_line, hst]
      have hm : Mid s.line [ch] ch s.out s.nmatch (ch :: rest)
          { s with p := rest, line := s.line ++ [ch] } :=
        ⟨rfl, by simp, rfl, rfl, rfl, rfl⟩
      rw [hcur]
    case S_IC1 =>
      unfold case_S_IC1 at h
      split_ifs at h with hc
      · cases h
        exact post_keep (mid_same hm ⟨rfl, rfl, rfl, rfl⟩) (by rw [hc]; decide) (by simp)
      · cases h
        exact ⟨[], rfl, Or.inl ⟨by simp, by simp, by simp, rfl, rfl⟩⟩
    case S_SC => exact case_S_SC_post h (by simp) (mid_same hm ⟨rfl, rfl, rfl, rfl⟩)
    case S_NSC => exact case_S_NSC_post h (by simp) (mid_same hm ⟨rfl, rfl, rfl, rfl⟩)
    case S_HCH => exact case_S_HCH_post h (by simp) (mid_same hm ⟨rfl, rfl, rfl, rfl⟩)
    case S_HC1 => exact case_S_HC1_post h (by simp) (mid_same hm ⟨rfl, rfl, rfl, rfl⟩)
    case S_HC2 => exact case_S_HC2_post h (by simp) (mid_same hm ⟨rfl, rfl, rfl, rfl⟩)
    case S_V6SZ => exact case_S_V6SZ_post h (by simp) (mid_same hm ⟨rfl, rfl, rfl, rfl⟩)
    case S_LCH => exact case_S_LCH_post h (by simp) (mid_same hm ⟨rfl, rfl, rfl, rfl⟩)
    case S_LC1 => exact case_S_LC1_post h (by simp) (mid_same hm ⟨rfl, rfl, rfl, rfl⟩)
    case S_IP1 => exact case_S_IP1_post h (by simp) (mid_same hm ⟨rfl, rfl, rfl, rfl⟩)
    case S_IP2 => exact case_S_IP2_post h (by simp) (mid_same hm ⟨rfl, rfl, rfl, rfl⟩)
    case S_IP3 => exact case_S_IP2_post h (by simp) (mid_same hm ⟨rfl, rfl, rfl, rfl⟩)
    case S_IP1D => exact case_S_IP1D_post h (by simp) (mid_same hm ⟨rfl, rfl, rfl, rfl⟩)
    case S_IP2D => exact case_S_IP1D_post h (by simp) (mid_same hm ⟨rfl, rfl, rfl, rfl⟩)
    case S_IP3D => exact case_S_IP1D_post h (by simp) (mid_same hm ⟨rfl, rfl, rfl, rfl⟩)
    case S_EIP1D => exact case_S_IP1D_post h (by simp) (mid_same hm ⟨rfl, rfl, rfl, rfl⟩)
    case S_EIP2D => exact case_S_IP1D_post h (by simp) (mid_same hm ⟨rfl, rfl, rfl, rfl⟩)
    case S_EIP3D => exact case_S_IP1D_post h (by simp) (mid_same hm ⟨rfl, rfl, rfl, rfl⟩)
    case S_IP4 => exact case_S_IP4_post h (by simp) (mid_same hm ⟨rfl, rfl, rfl, rfl⟩)
    case S_V4SZ => exact case_S_V4SZ_post h (by simp) (mid_same hm ⟨rfl, rfl, rfl, rfl⟩)
    case S_EIP2 => exact case_S_EIP2_post h (by simp) (mid_same hm ⟨rfl, rfl, rfl, rfl⟩)
    case S_EIP3 => exact case_S_EIP2_post h (by simp) (mid_same hm ⟨rfl, rfl, rfl, rfl⟩)
    case S_EIP4 => exact case_S_EIP4_post h (by simp) (mid_same hm ⟨rfl, rfl, rfl, rfl⟩)
    case S_SCNLP => exact case_S_SCNLP_post h (by simp) (mid_same hm ⟨rfl, rfl, rfl, rfl⟩)
    case S_SCNL => exact case_S_SCNL_post h (mid_same hm ⟨rfl, rfl, rfl, rfl⟩)

/-! ## The rounds of the loop of `scan_block` end -/

theorem bsearch_ok {α : Type} (array : List α) (goLeft goRight : α → Bool) (hne : array ≠ []) :
    ∃ t : Nat, bsearch array goLeft goRight array.length 0 ((array.length : Int) - 1) 0 =
      .ok (t : Int) ∧ t < array.length := by
  have hpos : 0 < array.length := List.length_pos.2 hne
  obtain ⟨t, ht, htl, _⟩ := bsearch_spec array goLeft goRight (fun _ => False)
    (fun _ _ _ _ _ _ hQ _ => absurd hQ id) (fun _ _ _ _ _ _ hQ _ _ => absurd hQ id)
    (fun _ _ _ _ _ _ hQ _ _ => hQ)
    array.length 0 ((array.length : Int) - 1) 0 (le_refl _) (by omega) (by omega) (le_refl _)
    (by omega)
  exact ⟨t, ht, htl⟩

/-- With an IPv4 pattern `netmatch` returns. -/
theorem netmatch_ok (didr : Bool) (array : List netspec) (c : netspec) (hne : array ≠ []) :
    ∃ b, netmatch didr array c = .ok b := by
  obtain ⟨f, l, hf, hl⟩ := first_last array hne
  have hfirst : elemAt array 0 = .ok f := elemAt_nat (i := 0) hf
  by_cases h1 : c.max < f.min
  · exact ⟨false, by simp only [netmatch, hfirst, h1, if_true]⟩
  by_cases h2 : c.min > l.max
  · have hlast : elemAt array ((array.length : Int) - 1) = .ok l := by
      have hpos : 0 < array.length := List.length_pos.2 hne
      have : ((array.length : Int) - 1) = ((array.length - 1 : Nat) : Int) := by omega
      rw [this]; exact elemAt_nat hl
    exact ⟨false, by simp only [netmatch, hfirst, hlast, h1, h2, if_true, if_false]⟩
  obtain ⟨t, ht, htl⟩ := bsearch_ok array (fun t => decide (c.max < t.min))
    (fun t => decide (c.min > t.max)) hne
  rw [← netmatch_search_eq] at ht
  exact ⟨_, netmatch_eval didr array c f l hf hl h1 h2 t _ ht (List.getElem?_eq_getElem htl)⟩

/-- Without an IPv4 pattern `netmatch` reads outside its array. -/
theorem netmatch_nil (didr : Bool) (c : netspec) : netmatch didr [] c = .error .outOfBounds := by
  simp [netmatch, elemAt]

/-- With an IPv6 pattern `netmatch6` returns. -/
theorem netmatch6_ok (didr : Bool) (array6 : List netspec6) (c : netspec6)
    (hne : array6 ≠ []) : ∃ b, netmatch6 didr array6 c = .ok b := by
  obtain ⟨f, l, hf, hl⟩ := first_last array6 hne
  have hpos : 0 < array6.length := List.length_pos.2 hne
  have hfirst : elemAt array6 0 = .ok f := elemAt_nat (i := 0) hf
  have hlast : elemAt array6 ((array6.length : Int) - 1) = .ok l := by
    have : ((array6.length : Int) - 1) = ((array6.length - 1 : Nat) : Int) := by omega
    rw [this]; exact elemAt_nat hl
  obtain ⟨t, ht, htl⟩ := bsearch_ok array6 (fun t => decide (v6cmp c.min t.min < 0))
    (fun t => decide (v6cmp c.min t.max > 0)) hne
  have hq : array6[t]? = some array6[t] := List.getElem?_eq_getElem htl
  simp only [netmatch6, hfirst, hlast, netmatch6_search_eq, ht, elemAt_nat hq]
  split_ifs <;> exact ⟨_, rfl⟩

theorem applymask6_ok (a : v6addr) (size : Int) (h0 : 0 ≤ size) (h1 : size ≤ 128) :
    ∃ r, applymask6 a size = .ok r := by
  unfold applymask6
  rw [if_neg (fun h => h ⟨h0, h1⟩)]
  dsimp only
  rw [if_pos h0]
  exact ⟨_, rfl⟩

theorem runs_keep {env : ScanEnv} {s : ScanState} (h : Sane env s) : Runs env (.ok s) :=
  Or.inl ⟨s, rfl, h⟩

theorem runs_default (env : ScanEnv) (s : ScanState) (ch : Char) :
    Runs env (.ok (scan_default env s ch)) := by
  apply runs_keep
  unfold scan_default Sane
  split_ifs <;> simp

theorem runs_scnlp (env : ScanEnv) (s : ScanState) (ch : Char) (hst : s.state = .S_SCNLP) :
    Runs env (.ok (scan_scnlp env s ch)) := by
  apply runs_keep
  unfold scan_scnlp Sane
  dsimp only
  by_cases hx : (skip_line ch s.p s.line).1 = '\n'
  · rw [if_pos hx]
    exact ⟨fun h => absurd h (show ¬ sscan.S_BEG = sscan.S_V6SZ by decide),
      fun h => absurd h (show ¬ sscan.S_BEG = sscan.S_V4SZ by decide)⟩
  · rw [if_neg hx]
    exact ⟨fun h => absurd (hst.symm.trans h) (show ¬ sscan.S_SCNLP = sscan.S_V6SZ by decide),
      fun h => absurd (hst.symm.trans h) (show ¬ sscan.S_SCNLP = sscan.S_V4SZ by decide)⟩

theorem runs_sc (env : ScanEnv) (s : ScanState) (ch : Char) :
    Runs env (.ok (scan_sc env s ch)) := by
  unfold scan_sc
  split_ifs
  · exact runs_keep (by simp [Sane])
  · exact runs_keep (by simp [Sane])
  · exact runs_keep (by simp [Sane])
  · exact runs_keep (by simp [Sane])
  · exact runs_default _ _ _

theorem runs_ip23 (env : ScanEnv) (s : ScanState) (ch : Char)
    (hst : s.state = .S_IP1 ∨ s.state = .S_IP2 ∨ s.state = .S_IP3) :
    Runs env (.ok (scan_ip23 env s ch)) := by
  unfold scan_ip23
  split_ifs
  · exact runs_keep (by rcases hst with h | h | h <;> simp [Sane, h])
  · exact runs_default _ _ _
  · exact runs_keep (by rcases hst with h | h | h <;> simp [Sane, h, sscan.succ])
  · exact runs_default _ _ _

theorem runs_try6 (env : ScanEnv) (s : ScanState) (ch : Char) (r : netspec6)
    (h6 : ¬ env.array6.length = 0) : Runs env (scan_try6 env s ch r) := by
  obtain ⟨b, hb⟩ := netmatch6_ok env.didrsearch env.array6 r (by simpa using h6)
  unfold scan_try6
  simp only [hb]
  cases b
  · exact runs_default _ _ _
  · exact runs_scnlp _ _ _ rfl

theorem runs_try4 (env : ScanEnv) (s : ScanState) (ch : Char) (r : netspec)
    (h4 : ¬ env.array.length = 0 ∨ env.cidrsearch = true) : Runs env (scan_try4 env s ch r) := by
  by_cases hne : env.array = []
  · right
    have hc : env.cidrsearch = true := by
      rcases h4 with h | h
      · exact absurd (by simp [hne]) h
      · exact h
    refine ⟨?_, hne, hc⟩
    unfold scan_try4
    rw [hne, netmatch_nil]
  · obtain ⟨b, hb⟩ := netmatch_ok env.didrsearch env.array r hne
    unfold scan_try4
    simp only [hb]
    cases b
    · exact runs_default _ _ _
    · exact runs_scnlp _ _ _ rfl
theorem case_S_SC_runs (env : ScanEnv) (s : ScanState) (ch : Char)
    (hst : s.state = .S_SC) (hs : Sane env s) :
    Runs env (case_S_SC env s ch) := by
  unfold case_S_SC
  try dsimp only
  try split_ifs
  all_goals first
    | exact runs_default _ _ _
    | exact runs_scnlp _ _ _ (by first | rfl | exact hst)
    | exact runs_sc _ _ _
    | exact runs_ip23 _ _ _ (by simp [hst])
    | exact runs_try6 _ _ _ _ (by assumption)
    | exact runs_try4 _ _ _ _ (by first | exact Or.inl (by assumption) | exact Or.inr (hs.2 hst))
    | (apply runs_keep
       refine ⟨fun h => ?_, fun h => ?_⟩ <;> first
         | (simp [hst, sscan.succ] at h; done)
         | (dsimp only; omega)
         | (simp; done)
         | exact hs.2 hst
         | (simp_all; done))

theorem case_S_NSC_runs (env : ScanEnv) (s : ScanState) (ch : Char)
    (hst : s.state = .S_NSC) (hs : Sane env s) :
    Runs env (case_S_NSC env s ch) := by
  unfold case_S_NSC
  try dsimp only
  try split_ifs
  all_goals first
    | exact runs_default _ _ _
    | exact runs_scnlp _ _ _ (by first | rfl | exact hst)
    | exact runs_sc _ _ _
    | exact runs_ip23 _ _ _ (by simp [hst])
    | exact runs_try6 _ _ _ _ (by assumption)
    | exact runs_try4 _ _ _ _ (by first | exact Or.inl (by assumption) | exact Or.inr (hs.2 hst))
    | (apply runs_keep
       refine ⟨fun h => ?_, fun h => ?_⟩ <;> first
         | (simp [hst, sscan.succ] at h; done)
         | (dsimp only; omega)
         | (simp; done)
         | exact hs.2 hst
         | (simp_all; done))

theorem case_S_HCH_runs (env : ScanEnv) (s : ScanState) (ch : Char)
    (hst : s.state = .S_HCH) (hs : Sane env s) :
    Runs env (case_S_HCH env s ch) := by
  unfold case_S_HCH
  try dsimp only
  try split_ifs
  all_goals first
    | exact runs_default _ _ _
    | exact runs_scnlp _ _ _ (by first | rfl | exact hst)
    | exact runs_sc _ _ _
    | exact runs_ip23 _ _ _ (by simp [hst])
    | exact runs_try6 _ _ _ _ (by assumption)
    | exact runs_try4 _ _ _ _ (by first | exact Or.inl (by assumption) | exact Or.inr (hs.2 hst))
    | (apply runs_keep
       refine ⟨fun h => ?_, fun h => ?_⟩ <;> first
         | (simp [hst, sscan.succ] at h; done)
         | (dsimp only; omega)
         | (simp; done)
         | exact hs.2 hst
         | (simp_all; done))

theorem case_S_HC1_runs (env : ScanEnv) (s : ScanState) (ch : Char)
    (hst : s.state = .S_HC1) (hs : Sane env s) :
    Runs env (case_S_HC1 env s ch) := by
  unfold case_S_HC1
  try dsimp only
  try split_ifs
  all_goals first
    | exact runs_default _ _ _
    | exact runs_scnlp _ _ _ (by first | rfl | exact hst)
    | exact runs_sc _ _ _
    | exact runs_ip23 _ _ _ (by simp [hst])
    | exact runs_try6 _ _ _ _ (by assumption)
    | exact runs_try4 _ _ _ _ (by first | exact Or.inl (by assumption) | exact Or.inr (hs.2 hst))
    | (apply runs_keep
       refine ⟨fun h => ?_, fun h => ?_⟩ <;> first
         | (simp [hst, sscan.succ] at h; done)
         | (dsimp only; omega)
         | (simp; done)
         | exact hs.2 hst
         | (simp_all; done))

theorem case_S_HC2_runs (env : ScanEnv) (s : ScanState) (ch : Char)
    (hst : s.state = .S_HC2) (hs : Sane env s) :
    Runs env (case_S_HC2 env s ch) := by
  unfold case_S_HC2
  try dsimp only
  try split_ifs
  all_goals first
    | exact runs_default _ _ _
    | exact runs_scnlp _ _ _ (by first | rfl | exact hst)
    | exact runs_sc _ _ _
    | exact runs_ip23 _ _ _ (by simp [hst])
    | exact runs_try6 _ _ _ _ (by assumption)
    | exact runs_try4 _ _ _ _ (by first | exact Or.inl (by assumption) | exact Or.inr (hs.2 hst))
    | (apply runs_keep
       refine ⟨fun h => ?_, fun h => ?_⟩ <;> first
         | (simp [hst, sscan.succ] at h; done)
         | (dsimp only; omega)
         | (simp; done)
         | exact hs.2 hst
         | (simp_all; done))

theorem case_S_LCH_runs (env : ScanEnv) (s : ScanState) (ch : Char)
    (hst : s.state = .S_LCH) (hs : Sane env s) :
    Runs env (case_S_LCH env s ch) := by
  unfold case_S_LCH
  try dsimp only
  try split_ifs
  all_goals first
    | exact runs_default _ _ _
    | exact runs_scnlp _ _ _ (by first | rfl | exact hst)
    | exact runs_sc _ _ _
    | exact runs_ip23 _ _ _ (by simp [hst])
    | exact runs_try6 _ _ _ _ (by assumption)
    | exact runs_try4 _ _ _ _ (by first | exact Or.inl (by assumption) | exact Or.inr (hs.2 hst))
    | (apply runs_keep
       refine ⟨fun h => ?_, fun h => ?_⟩ <;> first
         | (simp [hst, sscan.succ] at h; done)
         | (dsimp only; omega)
         | (simp; done)
         | exact hs.2 hst
         | (simp_all; done))

theorem case_S_LC1_runs (env : ScanEnv) (s : ScanState) (ch : Char)
    (hst : s.state = .S_LC1) (hs : Sane env s) :
    Runs env (case_S_LC1 env s ch) := by
  unfold case_S_LC1
  try dsimp only
  try split_ifs
  all_goals first
    | exact runs_default _ _ _
    | exact runs_scnlp _ _ _ (by first | rfl | exact hst)
    | exact runs_sc _ _ _
    | exact runs_ip23 _ _ _ (by simp [hst])
    | exact runs_try6 _ _ _ _ (by assumption)
    | exact runs_try4 _ _ _ _ (by first | exact Or.inl (by assumption) | exact Or.inr (hs.2 hst))
    | (apply runs_keep
       refine ⟨fun h => ?_, fun h => ?_⟩ <;> first
         | (simp [hst, sscan.succ] at h; done)
         | (dsimp only; omega)
         | (simp; done)
         | exact hs.2 hst
         | (simp_all; done))

theorem case_S_IP1_runs (env : ScanEnv) (s : ScanState) (ch : Char)
    (hst : s.state = .S_IP1) (hs : Sane env s) :
    Runs env (case_S_IP1 env s ch) := by
  unfold case_S_IP1
  try dsimp only
  try split_ifs
  all_goals first
    | exact runs_default _ _ _
    | exact runs_scnlp _ _ _ (by first | rfl | exact hst)
    | exact runs_sc _ _ _
    | exact runs_ip23 _ _ _ (by simp [hst])
    | exact runs_try6 _ _ _ _ (by assumption)
    | exact runs_try4 _ _ _ _ (by first | exact Or.inl (by assumption) | exact Or.inr (hs.2 hst))
    | (apply runs_keep
       refine ⟨fun h => ?_, fun h => ?_⟩ <;> first
         | (simp [hst, sscan.succ] at h; done)
         | (dsimp only; omega)
         | (simp; done)
         | exact hs.2 hst
         | (simp_all; done))

theorem case_S_IP2_runs (env : ScanEnv) (s : ScanState) (ch : Char)
    (hst : s.state = .S_IP2 ∨ s.state = .S_IP3) (hs : Sane env s) :
    Runs env (case_S_IP2 env s ch) := by
  rcases hst with hst | hst
  all_goals
    unfold case_S_IP2
    try dsimp only
    try split_ifs
    all_goals first
      | exact runs_default _ _ _
      | exact runs_scnlp _ _ _ (by first | rfl | exact hst)
      | exact runs_sc _ _ _
      | exact runs_ip23 _ _ _ (by simp [hst])
      | exact runs_try6 _ _ _ _ (by assumption)
      | exact runs_try4 _ _ _ _ (by first | exact Or.inl (by assumption) | exact Or.inr (hs.2 hst))
      | (apply runs_keep
         refine ⟨fun h => ?_, fun h => ?_⟩ <;> first
           | (simp [hst, sscan.succ] at h; done)
           | (dsimp only; omega)
           | (simp; done)
           | exact hs.2 hst
           | (simp_all; done))

theorem case_S_IP1D_runs (env : ScanEnv) (s : ScanState) (ch : Char)
    (hst : s.state = .S_IP1D ∨ s.state = .S_IP2D ∨ s.state = .S_IP3D ∨ s.state = .S_EIP1D ∨ s.state = .S_EIP2D ∨ s.state = .S_EIP3D) (hs : Sane env s) :
    Runs env (case_S_IP1D env s ch) := by
  rcases hst with hst | hst | hst | hst | hst | hst
  all_goals
    unfold case_S_IP1D
    try dsimp only
    try split_ifs
    all_goals first
      | exact runs_default _ _ _
      | exact runs_scnlp _ _ _ (by first | rfl | exact hst)
      | exact runs_sc _ _ _
      | exact runs_ip23 _ _ _ (by simp [hst])
      | exact runs_try6 _ _ _ _ (by assumption)
      | exact runs_try4 _ _ _ _ (by first | exact Or.inl (by assumption) | exact Or.inr (hs.2 hst))
      | (apply runs_keep
         refine ⟨fun h => ?_, fun h => ?_⟩ <;> first
           | (simp [hst, sscan.succ] at h; done)
           | (dsimp only; omega)
           | (simp; done)
           | exact hs.2 hst
           | (simp_all; done))

theorem case_S_IP4_runs (env : ScanEnv) (s : ScanState) (ch : Char)
    (hst : s.state = .S_IP4) (hs : Sane env s) :
    Runs env (case_S_IP4 env s ch) := by
  unfold case_S_IP4
  try dsimp only
  try split_ifs
  all_goals first
    | exact runs_default _ _ _
    | exact runs_scnlp _ _ _ (by first | rfl | exact hst)
    | exact runs_sc _ _ _
    | exact runs_ip23 _ _ _ (by simp [hst])
    | exact runs_try6 _ _ _ _ (by assumption)
    | exact runs_try4 _ _ _ _ (by first | exact Or.inl (by assumption) | exact Or.inr (hs.2 hst))
    | (apply runs_keep
       refine ⟨fun h => ?_, fun h => ?_⟩ <;> first
         | (simp [hst, sscan.succ] at h; done)
         | (dsimp only; omega)
         | (simp; done)
         | exact hs.2 hst
         | (simp_all; done))

theorem case_S_V4SZ_runs (env : ScanEnv) (s : ScanState) (ch : Char)
    (hst : s.state = .S_V4SZ) (hs : Sane env s) :
    Runs env (case_S_V4SZ env s ch) := by
  unfold case_S_V4SZ
  try dsimp only
  try split_ifs
  all_goals first
    | exact runs_default _ _ _
    | exact runs_scnlp _ _ _ (by first | rfl | exact hst)
    | exact runs_sc _ _ _
    | exact runs_ip23 _ _ _ (by simp [hst])
    | exact runs_try6 _ _ _ _ (by assumption)
    | exact runs_try4 _ _ _ _ (by first | exact Or.inl (by assumption) | exact Or.inr (hs.2 hst))
    | (apply runs_keep
       refine ⟨fun h => ?_, fun h => ?_⟩ <;> first
         | (simp [hst, sscan.succ] at h; done)
         | (dsimp only; omega)
         | (simp; done)
         | exact hs.2 hst
         | (simp_all; done))

theorem case_S_EIP2_runs (env : ScanEnv) (s : ScanState) (ch : Char)
    (hst : s.state = .S_EIP2 ∨ s.state = .S_EIP3) (hs : Sane env s) :
    Runs env (case_S_EIP2 env s ch) := by
  rcases hst with hst | hst
  all_goals
    unfold case_S_EIP2
    try dsimp only
    try split_ifs
    all_goals first
      | exact runs_default _ _ _
      | exact runs_scnlp _ _ _ (by first | rfl | exact hst)
      | exact runs_sc _ _ _
      | exact runs_ip23 _ _ _ (by simp [hst])
      | exact runs_try6 _ _ _ _ (by assumption)
      | exact runs_try4 _ _ _ _ (by first | exact Or.inl (by assumption) | exact Or.inr (hs.2 hst))
      | (apply runs_keep
         refine ⟨fun h => ?_, fun h => ?_⟩ <;> first
           | (simp [hst, sscan.succ] at h; done)
           | (dsimp only; omega)
           | (simp; done)
           | exact hs.2 hst
           | (simp_all; done))

theorem case_S_SCNLP_runs (env : ScanEnv) (s : ScanState) (ch : Char)
    (hst : s.state = .S_SCNLP) (hs : Sane env s) :
    Runs env (case_S_SCNLP env s ch) := by
  unfold case_S_SCNLP
  try dsimp only
  try split_ifs
  all_goals first
    | exact runs_default _ _ _
    | exact runs_scnlp _ _ _ (by first | rfl | exact hst)
    | exact runs_sc _ _ _
    | exact runs_ip23 _ _ _ (by simp [hst])
    | exact runs_try6 _ _ _ _ (by assumption)
    | exact runs_try4 _ _ _ _ (by first | exact Or.inl (by assumption) | exact Or.inr (hs.2 hst))
    | (apply runs_keep
       refine ⟨fun h => ?_, fun h => ?_⟩ <;> first
         | (simp [hst, sscan.succ] at h; done)
         | (dsimp only; omega)
         | (simp; done)
         | exact hs.2 hst
         | (simp_all; done))
theorem netmatch6_ne_error {didr : Bool} {array6 : List netspec6} {c : netspec6} {e : Fault}
    (hne : ¬ array6.length = 0) : netmatch6 didr array6 c ≠ .error e := by
  intro h
  obtain ⟨b, hb⟩ := netmatch6_ok didr array6 c (by simpa using hne)
  rw [hb] at h
  cases h

theorem case_S_V6SZ_runs (env : ScanEnv) (s : ScanState) (ch : Char)
    (hst : s.state = .S_V6SZ) (hs : Sane env s) : Runs env (case_S_V6SZ env s ch) := by
  have h128 := hs.1 hst
  unfold case_S_V6SZ
  dsimp only
  by_cases hd : isdigit ch = true
  · rw [if_pos hd]
    apply runs_keep
    refine ⟨fun _ => ?_, fun h => ?_⟩
    · dsimp only; split_ifs <;> omega
    · simp [hst] at h
  · rw [if_neg hd]
    by_cases h6 : env.array6.length = 0
    · rw [if_pos h6]; exact runs_default _ _ _
    · rw [if_neg h6]
      obtain ⟨r, hr⟩ := applymask6_ok s.ahi (if s.size < 0 then 0 else s.size)
        (by split_ifs <;> omega) (by split_ifs <;> omega)
      rw [hr]
      exact runs_try6 _ _ _ _ h6

theorem case_S_EIP4_runs (env : ScanEnv) (s : ScanState) (ch : Char)
    (hst : s.state = .S_EIP4) (hs : Sane env s) : Runs env (case_S_EIP4 env s ch) := by
  unfold case_S_EIP4
  dsimp only
  split_ifs
  all_goals first
    | exact runs_default _ _ _
    | exact runs_try4 _ _ _ _ (Or.inl (by assumption))
    | (apply runs_keep
       refine ⟨fun h => ?_, fun h => ?_⟩ <;> first
         | (simp [hst, sscan.succ] at h; done)
         | (simp; done)
         | (simp_all; done))
    | (split
       all_goals first
         | exact absurd (by assumption) (netmatch6_ne_error (by assumption))
         | exact runs_default _ _ _
         | exact runs_scnlp _ _ _ rfl
         | exact runs_try4 _ _ _ _ (Or.inl (by assumption))
         | (apply runs_keep
            refine ⟨fun h => ?_, fun h => ?_⟩ <;> first
              | (simp [hst, sscan.succ] at h; done)
              | (simp; done)
              | (simp_all; done)))

/-- The `switch` ends in a state that the loop can go on from, or in the call
of `netmatch` without an IPv4 pattern. -/
theorem scan_switch_runs (env : ScanEnv) (s : ScanState) (ch : Char) (hs : Sane env s) :
    Runs env (scan_switch env s ch) := by
  unfold scan_switch
  cases hst : s.state <;> simp only
  case S_BEG => exact runs_sc _ _ _
  case S_SC => exact case_S_SC_runs env s ch hst hs
  case S_NSC => exact case_S_NSC_runs env s ch hst hs
  case S_IC1 =>
    unfold case_S_IC1
    split_ifs <;> exact runs_keep (by simp [Sane])
  case S_HCH => exact case_S_HCH_runs env s ch hst hs
  case S_HC1 => exact case_S_HC1_runs env s ch hst hs
  case S_HC2 => exact case_S_HC2_runs env s ch hst hs
  case S_V6SZ => exact case_S_V6SZ_runs env s ch hst hs
  case S_LCH => exact case_S_LCH_runs env s ch hst hs
  case S_LC1 => exact case_S_LC1_runs env s ch hst hs
  case S_IP1 => exact case_S_IP1_runs env s ch hst hs
  case S_IP2 => exact case_S_IP2_runs env s ch (Or.inl hst) hs
  case S_IP3 => exact case_S_IP2_runs env s ch (Or.inr hst) hs
  case S_IP1D => exact case_S_IP1D_runs env s ch (Or.inl hst) hs
  case S_IP2D => exact case_S_IP1D_runs env s ch (Or.inr (Or.inl hst)) hs
  case S_IP3D => exact case_S_IP1D_runs env s ch (Or.inr (Or.inr (Or.inl hst))) hs
  case S_EIP1D => exact case_S_IP1D_runs env s ch (Or.inr (Or.inr (Or.inr (Or.inl hst)))) hs
  case S_EIP2D =>
    exact case_S_IP1D_runs env s ch (Or.inr (Or.inr (Or.inr (Or.inr (Or.inl hst))))) hs
  case S_EIP3D =>
    exact case_S_IP1D_runs env s ch (Or.inr (Or.inr (Or.inr (Or.inr (Or.inr hst))))) hs
  case S_IP4 => exact case_S_IP4_runs env s ch hst hs
  case S_V4SZ => exact case_S_V4SZ_runs env s ch hst hs
  case S_EIP2 => exact case_S_EIP2_runs env s ch (Or.inl hst) hs
  case S_EIP3 => exact case_S_EIP2_runs env s ch (Or.inr hst) hs
  case S_EIP4 => exact case_S_EIP4_runs env s ch hst hs
  case S_SCNLP => exact case_S_SCNLP_runs env s ch hst hs
  case S_SCNL => exact runs_default _ _ _

theorem scan_iter_runs (env : ScanEnv) (s : ScanState) (hs : Sane env s) :
    Runs env (scan_iter env s) := by
  unfold scan_iter
  cases s.p with
  | nil => exact runs_keep hs
  | cons ch rest => exact scan_switch_runs env _ ch hs

/-! ## Counting: the same run without the output -/

theorem sim_emit (env : ScanEnv) (s1 s2 : ScanState) (h : s1 = s2.noOut) :
    emit_line env.count s1 = (emit_line env s2).noOut := by
  subst h; rfl

theorem sim_default (env : ScanEnv) (s1 s2 : ScanState) (ch : Char) (h : s1 = s2.noOut) :
    scan_default env.count s1 ch = (scan_default env s2 ch).noOut := by
  subst h
  unfold scan_default
  show (if ch = '\n' then _ else _) = _
  by_cases hc : ch = '\n'
  · rw [if_pos hc, if_pos hc]
    by_cases hi : env.invert = true ∧ s2.seenone = true
    · have hi' : env.count.invert = true ∧ s2.noOut.seenone = true := hi
      simp only [hi, hi', and_self, if_true]
      rfl
    · have hi' : ¬ (env.count.invert = true ∧ s2.noOut.seenone = true) := hi
      simp only [hi, hi', if_false]
      rfl
  · rw [if_neg hc, if_neg hc]
    rfl

theorem sim_scnlp (env : ScanEnv) (s1 s2 : ScanState) (ch : Char) (h : s1 = s2.noOut) :
    scan_scnlp env.count s1 ch = (scan_scnlp env s2 ch).noOut := by
  subst h
  unfold scan_scnlp
  show (if (skip_line ch s2.p s2.line).1 = '\n' then _ else _) = _
  by_cases hc : (skip_line ch s2.p s2.line).1 = '\n'
  · rw [if_pos hc]
    simp only [hc, if_true]
    by_cases hi : env.invert = true
    · have hi' : env.count.invert = true := hi
      simp only [hi, hi', if_true]
      rfl
    · have hi' : ¬ env.count.invert = true := hi
      simp only [hi, hi', if_false]
      rfl
  · rw [if_neg hc]
    simp only [hc, if_false]
    rfl

theorem sim_sc (env : ScanEnv) (s1 s2 : ScanState) (ch : Char) (h : s1 = s2.noOut) :
    scan_sc env.count s1 ch = (scan_sc env s2 ch).noOut := by
  subst h
  unfold scan_sc
  show (if isdigit ch = true then _ else if isxdigit ch = true then _ else if ch = ':' then _
    else if env.quick = true ∧ ch = '.' then _ else _) = _
  split_ifs
  · rfl
  · rfl
  · rfl
  · rfl
  · exact sim_default env _ _ ch rfl

theorem sim_ip23 (env : ScanEnv) (s1 s2 : ScanState) (ch : Char) (h : s1 = s2.noOut) :
    scan_ip23 env.count s1 ch = (scan_ip23 env s2 ch).noOut := by
  subst h
  unfold scan_ip23
  show (if isdigit ch = true then _ else if ch = '.' then
    (if s2.octet > 255 then _ else _) else _) = _
  split_ifs
  · rfl
  · exact sim_default env _ _ ch rfl
  · rfl
  · exact sim_default env _ _ ch rfl

theorem sim_try6 (env : ScanEnv) (s1 s2 : ScanState) (ch : Char) (r : netspec6)
    (h : s1 = s2.noOut) :
    scan_try6 env.count s1 ch r = (scan_try6 env s2 ch r).map ScanState.noOut := by
  subst h
  unfold scan_try6
  show (match netmatch6 env.didrsearch env.array6 r with
    | .error e => _ | .ok false => _ | .ok true => _) = _
  cases hn : netmatch6 env.didrsearch env.array6 r with
  | error e => rfl
  | ok b =>
    cases b
    · exact congrArg Except.ok (sim_default env _ _ ch rfl)
    · exact congrArg Except.ok (sim_scnlp env _ _ ch rfl)

theorem sim_try4 (env : ScanEnv) (s1 s2 : ScanState) (ch : Char) (r : netspec)
    (h : s1 = s2.noOut) :
    scan_try4 env.count s1 ch r = (scan_try4 env s2 ch r).map ScanState.noOut := by
  subst h
  unfold scan_try4
  show (match netmatch env.didrsearch env.array r with
    | .error e => _ | .ok false => _ | .ok true => _) = _
  cases hn : netmatch env.didrsearch env.array r with
  | error e => rfl
  | ok b =>
    cases b
    · exact congrArg Except.ok (sim_default env _ _ ch rfl)
    · exact congrArg Except.ok (sim_scnlp env _ _ ch rfl)
theorem sim_case_S_BEG (env : ScanEnv) (s : ScanState) (ch : Char) :
    case_S_BEG env.count s.noOut ch = (case_S_BEG env s ch).map ScanState.noOut := by
  unfold case_S_BEG
  dsimp only [ScanState.noOut, ScanEnv.count, push_hi, push_lo]
  try split_ifs
  all_goals first
    | rfl
    | exact congrArg Except.ok (sim_default env _ _ _ rfl)
    | exact congrArg Except.ok (sim_scnlp env _ _ _ rfl)
    | exact congrArg Except.ok (sim_sc env _ _ _ rfl)
    | exact congrArg Except.ok (sim_ip23 env _ _ _ rfl)
    | exact sim_try6 env _ _ _ _ rfl
    | exact sim_try4 env _ _ _ _ rfl

theorem sim_case_S_SC (env : ScanEnv) (s : ScanState) (ch : Char) :
    case_S_SC env.count s.noOut ch = (case_S_SC env s ch).map ScanState.noOut := by
  unfold case_S_SC
  dsimp only [ScanState.noOut, ScanEnv.count, push_hi, push_lo]
  try split_ifs
  all_goals first
    | rfl
    | exact congrArg Except.ok (sim_default env _ _ _ rfl)
    | exact congrArg Except.ok (sim_scnlp env _ _ _ rfl)
    | exact congrArg Except.ok (sim_sc env _ _ _ rfl)
    | exact congrArg Except.ok (sim_ip23 env _ _ _ rfl)
    | exact sim_try6 env _ _ _ _ rfl
    | exact sim_try4 env _ _ _ _ rfl

theorem sim_case_S_NSC (env : ScanEnv) (s : ScanState) (ch : Char) :
    case_S_NSC env.count s.noOut ch = (case_S_NSC env s ch).map ScanState.noOut := by
  unfold case_S_NSC
  dsimp only [ScanState.noOut, ScanEnv.count, push_hi, push_lo]
  try split_ifs
  all_goals first
    | rfl
    | exact congrArg Except.ok (sim_default env _ _ _ rfl)
    | exact congrArg Except.ok (sim_scnlp env _ _ _ rfl)
    | exact congrArg Except.ok (sim_sc env _ _ _ rfl)
    | exact congrArg Except.ok (sim_ip23 env _ _ _ rfl)
    | exact sim_try6 env _ _ _ _ rfl
    | exact sim_try4 env _ _ _ _ rfl

theorem sim_case_S_IC1 (env : ScanEnv) (s : ScanState) (ch : Char) :
    case_S_IC1 env.count s.noOut ch = (case_S_IC1 env s ch).map ScanState.noOut := by
  unfold case_S_IC1
  dsimp only [ScanState.noOut, ScanEnv.count, push_hi, push_lo]
  try split_ifs
  all_goals first
    | rfl
    | exact congrArg Except.ok (sim_default env _ _ _ rfl)
    | exact congrArg Except.ok (sim_scnlp env _ _ _ rfl)
    | exact congrArg Except.ok (sim_sc env _ _ _ rfl)
    | exact congrArg Except.ok (sim_ip23 env _ _ _ rfl)
    | exact sim_try6 env _ _ _ _ rfl
    | exact sim_try4 env _ _ _ _ rfl

theorem sim_case_S_HC1 (env : ScanEnv) (s : ScanState) (ch : Char) :
    case_S_HC1 env.count s.noOut ch = (case_S_HC1 env s ch).map ScanState.noOut := by
  unfold case_S_HC1
  dsimp only [ScanState.noOut, ScanEnv.count, push_hi, push_lo]
  try split_ifs
  all_goals first
    | rfl
    | exact congrArg Except.ok (sim_default env _ _ _ rfl)
    | exact congrArg Except.ok (sim_scnlp env _ _ _ rfl)
    | exact congrArg Except.ok (sim_sc env _ _ _ rfl)
    | exact congrArg Except.ok (sim_ip23 env _ _ _ rfl)
    | exact sim_try6 env _ _ _ _ rfl
    | exact sim_try4 env _ _ _ _ rfl

theorem sim_case_S_HC2 (env : ScanEnv) (s : ScanState) (ch : Char) :
    case_S_HC2 env.count s.noOut ch = (case_S_HC2 env s ch).map ScanState.noOut := by
  unfold case_S_HC2
  dsimp only [ScanState.noOut, ScanEnv.count, push_hi, push_lo]
  try split_ifs
  all_goals first
    | rfl
    | exact congrArg Except.ok (sim_default env _ _ _ rfl)
    | exact congrArg Except.ok (sim_scnlp env _ _ _ rfl)
    | exact congrArg Except.ok (sim_sc env _ _ _ rfl)
    | exact congrArg Except.ok (sim_ip23 env _ _ _ rfl)
    | exact sim_try6 env _ _ _ _ rfl
    | exact sim_try4 env _ _ _ _ rfl

theorem sim_case_S_LC1 (env : ScanEnv) (s : ScanState) (ch : Char) :
    case_S_LC1 env.count s.noOut ch = (case_S_LC1 env s ch).map ScanState.noOut := by
  unfold case_S_LC1
  dsimp only [ScanState.noOut, ScanEnv.count, push_hi, push_lo]
  try split_ifs
  all_goals first
    | rfl
    | exact congrArg Except.ok (sim_default env _ _ _ rfl)
    | exact congrArg Except.ok (sim_scnlp env _ _ _ rfl)
    | exact congrArg Except.ok (sim_sc env _ _ _ rfl)
    | exact congrArg Except.ok (sim_ip23 env _ _ _ rfl)
    | exact sim_try6 env _ _ _ _ rfl
    | exact sim_try4 env _ _ _ _ rfl

theorem sim_case_S_IP1 (env : ScanEnv) (s : ScanState) (ch : Char) :
    case_S_IP1 env.count s.noOut ch = (case_S_IP1 env s ch).map ScanState.noOut := by
  unfold case_S_IP1
  dsimp only [ScanState.noOut, ScanEnv.count, push_hi, push_lo]
  try split_ifs
  all_goals first
    | rfl
    | exact congrArg Except.ok (sim_default env _ _ _ rfl)
    | exact congrArg Except.ok (sim_scnlp env _ _ _ rfl)
    | exact congrArg Except.ok (sim_sc env _ _ _ rfl)
    | exact congrArg Except.ok (sim_ip23 env _ _ _ rfl)
    | exact sim_try6 env _ _ _ _ rfl
    | exact sim_try4 env _ _ _ _ rfl

theorem sim_case_S_IP2 (env : ScanEnv) (s : ScanState) (ch : Char) :
    case_S_IP2 env.count s.noOut ch = (case_S_IP2 env s ch).map ScanState.noOut := by
  unfold case_S_IP2
  dsimp only [ScanState.noOut, ScanEnv.count, push_hi, push_lo]
  try split_ifs
  all_goals first
    | rfl
    | exact congrArg Except.ok (sim_default env _ _ _ rfl)
    | exact congrArg Except.ok (sim_scnlp env _ _ _ rfl)
    | exact congrArg Except.ok (sim_sc env _ _ _ rfl)
    | exact congrArg Except.ok (sim_ip23 env _ _ _ rfl)
    | exact sim_try6 env _ _ _ _ rfl
    | exact sim_try4 env _ _ _ _ rfl

theorem sim_case_S_IP1D (env : ScanEnv) (s : ScanState) (ch : Char) :
    case_S_IP1D env.count s.noOut ch = (case_S_IP1D env s ch).map ScanState.noOut := by
  unfold case_S_IP1D
  dsimp only [ScanState.noOut, ScanEnv.count, push_hi, push_lo]
  try split_ifs
  all_goals first
    | rfl
    | exact congrArg Except.ok (sim_default env _ _ _ rfl)
    | exact congrArg Except.ok (sim_scnlp env _ _ _ rfl)
    | exact congrArg Except.ok (sim_sc env _ _ _ rfl)
    | exact congrArg Except.ok (sim_ip23 env _ _ _ rfl)
    | exact sim_try6 env _ _ _ _ rfl
    | exact sim_try4 env _ _ _ _ rfl

theorem sim_case_S_IP4 (env : ScanEnv) (s : ScanState) (ch : Char) :
    case_S_IP4 env.count s.noOut ch = (case_S_IP4 env s ch).map ScanState.noOut := by
  unfold case_S_IP4
  dsimp only [ScanState.noOut, ScanEnv.count, push_hi, push_lo]
  try split_ifs
  all_goals first
    | rfl
    | exact congrArg Except.ok (sim_default env _ _ _ rfl)
    | exact congrArg Except.ok (sim_scnlp env _ _ _ rfl)
    | exact congrArg Except.ok (sim_sc env _ _ _ rfl)
    | exact congrArg Except.ok (sim_ip23 env _ _ _ rfl)
    | exact sim_try6 env _ _ _ _ rfl
    | exact sim_try4 env _ _ _ _ rfl

theorem sim_case_S_V4SZ (env : ScanEnv) (s : ScanState) (ch : Char) :
    case_S_V4SZ env.count s.noOut ch = (case_S_V4SZ env s ch).map ScanState.noOut := by
  unfold case_S_V4SZ
  dsimp only [ScanState.noOut, ScanEnv.count, push_hi, push_lo]
  try split_ifs
  all_goals first
    | rfl
    | exact congrArg Except.ok (sim_default env _ _ _ rfl)
    | exact congrArg Except.ok (sim_scnlp env _ _ _ rfl)
    | exact congrArg Except.ok (sim_sc env _ _ _ rfl)
    | exact congrArg Except.ok (sim_ip23 env _ _ _ rfl)
    | exact sim_try6 env _ _ _ _ rfl
    | exact sim_try4 env _ _ _ _ rfl

theorem sim_case_S_EIP2 (env : ScanEnv) (s : ScanState) (ch : Char) :
    case_S_EIP2 env.count s.noOut ch = (case_S_EIP2 env s ch).map ScanState.noOut := by
  unfold case_S_EIP2
  dsimp only [ScanState.noOut, ScanEnv.count, push_hi, push_lo]
  try split_ifs
  all_goals first
    | rfl
    | exact congrArg Except.ok (sim_default env _ _ _ rfl)
    | exact congrArg Except.ok (sim_scnlp env _ _ _ rfl)
    | exact congrArg Except.ok (sim_sc env _ _ _ rfl)
    | exact congrArg Except.ok (sim_ip23 env _ _ _ rfl)
    | exact sim_try6 env _ _ _ _ rfl
    | exact sim_try4 env _ _ _ _ rfl

theorem sim_case_S_SCNLP (env : ScanEnv) (s : ScanState) (ch : Char) :
    case_S_SCNLP env.count s.noOut ch = (case_S_SCNLP env s ch).map ScanState.noOut := by
  unfold case_S_SCNLP
  dsimp only [ScanState.noOut, ScanEnv.count, push_hi, push_lo]
  try split_ifs
  all_goals first
    | rfl
    | exact congrArg Except.ok (sim_default env _ _ _ rfl)
    | exact congrArg Except.ok (sim_scnlp env _ _ _ rfl)
    | exact congrArg Except.ok (sim_sc env _ _ _ rfl)
    | exact congrArg Except.ok (sim_ip23 env _ _ _ rfl)
    | exact sim_try6 env _ _ _ _ rfl
    | exact sim_try4 env _ _ _ _ rfl

theorem sim_case_S_SCNL (env : ScanEnv) (s : ScanState) (ch : Char) :
    case_S_SCNL env.count s.noOut ch = (case_S_SCNL env s ch).map ScanState.noOut := by
  unfold case_S_SCNL
  dsimp only [ScanState.noOut, ScanEnv.count, push_hi, push_lo]
  try split_ifs
  all_goals first
    | rfl
    | exact congrArg Except.ok (sim_default env _ _ _ rfl)
    | exact congrArg Except.ok (sim_scnlp env _ _ _ rfl)
    | exact congrArg Except.ok (sim_sc env _ _ _ rfl)
    | exact congrArg Except.ok (sim_ip23 env _ _ _ rfl)
    | exact sim_try6 env _ _ _ _ rfl
    | exact sim_try4 env _ _ _ _ rfl

theorem sim_case_S_HCH (env : ScanEnv) (s : ScanState) (ch : Char) :
    case_S_HCH env.count s.noOut ch = (case_S_HCH env s ch).map ScanState.noOut := by
  unfold case_S_HCH
  dsimp only [ScanState.noOut, ScanEnv.count]
  by_cases h16 : s.nhi < 16
  · simp only [h16, if_true]
    dsimp only [push_hi]
    split_ifs
    all_goals first
      | rfl
      | exact congrArg Except.ok (sim_default env _ _ _ rfl)
      | exact congrArg Except.ok (sim_scnlp env _ _ _ rfl)
      | exact congrArg Except.ok (sim_sc env _ _ _ rfl)
      | exact congrArg Except.ok (sim_ip23 env _ _ _ rfl)
      | exact sim_try6 env _ _ _ _ rfl
      | exact sim_try4 env _ _ _ _ rfl
  · simp only [h16, if_false]
    split_ifs
    all_goals first
      | rfl
      | exact congrArg Except.ok (sim_default env _ _ _ rfl)
      | exact congrArg Except.ok (sim_scnlp env _ _ _ rfl)
      | exact congrArg Except.ok (sim_sc env _ _ _ rfl)
      | exact congrArg Except.ok (sim_ip23 env _ _ _ rfl)
      | exact sim_try6 env _ _ _ _ rfl
      | exact sim_try4 env _ _ _ _ rfl

theorem sim_case_S_LCH (env : ScanEnv) (s : ScanState) (ch : Char) :
    case_S_LCH env.count s.noOut ch = (case_S_LCH env s ch).map ScanState.noOut := by
  unfold case_S_LCH
  dsimp only [ScanState.noOut, ScanEnv.count]
  by_cases h16 : s.nlo < 16
  · simp only [h16, if_true]
    dsimp only [push_lo]
    split_ifs
    all_goals first
      | rfl
      | exact congrArg Except.ok (sim_default env _ _ _ rfl)
      | exact congrArg Except.ok (sim_scnlp env _ _ _ rfl)
      | exact congrArg Except.ok (sim_sc env _ _ _ rfl)
      | exact congrArg Except.ok (sim_ip23 env _ _ _ rfl)
      | exact sim_try6 env _ _ _ _ rfl
      | exact sim_try4 env _ _ _ _ rfl
  · simp only [h16, if_false]
    split_ifs
    all_goals first
      | rfl
      | exact congrArg Except.ok (sim_default env _ _ _ rfl)
      | exact congrArg Except.ok (sim_scnlp env _ _ _ rfl)
      | exact congrArg Except.ok (sim_sc env _ _ _ rfl)
      | exact congrArg Except.ok (sim_ip23 env _ _ _ rfl)
      | exact sim_try6 env _ _ _ _ rfl
      | exact sim_try4 env _ _ _ _ rfl

theorem sim_case_S_V6SZ (env : ScanEnv) (s : ScanState) (ch : Char) :
    case_S_V6SZ env.count s.noOut ch = (case_S_V6SZ env s ch).map ScanState.noOut := by
  unfold case_S_V6SZ
  dsimp only [ScanState.noOut, ScanEnv.count]
  split_ifs
  all_goals first
    | rfl
    | exact congrArg Except.ok (sim_default env _ _ _ rfl)
    | exact congrArg Except.ok (sim_scnlp env _ _ _ rfl)
    | exact congrArg Except.ok (sim_sc env _ _ _ rfl)
    | exact congrArg Except.ok (sim_ip23 env _ _ _ rfl)
    | exact sim_try6 env _ _ _ _ rfl
    | exact sim_try4 env _ _ _ _ rfl
    | (split <;> first
        | rfl
        | exact congrArg Except.ok (sim_default env _ _ _ rfl)
        | exact congrArg Except.ok (sim_scnlp env _ _ _ rfl)
        | exact congrArg Except.ok (sim_sc env _ _ _ rfl)
        | exact congrArg Except.ok (sim_ip23 env _ _ _ rfl)
        | exact sim_try6 env _ _ _ _ rfl
        | exact sim_try4 env _ _ _ _ rfl)

theorem sim_case_S_EIP4 (env : ScanEnv) (s : ScanState) (ch : Char) :
    case_S_EIP4 env.count s.noOut ch = (case_S_EIP4 env s ch).map ScanState.noOut := by
  unfold case_S_EIP4
  dsimp only [ScanState.noOut, ScanEnv.count]
  split_ifs
  all_goals first
    | rfl
    | exact congrArg Except.ok (sim_default env _ _ _ rfl)
    | exact congrArg Except.ok (sim_scnlp env _ _ _ rfl)
    | exact congrArg Except.ok (sim_sc env _ _ _ rfl)
    | exact congrArg Except.ok (sim_ip23 env _ _ _ rfl)
    | exact sim_try6 env _ _ _ _ rfl
    | exact sim_try4 env _ _ _ _ rfl
    | (split <;> first
        | rfl
        | exact congrArg Except.ok (sim_default env _ _ _ rfl)
        | exact congrArg Except.ok (sim_scnlp env _ _ _ rfl)
        | exact congrArg Except.ok (sim_sc env _ _ _ rfl)
        | exact congrArg Except.ok (sim_ip23 env _ _ _ rfl)
        | exact sim_try6 env _ _ _ _ rfl
        | exact sim_try4 env _ _ _ _ rfl)

theorem sim_switch (env : ScanEnv) (s : ScanState) (ch : Char) :
    scan_switch env.count s.noOut ch = (scan_switch env s ch).map ScanState.noOut := by
  unfold scan_switch
  have e : s.noOut.state = s.state := rfl
  rw [e]
  cases hst : s.state <;> dsimp only
  case S_BEG => exact sim_case_S_BEG env s ch
  case S_SC => exact sim_case_S_SC env s ch
  case S_NSC => exact sim_case_S_NSC env s ch
  case S_IC1 => exact sim_case_S_IC1 env s ch
  case S_HCH => exact sim_case_S_HCH env s ch
  case S_HC1 => exact sim_case_S_HC1 env s ch
  case S_HC2 => exact sim_case_S_HC2 env s ch
  case S_V6SZ => exact sim_case_S_V6SZ env s ch
  case S_LCH => exact sim_case_S_LCH env s ch
  case S_LC1 => exact sim_case_S_LC1 env s ch
  case S_IP1 => exact sim_case_S_IP1 env s ch
  case S_IP2 => exact sim_case_S_IP2 env s ch
  case S_IP3 => exact sim_case_S_IP2 env s ch
  case S_IP1D => exact sim_case_S_IP1D env s ch
  case S_IP2D => exact sim_case_S_IP1D env s ch
  case S_IP3D => exact sim_case_S_IP1D env s ch
  case S_EIP1D => exact sim_case_S_IP1D env s ch
  case S_EIP2D => exact sim_case_S_IP1D env s ch
  case S_EIP3D => exact sim_case_S_IP1D env s ch
  case S_IP4 => exact sim_case_S_IP4 env s ch
  case S_V4SZ => exact sim_case_S_V4SZ env s ch
  case S_EIP2 => exact sim_case_S_EIP2 env s ch
  case S_EIP3 => exact sim_case_S_EIP2 env s ch
  case S_EIP4 => exact sim_case_S_EIP4 env s ch
  case S_SCNLP => exact sim_case_S_SCNLP env s ch
  case S_SCNL => exact sim_case_S_SCNL env s ch

theorem sim_iter (env : ScanEnv) (s : ScanState) :
    scan_iter env.count s.noOut = (scan_iter env s).map ScanState.noOut := by
  unfold scan_iter
  have e : s.noOut.p = s.p := rfl
  rw [e]
  cases hp : s.p with
  | nil => rfl
  | cons ch rest => exact sim_switch env { s with p := rest, line := s.line ++ [ch] } ch

theorem sim_loop (env : ScanEnv) : ∀ (fuel : Nat) (s : ScanState),
    scan_loop env.count fuel s.noOut = (scan_loop env fuel s).map ScanState.noOut := by
  intro fuel
  induction fuel with
  | zero =>
    intro s
    have e : s.noOut.p = s.p := rfl
    simp only [scan_loop, e]
    split_ifs <;> rfl
  | succ fuel ih =>
    intro s
    have e : s.noOut.p = s.p := rfl
    simp only [scan_loop, e, sim_iter]
    by_cases hp : s.p = []
    · simp only [hp, if_true]; rfl
    · simp only [hp, if_false]
      cases scan_iter env s with
      | error e => rfl
      | ok s' => exact ih s'

/-- With `counting` set `scan_block` counts what it would else have written. -/
theorem sim_block (env : ScanEnv) (bp : List Char) (nmatch : Nat) :
    scan_block env.count bp nmatch =
      (scan_block env bp nmatch).map (fun r => (([] : List Char), r.2)) := by
  unfold scan_block
  show scan_result (scan_loop env.count (2 * bp.length + 1) (scan_init bp nmatch).noOut) = _
  rw [sim_loop]
  cases scan_loop env (2 * bp.length + 1) (scan_init bp nmatch) <;> rfl

/-! ## What `scan_block` writes -/

theorem printed_plain {env : ScanEnv} (hc : env.counting = false) (hfn : env.fn = none)
    (l : List Char) : printed env l = l := by
  simp [printed, hc, hfn]

/-- A round of the loop keeps the account of the lines read and written. -/
theorem lines_step {env : ScanEnv} {bp : List Char} {n0 : Nat} {s s' : ScanState}
    (hc : env.counting = false) (hfn : env.fn = none) (h : LinesDone bp n0 s)
    (hpost : Post env (cur_line s) s.out s.nmatch s.p s') : LinesDone bp n0 s' := by
  obtain ⟨ls, sel, hbp, hls, hnl, hsub, hout, hn⟩ := h
  obtain ⟨c, hp, hcase⟩ := hpost
  rcases hcase with ⟨hc1, hst, hline, ho, hm⟩ | ⟨body, hcb, hb, hst, hem⟩
  · have hcur : cur_line s' = cur_line s ++ c := by simp [cur_line, hst, hline]
    refine ⟨ls, sel, ?_, hls, ?_, hsub, by rw [ho, hout], by rw [hm, hn]⟩
    · rw [hbp, hp, hcur]; simp
    · rw [hcur]
      intro hmem
      rcases List.mem_append.1 hmem with e | e
      · exact hnl e
      · exact hc1 e
  · have hcur : cur_line s' = [] := by simp [cur_line, hst]
    have hL : IsLine (cur_line s ++ c) := by
      refine ⟨cur_line s ++ body, by rw [hcb]; simp, ?_⟩
      intro hmem
      rcases List.mem_append.1 hmem with e | e
      · exact hnl e
      · exact hb e
    have hbp' : bp = (ls ++ [cur_line s ++ c]).flatten ++ (cur_line s' ++ s'.p) := by
      rw [hbp, hp, hcur]; simp
    have hls' : ∀ l ∈ ls ++ [cur_line s ++ c], IsLine l := by
      intro l hl
      rcases List.mem_append.1 hl with e | e
      · exact hls l e
      · simp at e; rw [e]; exact hL
    rcases hem with ⟨ho, hm⟩ | ⟨ho, hm⟩
    · exact ⟨ls ++ [cur_line s ++ c], sel, hbp', hls', by rw [hcur]; simp,
        hsub.trans (List.sublist_append_left _ _), by rw [ho, hout], by rw [hm, hn]⟩
    · refine ⟨ls ++ [cur_line s ++ c], sel ++ [cur_line s ++ c], hbp', hls', by rw [hcur]; simp,
        List.Sublist.append hsub (List.Sublist.refl _), ?_, ?_⟩
      · rw [ho, hout, printed_plain hc hfn]; simp
      · rw [hm, hn]; simp; omega

/-- C19: for every buffer and every setting of the flags and pattern arrays
with `counting` off and no source name, a call of `scan_block` either runs
into the call of `netmatch` without an IPv4 pattern (which reads outside the
array, and is possible only with `cidrsearch` on and no IPv4 pattern), or it
returns, and then: the buffer is a list `ls` of complete lines, each ending in
its only newline, followed by a rest without newline; what was written is the
concatenation, in the order of the buffer, of a sublist `sel` of these lines,
each whole from its first byte through its newline; `nmatch` has advanced by
the number of lines in `sel`; and with `counting` on the call writes nothing
and advances `nmatch` by the same number. -/
theorem C19_scan_block_lines (env : ScanEnv) (bp : List Char) (nmatch : Nat)
    (hc : env.counting = false) (hfn : env.fn = none) :
    (scan_block env bp nmatch = .error .outOfBounds ∧ env.array = [] ∧
      env.cidrsearch = true) ∨
    ∃ (ls sel : List (List Char)) (rem : List Char),
      bp = ls.flatten ++ rem ∧ (∀ l ∈ ls, IsLine l) ∧ '\n' ∉ rem ∧ sel.Sublist ls ∧
      scan_block env bp nmatch = .ok (sel.flatten, nmatch + sel.length) ∧
      scan_block { env with counting := true } bp nmatch = .ok ([], nmatch + sel.length) := by
  have hrun := scan_exec_inv env (fun s => LinesDone bp nmatch s ∧ Sane env s)
    (fun e => e = .outOfBounds ∧ env.array = [] ∧ env.cidrsearch = true)
    (fun s hs hp => by
      rcases scan_iter_runs env s hs.2 with ⟨s', hs', hsane⟩ | ⟨he, ha, hcs⟩
      · exact Or.inl ⟨s', hs', lines_step hc hfn hs.1 (scan_iter_post env s s' hp hs'), hsane⟩
      · exact Or.inr ⟨_, he, rfl, ha, hcs⟩)
    _ (scan_init bp nmatch) (le_refl _)
    ⟨⟨[], [], by simp [cur_line, scan_init], by simp, by simp [cur_line, scan_init],
        List.Sublist.refl _, rfl, rfl⟩,
      by simp [Sane, scan_init]⟩
  rcases hrun with ⟨s', hs', ⟨⟨ls, sel, hbp, hls, hnl, hsub, hout, hn⟩, _⟩, hp'⟩ |
    ⟨e, he, rfl, ha, hcs⟩
  · right
    have hblock : scan_block env bp nmatch = .ok (sel.flatten, nmatch + sel.length) := by
      rw [scan_block_eq, hs', scan_result, hout, hn]
    refine ⟨ls, sel, cur_line s', by rw [hbp, hp']; simp, hls, hnl, hsub, hblock, ?_⟩
    show scan_block env.count bp nmatch = _
    rw [sim_block, hblock]
    rfl
  · left
    exact ⟨by rw [scan_block_eq, he]; rfl, ha, hcs⟩

/-- C19 at a buffer of four lines and a rest, with the pattern
`192.168.0.0/24` in inverted mode. -/
theorem C19_scan_block_lines_witness :
    (scan_block (env_one true) "10.0.0.1 x\n  192.168.0.7\n\nno address\n10.".toList 0 =
        .error .outOfBounds ∧ (env_one true).array = [] ∧ (env_one true).cidrsearch = true) ∨
    ∃ (ls sel : List (List Char)) (rem : List Char),
      "10.0.0.1 x\n  192.168.0.7\n\nno address\n10.".toList = ls.flatten ++ rem ∧
      (∀ l ∈ ls, IsLine l) ∧ '\n' ∉ rem ∧ sel.Sublist ls ∧
      scan_block (env_one true) "10.0.0.1 x\n  192.168.0.7\n\nno address\n10.".toList 0 =
        .ok (sel.flatten, 0 + sel.length) ∧
      scan_block { env_one true with counting := true }
        "10.0.0.1 x\n  192.168.0.7\n\nno address\n10.".toList 0 = .ok ([], 0 + sel.length) :=
  C19_scan_block_lines (env_one true) _ 0 rfl rfl

/-! ## `net_parse` on malformed tokens -/

/-- C21 on the code: for every dotted quad `a.b.c.d` (octets 0..255 in
decimal) and every character `x` that is no digit, no `/`, no `-` and not NUL,
`net_parse` succeeds on the token `a.b.c.d` followed by `x` and stores the
single address: state `I_IP4` goes to `I_PIP` without looking at `x`. -/
theorem C21_net_parse_trailing_char (sloppy : Bool) (a b c d : Nat) (x : Char)
    (ha : a ≤ 255) (hb : b ≤ 255) (hc : c ≤ 255) (hd : d ≤ 255)
    (hx : isdigit x = false) (h1 : x ≠ '/') (h2 : x ≠ '-') (h3 : x ≠ NUL) :
    net_parse sloppy (dec a ++ ['.'] ++ dec b ++ ['.'] ++ dec c ++ ['.'] ++ dec d ++ [x]) =
      some (⟨((a * 256 + b) * 256 + c) * 256 + d, ((a * 256 + b) * 256 + c) * 256 + d⟩, []) := by
  have e0 : dec a ++ ['.'] ++ dec b ++ ['.'] ++ dec c ++ ['.'] ++ dec d ++ [x] =
      dec a ++ '.' :: (dec b ++ '.' :: (dec c ++ '.' :: (dec d ++ [x]))) := by
    simp
  rw [e0, net_parse, np_octet_dot sloppy _ a _ (Or.inl rfl) (by omega)]
  rw [np_octet_dot sloppy _ b _ (Or.inr (Or.inl rfl)) (by omega)]
  rw [np_octet_dot sloppy _ c _ (Or.inr (Or.inr rfl)) (by omega)]
  rw [np_octet sloppy _ d _ .I_IP4 (fun y hy => by simp [net_parse_switch, hy, iscan.succ])
    (by simp [octetState]) (by omega)]
  have hd' : ¬ d > 255 := by omega
  have nd : isdigit NUL = false := by decide
  rw [net_parse_loop]
  simp only [net_parse_switch, hx, hd', h1, h2, h3, if_false, Bool.false_eq_true]
  simp only [net_parse_loop, net_parse_switch, ip_value a b c d (by omega) (by omega) (by omega)
    (by omega)]
  rw [if_pos trivial, if_neg (by decide), if_neg (by decide)]
  simp [net_parse_finish]

/-- C21 at the token `1.2.3.4x`. -/
theorem C21_net_parse_trailing_char_witness :
    net_parse false "1.2.3.4x".toList = some (⟨0x01020304, 0x01020304⟩, []) :=
  C21_net_parse_trailing_char false 1 2 3 4 'x' (by decide) (by decide) (by decide) (by decide)
    (by decide) (by decide) (by decide) (by decide)

theorem or_ones (x : Nat) (h : x < 2 ^ 32) : x ||| (2 ^ 32 - 1) = 2 ^ 32 - 1 := by
  apply Nat.eq_of_testBit_eq
  intro i
  rw [Nat.testBit_or, Nat.testBit_two_pow_sub_one]
  by_cases hi : i < 32
  · simp [hi]
  · have : x.testBit i = false :=
      Nat.testBit_lt_two_pow (lt_of_lt_of_le h (Nat.pow_le_pow_right (by decide) (by omega)))
    simp [hi, this]

theorem and_ones (x : Nat) (h : x < 2 ^ 32) : x &&& (2 ^ 32 - 1) = x := by
  rw [Nat.and_pow_two_sub_one_eq_mod, Nat.mod_eq_of_lt h]

/-- C24 on the code: for every dotted quad `a.b.c.d` (octets 0..255 in
decimal) `net_parse` succeeds on the token `a.b.c.d/`, whose slash no digit
follows: `size` is still 0, and the token is compiled like `a.b.c.d/0` to the
range of all addresses, with the message "Invalid cidr" unless the address is
`0.0.0.0` or `sloppy` is set. -/
theorem C24_net_parse_empty_mask (sloppy : Bool) (a b c d : Nat)
    (ha : a ≤ 255) (hb : b ≤ 255) (hc : c ≤ 255) (hd : d ≤ 255) :
    net_parse sloppy (dec a ++ ['.'] ++ dec b ++ ['.'] ++ dec c ++ ['.'] ++ dec d ++ ['/']) =
      some (⟨0, 0xFFFFFFFF⟩,
            if ((a * 256 + b) * 256 + c) * 256 + d ≠ 0 ∧ sloppy = false
            then [Diag.invalidCidr] else []) := by
  have e0 : dec a ++ ['.'] ++ dec b ++ ['.'] ++ dec c ++ ['.'] ++ dec d ++ ['/'] =
      dec a ++ '.' :: (dec b ++ '.' :: (dec c ++ '.' :: (dec d ++ '/' :: []))) := by
    simp
  have hlt : ((a * 256 + b) * 256 + c) * 256 + d < 2 ^ 32 := by omega
  rw [e0, net_parse, np_octet_dot sloppy _ a _ (Or.inl rfl) (by omega)]
  rw [np_octet_dot sloppy _ b _ (Or.inr (Or.inl rfl)) (by omega)]
  rw [np_octet_dot sloppy _ c _ (Or.inr (Or.inr rfl)) (by omega)]
  rw [np_last_octet_slash sloppy _ d _ rfl (by omega)]
  simp only [ip_value a b c d (by omega) (by omega) (by omega) (by omega)]
  have hgt : ¬ (0 : Nat) > 32 := by omega
  have hm := hostmask_value 0 (by omega)
  simp only [Nat.sub_zero] at hm
  have hnot : not32 (2 ^ 32 - 1) = 0 := by decide
  simp only [net_parse_loop, net_parse_switch, isdigit, NUL, hm, hnot, or_ones _ hlt,
    and_ones _ hlt, Nat.and_zero]
  simp [net_parse_finish]

/-- C24 at the token `10.1.2.3/`. -/
theorem C24_net_parse_empty_mask_witness :
    net_parse false "10.1.2.3/".toList = some (⟨0, 0xFFFFFFFF⟩, [Diag.invalidCidr]) :=
  C24_net_parse_empty_mask false 10 1 2 3 (by decide) (by decide) (by decide) (by decide)
theorem accum_modeq (m : Nat) (ds : List Char) : ∀ x y : Nat, x ≡ y [MOD m] →
    accum x ds ≡ accum y ds [MOD m] := by
  induction ds with
  | nil => intro x y h; exact h
  | cons c ds ih =>
    intro x y h
    simp only [accum_cons]
    exact ih _ _ ((h.mul_right 10).add_right (dval c))

/-- The 32-bit accumulation of a digit string is its value modulo `2^32`. -/
theorem accum32_eq (ds : List Char) : ∀ v : Nat, v < 2 ^ 32 →
    accum32 v ds = accum v ds % 2 ^ 32 := by
  induction ds with
  | nil =>
    intro v hv
    show v = v % 2 ^ 32
    exact (Nat.mod_eq_of_lt hv).symm
  | cons c ds ih =>
    intro v _
    have h1 : accum32 v (c :: ds) = accum32 (u32 (v * 10 + dval c)) ds := rfl
    have hu : u32 (v * 10 + dval c) < 2 ^ 32 := Nat.mod_lt _ (by decide)
    rw [h1, ih _ hu, accum_cons]
    exact accum_modeq _ ds _ _ (Nat.mod_modEq _ _)

theorem np_digits32 (sl : Bool) (rest : List Char) (ds : List Char) :
    ∀ s : ParseState, octetState s.state → (∀ c ∈ ds, isdigit c = true) →
      net_parse_loop sl s (ds ++ rest) =
        net_parse_loop sl { s with octet := accum32 s.octet ds } rest := by
  induction ds with
  | nil => intro s _ _; rfl
  | cons c ds ih =>
    intro s hst hd
    have hc : isdigit c = true := hd c (List.mem_cons_self _ _)
    have key : net_parse_switch sl s c =
        .next { s with octet := u32 (s.octet * 10 + dval c) } := by
      rcases hst with h | h | h | h | h | h | h | h <;>
        simp [net_parse_switch, h, hc]
    rw [List.cons_append, net_parse_loop, key]
    simp only
    exact ih { s with octet := u32 (s.octet * 10 + dval c) } hst
      (fun x hx => hd x (List.mem_cons_of_mem _ hx))

theorem dval_digit {c : Char} (h : isdigit c = true) : dval c < 10 := by
  simp only [isdigit, Bool.and_eq_true, decide_eq_true_eq] at h
  simp only [dval]
  omega

/-- A numeral of any length read as an octet, from a state whose digit case
starts an octet in state `st1`. -/
theorem np_octet32 (sl : Bool) (s : ParseState) (o : List Char) (rest : List Char) (st1 : iscan)
    (hfirst : ∀ c, isdigit c = true →
      net_parse_switch sl s c = .next { s with octet := dval c, state := st1 })
    (hoct : octetState st1) (ho : IsNumeral o) :
    net_parse_loop sl s (o ++ rest) =
      net_parse_loop sl { s with octet := accum 0 o % 2 ^ 32, state := st1 } rest := by
  obtain ⟨hne, hd⟩ := ho
  cases o with
  | nil => exact absurd rfl hne
  | cons c ds =>
    have hc : isdigit c = true := hd c (List.mem_cons_self _ _)
    rw [List.cons_append, net_parse_loop, hfirst c hc]
    simp only
    rw [np_digits32 sl rest ds _ hoct (fun x hx => hd x (List.mem_cons_of_mem _ hx))]
    have h10 := dval_digit hc
    have e : accum32 (dval c) ds = accum 0 (c :: ds) % 2 ^ 32 := by
      rw [accum32_eq ds (dval c) (by omega), accum_cons]
      simp
    simp only [e]

/-- The dot after an octet: the octet is tested against 255. -/
theorem np_dot32 (sl : Bool) (s : ParseState) (rest : List Char)
    (hst : s.state = .I_IP1 ∨ s.state = .I_IP2 ∨ s.state = .I_IP3 ∨
      s.state = .I_MIP1 ∨ s.state = .I_MIP2 ∨ s.state = .I_MIP3) :
    net_parse_loop sl s ('.' :: rest) =
      if s.octet > 255 then none
      else net_parse_loop sl { s with maxip := u32 (u32 (s.maxip <<< 8) + s.octet),
                                      state := s.state.succ } rest := by
  have nd : isdigit '.' = false := by decide
  rw [net_parse_loop]
  rcases hst with h | h | h | h | h | h <;>
    (simp only [net_parse_switch, h, nd, Bool.false_eq_true, if_false, if_true]
     split_ifs <;> rfl)

/-- The end of the last octet of an address: an octet above 255 fails. -/
theorem np_last32 (sl : Bool) (s : ParseState) (tail : List Char)
    (hst : s.state = .I_IP4 ∨ s.state = .I_MIP4) (hbad : s.octet > 255)
    (htail : ∀ c, tail.head? = some c → isdigit c = false) :
    net_parse_loop sl s tail = none := by
  have nd : isdigit NUL = false := by decide
  cases tail with
  | nil =>
    rw [net_parse_loop]
    rcases hst with h | h <;> simp [net_parse_switch, h, nd, hbad]
  | cons c t =>
    have hc := htail c rfl
    rw [net_parse_loop]
    rcases hst with h | h <;> simp [net_parse_switch, h, hc, hbad]
/-- The first address of a token, read by `net_parse` from its initial
state: it fails if an octet exceeds 255 after 32-bit accumulation, and else
stands in state `I_IP4` at the end of the fourth octet. -/
theorem np_quad32 (sl : Bool) (o1 o2 o3 o4 rest : List Char)
    (h1 : IsNumeral o1) (h2 : IsNumeral o2) (h3 : IsNumeral o3) (h4 : IsNumeral o4) :
    net_parse sl (o1 ++ '.' :: (o2 ++ '.' :: (o3 ++ '.' :: (o4 ++ rest)))) =
      if accum 0 o1 % 2 ^ 32 > 255 ∨ accum 0 o2 % 2 ^ 32 > 255 ∨ accum 0 o3 % 2 ^ 32 > 255
      then none
      else net_parse_loop sl
        ⟨0, u32 (u32 (u32 (u32 (u32 (u32 (0 <<< 8) + accum 0 o1 % 2 ^ 32) <<< 8)
              + accum 0 o2 % 2 ^ 32) <<< 8) + accum 0 o3 % 2 ^ 32),
          accum 0 o4 % 2 ^ 32, 0, .I_IP4, []⟩ rest := by
  rw [net_parse, np_octet32 sl _ o1 _ .I_IP1
    (fun y hy => by simp [net_parse_switch, hy, (isdigit_ne hy).2.2.2.2])
    (by simp [octetState]) h1, np_dot32 sl _ _ (Or.inl rfl)]
  dsimp only
  by_cases b1 : accum 0 o1 % 2 ^ 32 > 255
  · rw [if_pos b1, if_pos (Or.inl b1)]
  rw [if_neg b1, np_octet32 sl _ o2 _ .I_IP2
    (fun y hy => by simp [net_parse_switch, hy, iscan.succ])
    (by simp [octetState]) h2, np_dot32 sl _ _ (Or.inr (Or.inl rfl))]
  dsimp only
  by_cases b2 : accum 0 o2 % 2 ^ 32 > 255
  · rw [if_pos b2, if_pos (Or.inr (Or.inl b2))]
  rw [if_neg b2, np_octet32 sl _ o3 _ .I_IP3
    (fun y hy => by simp [net_parse_switch, hy, iscan.succ])
    (by simp [octetState]) h3, np_dot32 sl _ _ (Or.inr (Or.inr (Or.inl rfl)))]
  dsimp only
  by_cases b3 : accum 0 o3 % 2 ^ 32 > 255
  · rw [if_pos b3, if_pos (Or.inr (Or.inr b3))]
  rw [if_neg b3, if_neg (by tauto), np_octet32 sl _ o4 _ .I_IP4
    (fun y hy => by simp [net_parse_switch, hy, iscan.succ])
    (by simp [octetState]) h4]

/-- The second address of a range, read from state `I_PD`: it fails if an
octet exceeds 255 after 32-bit accumulation. -/
theorem np_quad32_max (sl : Bool) (s : ParseState) (e f g h tail : List Char)
    (hst : s.state = .I_PD)
    (he : IsNumeral e) (hf : IsNumeral f) (hg : IsNumeral g) (hh : IsNumeral h)
    (htail : ∀ c, tail.head? = some c → isdigit c = false)
    (hbad : accum 0 e % 2 ^ 32 > 255 ∨ accum 0 f % 2 ^ 32 > 255 ∨ accum 0 g % 2 ^ 32 > 255 ∨
      accum 0 h % 2 ^ 32 > 255) :
    net_parse_loop sl s (e ++ '.' :: (f ++ '.' :: (g ++ '.' :: (h ++ tail)))) = none := by
  rw [np_octet32 sl _ e _ .I_MIP1
    (fun y hy => by simp [net_parse_switch, hst, hy, (isdigit_ne hy).2.2.2.2])
    (by simp [octetState]) he, np_dot32 sl _ _ (Or.inr (Or.inr (Or.inr (Or.inl rfl))))]
  dsimp only
  by_cases b1 : accum 0 e % 2 ^ 32 > 255
  · rw [if_pos b1]
  rw [if_neg b1, np_octet32 sl _ f _ .I_MIP2
    (fun y hy => by simp [net_parse_switch, hy, iscan.succ])
    (by simp [octetState]) hf, np_dot32 sl _ _ (Or.inr (Or.inr (Or.inr (Or.inr (Or.inl rfl)))))]
  dsimp only
  by_cases b2 : accum 0 f % 2 ^ 32 > 255
  · rw [if_pos b2]
  rw [if_neg b2, np_octet32 sl _ g _ .I_MIP3
    (fun y hy => by simp [net_parse_switch, hy, iscan.succ])
    (by simp [octetState]) hg, np_dot32 sl _ _ (Or.inr (Or.inr (Or.inr (Or.inr (Or.inr rfl)))))]
  dsimp only
  by_cases b3 : accum 0 g % 2 ^ 32 > 255
  · rw [if_pos b3]
  rw [if_neg b3, np_octet32 sl _ h _ .I_MIP4
    (fun y hy => by simp [net_parse_switch, hy, iscan.succ])
    (by simp [octetState]) hh]
  exact np_last32 sl _ tail (Or.inr rfl) (by show accum 0 h % 2 ^ 32 > 255; tauto) htail

/-- A token `a.b.c.d` of four numerals of any length: `net_parse` fails when
an octet exceeds 255 after 32-bit accumulation, and else stores the single
address made of the four accumulated octets. -/
theorem np_quad32_point (sl : Bool) (o1 o2 o3 o4 : List Char)
    (h1 : IsNumeral o1) (h2 : IsNumeral o2) (h3 : IsNumeral o3) (h4 : IsNumeral o4) :
    net_parse sl (o1 ++ ['.'] ++ o2 ++ ['.'] ++ o3 ++ ['.'] ++ o4) =
      if accum 0 o1 % 2 ^ 32 > 255 ∨ accum 0 o2 % 2 ^ 32 > 255 ∨ accum 0 o3 % 2 ^ 32 > 255 ∨
        accum 0 o4 % 2 ^ 32 > 255
      then none
      else some (⟨((accum 0 o1 % 2 ^ 32 * 256 + accum 0 o2 % 2 ^ 32) * 256
                    + accum 0 o3 % 2 ^ 32) * 256 + accum 0 o4 % 2 ^ 32,
                  ((accum 0 o1 % 2 ^ 32 * 256 + accum 0 o2 % 2 ^ 32) * 256
                    + accum 0 o3 % 2 ^ 32) * 256 + accum 0 o4 % 2 ^ 32⟩, []) := by
  have e0 : o1 ++ ['.'] ++ o2 ++ ['.'] ++ o3 ++ ['.'] ++ o4 =
      o1 ++ '.' :: (o2 ++ '.' :: (o3 ++ '.' :: (o4 ++ []))) := by simp
  rw [e0, np_quad32 sl o1 o2 o3 o4 [] h1 h2 h3 h4]
  have nd : isdigit NUL = false := by decide
  by_cases hb : accum 0 o1 % 2 ^ 32 > 255 ∨ accum 0 o2 % 2 ^ 32 > 255 ∨ accum 0 o3 % 2 ^ 32 > 255
  · rw [if_pos hb, if_pos (by tauto)]
  rw [if_neg hb]
  by_cases b4 : accum 0 o4 % 2 ^ 32 > 255
  · rw [if_pos (by tauto)]
    exact np_last32 sl _ [] (Or.inl rfl) b4 (by simp)
  rw [if_neg (by tauto)]
  have hv := ip_value (accum 0 o1 % 2 ^ 32) (accum 0 o2 % 2 ^ 32) (accum 0 o3 % 2 ^ 32)
    (accum 0 o4 % 2 ^ 32) (by omega) (by omega) (by omega) (by omega)
  simp only [net_parse_loop, net_parse_switch, nd, b4, if_false, Bool.false_eq_true, hv]
  simp [net_parse_finish, NUL]

set_option maxRecDepth 100000 in
/-- C23 fails on numerals of `2^32` and more.  `net_parse` accumulates an
octet in an `unsigned int` and compares what is left of it with 255: for every
token `a.b.c.d` of four decimal numerals of any length it fails if and only if
some numeral exceeds 255 modulo `2^32`, and otherwise stores the single
address made of the four values modulo `2^32`.  So `4294967296.0.0.1`, whose
first octet wraps to 0, is compiled to `0.0.0.1`, and `1.2.3.4294967300/32` to
`1.2.3.4`.  Numerals that exceed 255 modulo `2^32` (all those from 256 to
`2^32 - 1` among them) are rejected as claimed, also when anything that does
not begin with a digit follows the address (`/size`, `-e.f.g.h`), and in the
second address of a range whose first address has octets within range. -/
theorem C23_net_parse_octet_wraps :
    (∀ (sloppy : Bool) (o1 o2 o3 o4 : List Char),
      IsNumeral o1 → IsNumeral o2 → IsNumeral o3 → IsNumeral o4 →
      net_parse sloppy (o1 ++ ['.'] ++ o2 ++ ['.'] ++ o3 ++ ['.'] ++ o4) =
        if accum 0 o1 % 2 ^ 32 > 255 ∨ accum 0 o2 % 2 ^ 32 > 255 ∨
          accum 0 o3 % 2 ^ 32 > 255 ∨ accum 0 o4 % 2 ^ 32 > 255
        then none
        else some (⟨((accum 0 o1 % 2 ^ 32 * 256 + accum 0 o2 % 2 ^ 32) * 256
                      + accum 0 o3 % 2 ^ 32) * 256 + accum 0 o4 % 2 ^ 32,
                    ((accum 0 o1 % 2 ^ 32 * 256 + accum 0 o2 % 2 ^ 32) * 256
                      + accum 0 o3 % 2 ^ 32) * 256 + accum 0 o4 % 2 ^ 32⟩, [])) ∧
    net_parse false "4294967296.0.0.1".toList = some (⟨1, 1⟩, []) ∧
    net_parse false "1.2.3.4294967300/32".toList = some (⟨0x01020304, 0x01020304⟩, []) ∧
    net_parse false "1.2.3.4-1.2.3.4294967300".toList
      = some (⟨0x01020304, 0x01020304⟩, []) ∧
    (∀ (sloppy : Bool) (o1 o2 o3 o4 tail : List Char),
      IsNumeral o1 → IsNumeral o2 → IsNumeral o3 → IsNumeral o4 →
      (∀ c, tail.head? = some c → isdigit c = false) →
      (accum 0 o1 % 2 ^ 32 > 255 ∨ accum 0 o2 % 2 ^ 32 > 255 ∨ accum 0 o3 % 2 ^ 32 > 255 ∨
        accum 0 o4 % 2 ^ 32 > 255) →
      net_parse sloppy (o1 ++ ['.'] ++ o2 ++ ['.'] ++ o3 ++ ['.'] ++ o4 ++ tail) = none) ∧
    (∀ (sloppy : Bool) (o1 o2 o3 o4 e f g h tail : List Char),
      IsNumeral o1 → IsNumeral o2 → IsNumeral o3 → IsNumeral o4 →
      IsNumeral e → IsNumeral f → IsNumeral g → IsNumeral h →
      accum 0 o1 % 2 ^ 32 ≤ 255 → accum 0 o2 % 2 ^ 32 ≤ 255 → accum 0 o3 % 2 ^ 32 ≤ 255 →
      accum 0 o4 % 2 ^ 32 ≤ 255 →
      (∀ c, tail.head? = some c → isdigit c = false) →
      (accum 0 e % 2 ^ 32 > 255 ∨ accum 0 f % 2 ^ 32 > 255 ∨ accum 0 g % 2 ^ 32 > 255 ∨
        accum 0 h % 2 ^ 32 > 255) →
      net_parse sloppy (o1 ++ ['.'] ++ o2 ++ ['.'] ++ o3 ++ ['.'] ++ o4 ++ ['-'] ++
        e ++ ['.'] ++ f ++ ['.'] ++ g ++ ['.'] ++ h ++ tail) = none) := by
  refine ⟨np_quad32_point, by decide, by decide, by decide, ?_, ?_⟩
  · intro sloppy o1 o2 o3 o4 tail h1 h2 h3 h4 htail hbad
    have e0 : o1 ++ ['.'] ++ o2 ++ ['.'] ++ o3 ++ ['.'] ++ o4 ++ tail =
        o1 ++ '.' :: (o2 ++ '.' :: (o3 ++ '.' :: (o4 ++ tail))) := by simp
    rw [e0, np_quad32 sloppy o1 o2 o3 o4 tail h1 h2 h3 h4]
    split_ifs with hb
    · rfl
    · exact np_last32 sloppy _ tail (Or.inl rfl)
        (by show accum 0 o4 % 2 ^ 32 > 255; tauto) htail
  · intro sloppy o1 o2 o3 o4 e f g h tail h1 h2 h3 h4 he hf hg hh b1 b2 b3 b4 htail hbad
    have e0 : o1 ++ ['.'] ++ o2 ++ ['.'] ++ o3 ++ ['.'] ++ o4 ++ ['-'] ++
        e ++ ['.'] ++ f ++ ['.'] ++ g ++ ['.'] ++ h ++ tail =
        o1 ++ '.' :: (o2 ++ '.' :: (o3 ++ '.' :: (o4 ++
          '-' :: (e ++ '.' :: (f ++ '.' :: (g ++ '.' :: (h ++ tail))))))) := by simp
    rw [e0, np_quad32 sloppy o1 o2 o3 o4 _ h1 h2 h3 h4, if_neg (by omega)]
    have nd : isdigit '-' = false := by decide
    have hgt : ¬ accum 0 o4 % 2 ^ 32 > 255 := by omega
    rw [net_parse_loop]
    simp only [net_parse_switch, nd, hgt, if_false, Bool.false_eq_true]
    rw [if_pos trivial]
    exact np_quad32_max sloppy _ e f g h tail rfl he hf hg hh htail hbad

set_option maxRecDepth 100000 in
/-- C23 at the token `4294967296.0.0.1`: its first numeral exceeds 255, and
`net_parse` stores the address `0.0.0.1`. -/
theorem C23_net_parse_octet_wraps_witness :
    IsNumeral "4294967296".toList ∧ accum 0 "4294967296".toList > 255 ∧
    net_parse false ("4294967296".toList ++ ['.'] ++ "0".toList ++ ['.'] ++ "0".toList ++
      ['.'] ++ "1".toList) = some (⟨1, 1⟩, []) :=
  ⟨by simp [IsNumeral, isdigit], by decide,
    (C23_net_parse_octet_wraps.1 false "4294967296".toList "0".toList "0".toList "1".toList
      (by simp [IsNumeral, isdigit]) (by simp [IsNumeral, isdigit])
      (by simp [IsNumeral, isdigit]) (by simp [IsNumeral, isdigit])).trans (by decide)⟩

/-! ## `net_parse6` on malformed tokens -/

/-- No state of `net_parse6` reads on after the terminating NUL. -/
theorem np6_switch_nul (s s' : Parse6State) : net_parse6_switch s NUL ≠ .next s' := by
  have h1 : isspace NUL = false := by decide
  have h2 : isxdigit NUL = false := by decide
  have h3 : isdigit NUL = false := by decide
  have h4 : NUL ≠ ':' := by decide
  have h5 : NUL ≠ '.' := by decide
  have h6 : NUL ≠ '/' := by decide
  unfold net_parse6_switch
  cases hst : s.state <;>
    simp only [h1, h2, h3, h4, h5, h6, Bool.false_eq_true, if_false] <;>
    (try split_ifs) <;> simp

/-- A character that is no hexadecimal digit, no blank, no colon, dot or
slash is treated by every state of `net_parse6` like the terminating NUL. -/
theorem np6_switch_junk (s : Parse6State) (c : Char) (hx : isxdigit c = false)
    (hs : isspace c = false) (hc : c ≠ ':') (hd : c ≠ '.') (hl : c ≠ '/') :
    net_parse6_switch s c = net_parse6_switch s NUL := by
  have hdg := isxdigit_digit hx
  have h1 : isspace NUL = false := by decide
  have h2 : isxdigit NUL = false := by decide
  have h3 : isdigit NUL = false := by decide
  have h4 : NUL ≠ ':' := by decide
  have h5 : NUL ≠ '.' := by decide
  have h6 : NUL ≠ '/' := by decide
  unfold net_parse6_switch
  cases hst : s.state <;>
    simp only [hx, hs, hc, hd, hl, hdg, h1, h2, h3, h4, h5, h6, Bool.false_eq_true, if_false]

theorem np6_loop_junk (c : Char) (rest : List Char) (hx : isxdigit c = false)
    (hs : isspace c = false) (hc : c ≠ ':') (hd : c ≠ '.') (hl : c ≠ '/') (T : List Char) :
    ∀ s : Parse6State, net_parse6_loop s (T ++ c :: rest) = net_parse6_loop s T := by
  induction T with
  | nil =>
    intro s
    simp only [List.nil_append, net_parse6_loop, np6_switch_junk s c hx hs hc hd hl]
    cases h : net_parse6_switch s NUL with
    | next s' => exact absurd h (np6_switch_nul s s')
    | brk s' => rfl
    | ret0 => rfl
  | cons x T ih =>
    intro s
    simp only [List.cons_append, net_parse6_loop]
    cases net_parse6_switch s x with
    | next s' => exact ih s'
    | brk s' => rfl
    | ret0 => rfl

set_option maxRecDepth 100000 in
/-- C22 on the code: `net_parse6` does not look at what follows a complete
address: for every token `T`, every character `c` that is no hexadecimal
digit, no blank, no colon, dot or slash, and every text `rest`, it does on
`T c rest` what it does on `T`.  So the token `::1/64z` is compiled like
`::1/64`, and `2001:db8::/32!` like `2001:db8::/32`. -/
theorem C22_net_parse6_trailing_junk :
    (∀ (sloppy : Bool) (T : List Char) (c : Char) (rest : List Char),
      isxdigit c = false → isspace c = false → c ≠ ':' → c ≠ '.' → c ≠ '/' →
      net_parse6 sloppy (T ++ c :: rest) = net_parse6 sloppy T) ∧
    net_parse6 false "::1/64z".toList =
      .ok (some (⟨v6zero, ⟨[0, 0, 0, 0, 0, 0, 0, 0, 255, 255, 255, 255, 255, 255, 255, 255]⟩⟩,
        true)) ∧
    net_parse6 false "2001:db8::/32!".toList = .ok (some (pat6_db8, false)) := by
  refine ⟨?_, by decide, by decide⟩
  intro sloppy T c rest hx hs hc hd hl
  unfold net_parse6 net_parse6_args
  rw [np6_loop_junk c rest hx hs hc hd hl T]

/-- C22 at the token `::1/64z`. -/
theorem C22_net_parse6_trailing_junk_witness :
    net_parse6 false ("::1/64".toList ++ 'z' :: []) = net_parse6 false "::1/64".toList :=
  C22_net_parse6_trailing_junk.1 false "::1/64".toList 'z' [] (by decide) (by decide)
    (by decide) (by decide) (by decide)
/-- Without a slash `net_parse6` never enters `V_SIZE`, and `size` keeps its
initial value -1. -/
theorem np6_switch_no_slash (s : Parse6State) (ch : Char) (hch : ch ≠ '/')
    (hst : s.state ≠ .V_SIZE) (hsz : s.size = -1) :
    (∀ s', net_parse6_switch s ch = .next s' → s'.state ≠ .V_SIZE ∧ s'.size = -1) ∧
    (∀ s', net_parse6_switch s ch = .brk s' → s'.size = -1) := by
  unfold net_parse6_switch
  cases h : s.state
  case V_SIZE => exact absurd h hst
  all_goals
    simp only [hch, if_false]
    refine ⟨fun s' hs' => ?_, fun s' hs' => ?_⟩ <;>
      (split_ifs at hs' <;> first
        | (cases hs'; done)
        | (cases hs'; simp [hsz, h, sv6.succ]; done))

theorem np6_loop_no_slash (T : List Char) : ∀ s : Parse6State, '/' ∉ T →
    s.state ≠ .V_SIZE → s.size = -1 →
    ∀ s', net_parse6_loop s T = .ok (some s') → s'.size = -1 := by
  have hnul : NUL ≠ '/' := by decide
  induction T with
  | nil =>
    intro s _ hst hsz s' h
    simp only [net_parse6_loop] at h
    cases hsw : net_parse6_switch s NUL with
    | next s1 => rw [hsw] at h; cases h
    | ret0 => rw [hsw] at h; cases h
    | brk s1 =>
      rw [hsw] at h
      cases h
      exact (np6_switch_no_slash s NUL hnul hst hsz).2 _ hsw
  | cons x T ih =>
    intro s hT hst hsz s' h
    have hx : x ≠ '/' := fun e => hT (by simp [e])
    have hT' : '/' ∉ T := fun e => hT (List.mem_cons_of_mem _ e)
    simp only [net_parse6_loop] at h
    cases hsw : net_parse6_switch s x with
    | next s1 =>
      rw [hsw] at h
      obtain ⟨h1, h2⟩ := (np6_switch_no_slash s x hx hst hsz).1 _ hsw
      exact ih s1 hT' h1 h2 s' h
    | ret0 => rw [hsw] at h; cases h
    | brk s1 =>
      rw [hsw] at h
      cases h
      exact (np6_switch_no_slash s x hx hst hsz).2 _ hsw

set_option maxRecDepth 100000 in
/-- C29 on the code: on a token without a slash `net_parse6` never returns 1:
whenever it reaches the call of `applymask6`, the size passed is -1, which
fails the assertion `size >= 0 && size <= 128`.  So on the token `::1` the
call is made with the address `::1` and size -1, and `net_parse6` ends in the
failed assertion; so it does on `2001:db8::1`. -/
theorem C29_applymask6_assert_fails :
    (∀ (T : List Char) (ahi : v6addr) (size : Int), '/' ∉ T →
      net_parse6_args T = .ok (some (ahi, size)) →
      size = -1 ∧ applymask6 ahi size = .error .assertFailed ∧
      ∀ sloppy, net_parse6 sloppy T = .error .assertFailed) ∧
    net_parse6_args "::1".toList =
      .ok (some (⟨[0, 0, 0, 0, 0, 0, 0, 0, 0, 0, 0, 0, 0, 0, 0, 1]⟩, -1)) ∧
    net_parse6 false "::1".toList = .error .assertFailed ∧
    net_parse6 false "2001:db8::1".toList = .error .assertFailed := by
  refine ⟨?_, by decide, by decide, by decide⟩
  intro T ahi size hT h
  have hsz : size = -1 := by
    unfold net_parse6_args at h
    cases hl : net_parse6_loop
        ⟨⟨List.replicate 16 0⟩, ⟨List.replicate 16 0⟩, 0, 0, -1, 0, -1, .V_BEG⟩ T with
    | error e => rw [hl] at h; cases h
    | ok r =>
      rw [hl] at h
      cases r with
      | none => cases h
      | some s' =>
        have := np6_loop_no_slash T _ hT (by decide) rfl s' hl
        simp only at h
        cases hc : net_parse6_combine s' with
        | none => rw [hc] at h; cases h
        | some a =>
          rw [hc] at h
          cases h
          exact this
  subst hsz
  have ha : applymask6 ahi (-1) = .error .assertFailed := by
    simp [applymask6]
  refine ⟨rfl, ha, fun sloppy => ?_⟩
  unfold net_parse6
  rw [h]
  simp only [ha]

/-- C29 at the token `1:2:3:4:5:6:7:8`. -/
theorem C29_applymask6_assert_fails_witness :
    (-1 : Int) = -1 ∧
    applymask6 ⟨[0, 1, 0, 2, 0, 3, 0, 4, 0, 5, 0, 6, 0, 7, 0, 8]⟩ (-1) = .error .assertFailed ∧
    ∀ sloppy, net_parse6 sloppy "1:2:3:4:5:6:7:8".toList = .error .assertFailed :=
  C29_applymask6_assert_fails.1 "1:2:3:4:5:6:7:8".toList
    ⟨[0, 1, 0, 2, 0, 3, 0, 4, 0, 5, 0, 6, 0, 7, 0, 8]⟩ (-1) (by decide) (by decide)

set_option maxRecDepth 100000 in
/-- C25 on the code: `net_parse6` does not return 0 on 1 to 7 chunks without
`::`: the loop accepts the tokens `1`, `1:2:3` and `1:2:3:4:5:6:7`, the missing
bytes are filled with zeros after the chunks, and `applymask6` is called with
that address (and size -1); with a prefix length, `1:2:3/48` is compiled to the
range of `1:2:3::/48`.  Eight chunks are accepted and nine are rejected. -/
theorem C25_short_address_accepted :
    net_parse6_args "1".toList =
      .ok (some (⟨[0, 1, 0, 0, 0, 0, 0, 0, 0, 0, 0, 0, 0, 0, 0, 0]⟩, -1)) ∧
    net_parse6_args "1:2:3".toList =
      .ok (some (⟨[0, 1, 0, 2, 0, 3, 0, 0, 0, 0, 0, 0, 0, 0, 0, 0]⟩, -1)) ∧
    net_parse6_args "1:2:3:4:5:6:7".toList =
      .ok (some (⟨[0, 1, 0, 2, 0, 3, 0, 4, 0, 5, 0, 6, 0, 7, 0, 0]⟩, -1)) ∧
    net_parse6 false "1:2:3".toList ≠ .ok none ∧
    net_parse6 false "1:2:3/48".toList =
      .ok (some (⟨⟨[0, 1, 0, 2, 0, 3, 0, 0, 0, 0, 0, 0, 0, 0, 0, 0]⟩,
        ⟨[0, 1, 0, 2, 0, 3, 255, 255, 255, 255, 255, 255, 255, 255, 255, 255]⟩⟩, false)) ∧
    net_parse6 false "1:2:3:4:5:6:7:8/128".toList =
      .ok (some (⟨⟨[0, 1, 0, 2, 0, 3, 0, 4, 0, 5, 0, 6, 0, 7, 0, 8]⟩,
        ⟨[0, 1, 0, 2, 0, 3, 0, 4, 0, 5, 0, 6, 0, 7, 0, 8]⟩⟩, false)) ∧
    net_parse6 false "1:2:3:4:5:6:7:8:9/128".toList = .ok none := by
  refine ⟨?_, ?_, ?_, ?_, ?_, ?_, ?_⟩ <;> decide

set_option maxRecDepth 100000 in
/-- C26 on the code: on the token `1:2:3:4:5:6:10.2.3.4` `net_parse6` calls
`applymask6` with an address whose bytes 12 to 15 are 9, 2, 3, 4 (and with
size -1); with `/128` it compiles `1:2:3:4:5:6:10.2.3.4/128` to that address
and `1:2:3:4:5:6:255.2.3.4/128` to the address with bytes 244, 2, 3, 4, and it
returns 0 on `1:2:3:4:5:6:00.2.3.4/128`: state `V_HCH` adds `ch - '1'` for
every further digit of the first octet.  An octet of one digit is stored as
written. -/
theorem C26_embedded_quad_first_octet :
    net_parse6_args "1:2:3:4:5:6:10.2.3.4".toList =
      .ok (some (⟨[0, 1, 0, 2, 0, 3, 0, 4, 0, 5, 0, 6, 9, 2, 3, 4]⟩, -1)) ∧
    net_parse6 false "1:2:3:4:5:6:10.2.3.4/128".toList = .ok (some (pat6_quad9, false)) ∧
    net_parse6 false "1:2:3:4:5:6:255.2.3.4/128".toList =
      .ok (some (⟨⟨[0, 1, 0, 2, 0, 3, 0, 4, 0, 5, 0, 6, 244, 2, 3, 4]⟩,
        ⟨[0, 1, 0, 2, 0, 3, 0, 4, 0, 5, 0, 6, 244, 2, 3, 4]⟩⟩, false)) ∧
    net_parse6 false "1:2:3:4:5:6:00.2.3.4/128".toList = .ok none ∧
    net_parse6 false "1:2:3:4:5:6:7.2.3.4/128".toList =
      .ok (some (⟨⟨[0, 1, 0, 2, 0, 3, 0, 4, 0, 5, 0, 6, 7, 2, 3, 4]⟩,
        ⟨[0, 1, 0, 2, 0, 3, 0, 4, 0, 5, 0, 6, 7, 2, 3, 4]⟩⟩, false)) := by
  refine ⟨?_, ?_, ?_, ?_, ?_⟩ <;> decide

/-! ## The embedded dotted quad under `cidrsearch` -/

set_option maxRecDepth 100000 in
/-- C27 fails with `cidrsearch` on.  With the single pattern `10.0.0.0/24`:
the address `10.0.0.5` lies in the pattern and the line `::10.0.0.5` is
emitted, yet the line `::10.0.0.5/16` is not emitted, since the candidate is
the range `10.0.0.0` to `10.0.255.255`, which does not lie in the pattern; the
same line is emitted with `cidrsearch` off, and so is `::10.0.0.5/24`.  In
overlap mode (`didrsearch`) the address `10.0.1.5` meets no pattern and the
line `::10.0.1.5` is not emitted, yet `::10.0.1.5/16` and
`1:2:3:4:5:6:10.0.1.5/16` are emitted, since the widened range meets the
pattern. -/
theorem C27_embedded_quad_cidr_suffix :
    netmatch false (env_cidr false).array ⟨0x0A000005, 0x0A000005⟩ = .ok true ∧
    scan_block (env_cidr false) "::10.0.0.5\n".toList 0 = .ok ("::10.0.0.5\n".toList, 1) ∧
    scan_block (env_cidr false) "::10.0.0.5/16\n".toList 0 = .ok ([], 0) ∧
    scan_block { env_cidr false with cidrsearch := false } "::10.0.0.5/16\n".toList 0
      = .ok ("::10.0.0.5/16\n".toList, 1) ∧
    scan_block (env_cidr false) "::10.0.0.5/24\n".toList 0
      = .ok ("::10.0.0.5/24\n".toList, 1) ∧
    netmatch true (env_cidr true).array ⟨0x0A000105, 0x0A000105⟩ = .ok false ∧
    scan_block (env_cidr true) "::10.0.1.5\n".toList 0 = .ok ([], 0) ∧
    scan_block (env_cidr true) "::10.0.1.5/16\n".toList 0
      = .ok ("::10.0.1.5/16\n".toList, 1) ∧
    scan_block (env_cidr true) "1:2:3:4:5:6:10.0.1.5/16\n".toList 0
      = .ok ("1:2:3:4:5:6:10.0.1.5/16\n".toList, 1) := by
  refine ⟨?_, ?_, ?_, ?_, ?_, ?_, ?_, ?_, ?_⟩ <;> decide

/-! ## Calls of `netmatch` without an IPv4 pattern -/

/-- A run of `scan_block` returns, unless it calls `netmatch` without an IPv4
pattern, which is only possible with `cidrsearch` on. -/
theorem scan_block_runs (env : ScanEnv) (bp : List Char) (nmatch : Nat) :
    (∃ r, scan_block env bp nmatch = .ok r) ∨
      (scan_block env bp nmatch = .error .outOfBounds ∧ env.array = [] ∧
        env.cidrsearch = true) := by
  have hrun := scan_exec_inv env (fun s => Sane env s)
    (fun e => e = .outOfBounds ∧ env.array = [] ∧ env.cidrsearch = true)
    (fun s hs hp => by
      rcases scan_iter_runs env s hs with ⟨s', hs', hsane⟩ | ⟨he, ha, hcs⟩
      · exact Or.inl ⟨s', hs', hsane⟩
      · exact Or.inr ⟨_, he, rfl, ha, hcs⟩)
    _ (scan_init bp nmatch) (le_refl _) (by simp [Sane, scan_init])
  rcases hrun with ⟨s', hs', _, _⟩ | ⟨e, he, rfl, ha, hcs⟩
  · left
    exact ⟨_, by rw [scan_block_eq, hs']; rfl⟩
  · right
    exact ⟨by rw [scan_block_eq, he]; rfl, ha, hcs⟩

set_option maxRecDepth 100000 in
/-- C28 fails with `cidrsearch` on.  `netmatch` with no IPv4 pattern reads
`array[0]` outside the array, whatever the candidate; with `cidrsearch` on, no
IPv4 pattern and the IPv6 pattern `2001:db8::/32`, `scan_block` reaches that
call on the line `::1.2.3.4/8`, and equally with no pattern at all, while it
returns on the lines `::1.2.3.4` and `1.2.3.4/8`.  With `cidrsearch` off the
claim holds: for every buffer and every setting of the other flags and of the
IPv6 patterns, `scan_block` without an IPv4 pattern returns, having made no
call of `netmatch`. -/
theorem C28_netmatch_without_patterns :
    (∀ (didr : Bool) (c : netspec), netmatch didr [] c = .error .outOfBounds) ∧
    scan_block env_v6_cidr "::1.2.3.4/8\n".toList 0 = .error .outOfBounds ∧
    scan_block { env_v6_cidr with array6 := [] } "::1.2.3.4/8\n".toList 0
      = .error .outOfBounds ∧
    scan_block env_v6_cidr "::1.2.3.4\n".toList 0 = .ok ([], 0) ∧
    scan_block env_v6_cidr "1.2.3.4/8\n".toList 0 = .ok ([], 0) ∧
    ∀ (env : ScanEnv) (bp : List Char) (nmatch : Nat), env.array = [] →
      env.cidrsearch = false → ∃ r, scan_block env bp nmatch = .ok r := by
  refine ⟨netmatch_nil, by decide, by decide, by decide, by decide, ?_⟩
  intro env bp nmatch _ hcs
  rcases scan_block_runs env bp nmatch with h | ⟨_, _, h⟩
  · exact h
  · rw [hcs] at h
    exact absurd h (by decide)

/-- C28 with `cidrsearch` off, at the globals of `env_v6_cidr` otherwise and
the line `::1.2.3.4/8`. -/
theorem C28_netmatch_without_patterns_witness :
    ({ env_v6_cidr with cidrsearch := false } : ScanEnv).array = [] ∧
    ({ env_v6_cidr with cidrsearch := false } : ScanEnv).cidrsearch = false ∧
    ∃ r, scan_block { env_v6_cidr with cidrsearch := false } "::1.2.3.4/8\n".toList 0 = .ok r :=
  ⟨rfl, rfl, C28_netmatch_without_patterns.2.2.2.2.2
    { env_v6_cidr with cidrsearch := false } "::1.2.3.4/8\n".toList 0 rfl rfl⟩

/-! ## Buffers without a newline -/

/-- On text without a newline a round of the loop leaves text without a
newline and neither writes nor counts. -/
theorem no_newline_step {env : ScanEnv} {s s' : ScanState} (hnl : '\n' ∉ s.p)
    (hp : s.p ≠ []) (h : scan_iter env s = .ok s') :
    '\n' ∉ s'.p ∧ s'.out = s.out ∧ s'.nmatch = s.nmatch := by
  obtain ⟨c, hc, hcase⟩ := scan_iter_post env s s' hp h
  rcases hcase with ⟨_, _, _, ho, hn⟩ | ⟨body, hcb, _, _, _⟩
  · refine ⟨fun hmem => hnl ?_, ho, hn⟩
    rw [hc]
    exact List.mem_append_right _ hmem
  · exfalso
    apply hnl
    rw [hc, hcb]
    simp

/-- On a buffer without a newline every state that the loop reaches has
nothing written and the counter unchanged. -/
theorem scan_rounds_no_newline (env : ScanEnv) : ∀ (k : Nat) (s s' : ScanState),
    '\n' ∉ s.p → scan_rounds env k s = .ok s' →
    '\n' ∉ s'.p ∧ s'.out = s.out ∧ s'.nmatch = s.nmatch := by
  intro k
  induction k with
  | zero =>
    intro s s' hnl h
    simp only [scan_rounds, Except.ok.injEq] at h
    subst h
    exact ⟨hnl, rfl, rfl⟩
  | succ k ih =>
    intro s s' hnl h
    by_cases hp : s.p = []
    · simp only [scan_rounds, hp, if_true, Except.ok.injEq] at h
      subst h
      exact ⟨hnl, rfl, rfl⟩
    · simp only [scan_rounds, hp, if_false] at h
      cases hi : scan_iter env s with
      | error e => rw [hi] at h; exact absurd h (by simp)
      | ok s1 =>
        rw [hi] at h
        obtain ⟨h1, h2, h3⟩ := no_newline_step hnl hp hi
        obtain ⟨h4, h5, h6⟩ := ih s1 s' h1 h
        exact ⟨h4, by rw [h5, h2], by rw [h6, h3]⟩

/-- C30: for every buffer without a newline and every setting of the flags and
pattern arrays, `scan_block` returns having written nothing and left `nmatch`
unchanged, unless the run ends in the call of `netmatch` without an IPv4
pattern (possible only with `cidrsearch` on and no IPv4 pattern); and in every
state that the loop reaches after any number of rounds, also on a run that
ends in that call, nothing has been written and `nmatch` is unchanged. -/
theorem C30_no_newline_no_output (env : ScanEnv) (bp : List Char) (nmatch : Nat)
    (hnl : '\n' ∉ bp) :
    (scan_block env bp nmatch = .ok ([], nmatch) ∨
      (scan_block env bp nmatch = .error .outOfBounds ∧ env.array = [] ∧
        env.cidrsearch = true)) ∧
    ∀ (k : Nat) (s' : ScanState), scan_rounds env k (scan_init bp nmatch) = .ok s' →
      s'.out = [] ∧ s'.nmatch = nmatch := by
  constructor
  · have hrun := scan_exec_inv env
      (fun s => ('\n' ∉ s.p ∧ s.out = [] ∧ s.nmatch = nmatch) ∧ Sane env s)
      (fun e => e = .outOfBounds ∧ env.array = [] ∧ env.cidrsearch = true)
      (fun s hs hp => by
        rcases scan_iter_runs env s hs.2 with ⟨s', hs', hsane⟩ | ⟨he, ha, hcs⟩
        · obtain ⟨h1, h2, h3⟩ := no_newline_step hs.1.1 hp hs'
          exact Or.inl ⟨s', hs', ⟨h1, by rw [h2, hs.1.2.1], by rw [h3, hs.1.2.2]⟩, hsane⟩
        · exact Or.inr ⟨_, he, rfl, ha, hcs⟩)
      _ (scan_init bp nmatch) (le_refl _)
      ⟨⟨hnl, rfl, rfl⟩, by simp [Sane, scan_init]⟩
    rcases hrun with ⟨s', hs', ⟨⟨_, ho, hn⟩, _⟩, _⟩ | ⟨e, he, rfl, ha, hcs⟩
    · left
      rw [scan_block_eq, hs', scan_result, ho, hn]
    · right
      exact ⟨by rw [scan_block_eq, he]; rfl, ha, hcs⟩
  · intro k s' h
    obtain ⟨_, h2, h3⟩ := scan_rounds_no_newline env k _ s' hnl h
    exact ⟨h2, h3⟩

set_option maxRecDepth 100000 in
/-- C30 at the pattern `192.168.0.0/24` and the buffer `192.168.0.55` without
a newline: nothing is written or counted, while the same text followed by a
newline is emitted. -/
theorem C30_no_newline_no_output_witness :
    '\n' ∉ "192.168.0.55".toList ∧
    scan_block (env_one false) "192.168.0.55\n".toList 0 = .ok ("192.168.0.55\n".toList, 1) ∧
    (scan_block (env_one false) "192.168.0.55".toList 0 = .ok ([], 0) ∨
      (scan_block (env_one false) "192.168.0.55".toList 0 = .error .outOfBounds ∧
        (env_one false).array = [] ∧ (env_one false).cidrsearch = true)) ∧
    ∀ (k : Nat) (s' : ScanState),
      scan_rounds (env_one false) k (scan_init "192.168.0.55".toList 0) = .ok s' →
      s'.out = [] ∧ s'.nmatch = 0 :=
  ⟨by decide, by decide, C30_no_newline_no_output (env_one false) "192.168.0.55".toList 0 (by decide)⟩

end Grepcidr
